import Mathlib

/-! ExaEpi agent kernels: a shallow embedding of `AgentContainer`.

The development follows `src/AgentContainer.H` and `src/AgentContainer.cpp`.

Conventions of the embedding.

* Real-valued attributes (`amrex::Real`, `amrex::ParticleReal`) are rationals, so all
  arithmetic is exact.
* Integer attributes are `Int`; the enumerators of `Status` are the integers `0..4`.
* One tile of the particle container is a `List Agent`: position (array of structs part)
  plus the integer and real structure-of-arrays components of one particle.
* `amrex::Random(engine)` is the next value of a stream `Nat → ℚ` owned by the loop index of
  `ParallelForRNG`; the number of values already taken is threaded explicitly.
* `amrex::RandomNormal(mean, std, engine)` is a stream `ℚ → ℚ → Nat → ℚ` of sampled values.
* A parallel loop is embedded as the sequential loop over its index range.
* A read of a particle array or of a bin array outside its bounds, and a failing
  `AMREX_ALWAYS_ASSERT`, make a kernel return `none`.
* Reads of the fixed probability tables (`CHR`, `CIC`, `CVE`, `CVF`) are total: an
  age group outside `0..4` (undefined in the source) reads `0`.
* `DiseaseParm` (header `DiseaseParm.H`) enters as a parameter: the fields the kernels
  read are the fields of the structure `DiseaseParm` below, arrays being functions of
  their index.
-/

set_option linter.unnecessarySeqFocus false

namespace ExaEpi

/-! ## Data model (`AgentContainer.H`) -/

/-- Disease status, `struct Status` of `AgentContainer.H`. -/
abbrev Status.never : Int := 0
/-- Infected. -/
abbrev Status.infected : Int := 1
/-- No longer infected, immune. -/
abbrev Status.immune : Int := 2
/-- No longer infected, no longer immune. -/
abbrev Status.susceptible : Int := 3
/-- Passed away. -/
abbrev Status.dead : Int := 4

/-- One agent: its position and the attributes listed in `IntIdx` and `RealIdx`. -/
structure Agent where
  pos_x : ℚ
  pos_y : ℚ
  status : Int
  strain : Int
  age_group : Int
  family : Int
  home_i : Int
  home_j : Int
  work_i : Int
  work_j : Int
  nborhood : Int
  school : Int
  workgroup : Int
  work_nborhood : Int
  withdrawn : Int
  symptomatic : Int
  disease_counter : ℚ
  treatment_timer : ℚ
  prob : ℚ
  incubation_period : ℚ
  infectious_period : ℚ
  symptomdev_period : ℚ
  deriving DecidableEq

/-- The disease parameters read by the kernels (`lparm->...`). -/
structure DiseaseParm where
  infect : ℚ
  vac_eff : ℚ
  xmit_child : Int → ℚ
  xmit_child_SC : Int → ℚ
  xmit_adult : Int → ℚ
  xmit_adult_SC : Int → ℚ
  xmit_nc_child : Int → ℚ
  xmit_nc_child_SC : Int → ℚ
  xmit_nc_adult : Int → ℚ
  xmit_nc_adult_SC : Int → ℚ
  xmit_comm : Int → ℚ
  xmit_comm_SC : Int → ℚ
  xmit_hood : Int → ℚ
  xmit_hood_SC : Int → ℚ
  xmit_work : ℚ
  xmit_school : Int → ℚ
  xmit_sch_a2c : Int → ℚ
  xmit_sch_c2a : Int → ℚ
  incubation_length_mean : ℚ
  incubation_length_std : ℚ
  infectious_length_mean : ℚ
  infectious_length_std : ℚ
  symptomdev_length_mean : ℚ
  symptomdev_length_std : ℚ

/-- Community-wise disease statistics `ds_arr(i, j, 0, comp)`. -/
abbrev Stats := Int → Int → Nat → ℚ

/-- Component `hospitalization` of the local `struct DiseaseStats` of `updateStatus`. -/
abbrev DiseaseStats.hospitalization : Nat := 0
/-- Component `ICU`. -/
abbrev DiseaseStats.ICU : Nat := 1
/-- Component `ventilator`. -/
abbrev DiseaseStats.ventilator : Nat := 2
/-- Component `death`. -/
abbrev DiseaseStats.death : Nat := 3

/-- The call `amrex::Gpu::Atomic::AddNoRet(&ds_arr(i, j, 0, comp), v)`. -/
def atomicAddNoRet (ds : Stats) (i j : Int) (comp : Nat) (v : ℚ) : Stats :=
  fun i' j' c' => if i' = i ∧ j' = j ∧ c' = comp then ds i' j' c' + v else ds i' j' c'

/-- Read of one of the five-entry probability tables at an age group. -/
def tableAt (t : List ℚ) (age : Int) : ℚ :=
  if 0 ≤ age then t.getD age.toNat 0 else 0

/-- Table `CHR`: sick to hospital probabilities. -/
def CHR : List ℚ := [104/10000, 104/10000, 7/100, 28/100, 1]
/-- Table `CIC`: hospital to ICU probabilities. -/
def CIC : List ℚ := [24/100, 24/100, 24/100, 36/100, 35/100]
/-- Table `CVE`: ICU to ventilator probabilities. -/
def CVE : List ℚ := [12/100, 12/100, 12/100, 22/100, 22/100]
/-- Table `CVF`: ventilator to dead probabilities. -/
def CVF : List ℚ := [20/100, 20/100, 20/100, 45/100, 126/100]

/-! ## `AgentContainer::updateStatus` -/

/-- The state of one iteration of the `ParallelForRNG` lambda of `updateStatus`: the agent
`i`, the disease statistics, and the number of values taken from the engine so far. -/
structure Thread where
  a : Agent
  ds : Stats
  k : Nat

/-- Lines 842-874: the hospitalisation decision on the day the counter equals
`ceil(incubation_period)`. -/
def onsetBlock (engine : Nat → ℚ) (t : Thread) : Thread :=
  let p_hosp := tableAt CHR t.a.age_group
  if engine t.k < p_hosp then
    let t : Thread := { t with k := t.k + 1 }
    let t : Thread :=
      if t.a.age_group < 3 then
        { t with a := { t.a with treatment_timer := 3 } }
      else if t.a.age_group = 4 then
        { t with a := { t.a with treatment_timer := 7 } }
      else if engine t.k < 57/100 then
        { t with a := { t.a with treatment_timer := 3 }, k := t.k + 1 }
      else
        { t with a := { t.a with treatment_timer := 8 }, k := t.k + 1 }
    let t : Thread :=
      { t with ds := atomicAddNoRet t.ds t.a.home_i t.a.home_j DiseaseStats.hospitalization 1 }
    if engine t.k < tableAt CIC t.a.age_group then
      let t : Thread :=
        { a := { t.a with treatment_timer := t.a.treatment_timer + 10 }
          ds := atomicAddNoRet t.ds t.a.home_i t.a.home_j DiseaseStats.ICU 1
          k := t.k + 1 }
      if engine t.k < tableAt CVE t.a.age_group then
        { a := { t.a with treatment_timer := t.a.treatment_timer + 10 }
          ds := atomicAddNoRet t.ds t.a.home_i t.a.home_j DiseaseStats.ventilator 1
          k := t.k + 1 }
      else
        { t with k := t.k + 1 }
    else
      { t with k := t.k + 1 }
  else
    { t with k := t.k + 1 }

/-- Lines 879-895: the block `if (timer_ptr[i] == 0)`. -/
def wardBlock (engine : Nat → ℚ) (t : Thread) : Thread :=
  if t.a.treatment_timer = 0 then
    let t : Thread :=
      if tableAt CVF t.a.age_group > 2 then
        if engine t.k < tableAt CVF t.a.age_group - 2 then
          { a := { t.a with status := Status.dead }
            ds := atomicAddNoRet t.ds t.a.home_i t.a.home_j DiseaseStats.death 1
            k := t.k + 1 }
        else
          { t with k := t.k + 1 }
      else t
    let t : Thread :=
      { t with ds := atomicAddNoRet t.ds t.a.home_i t.a.home_j DiseaseStats.hospitalization (-1) }
    if t.a.status ≠ Status.dead then
      { t with a := { t.a with status := Status.immune } }
    else t
  else t

/-- Lines 896-912: the block `if (timer_ptr[i] == 10)`. -/
def icuBlock (engine : Nat → ℚ) (t : Thread) : Thread :=
  if t.a.treatment_timer = 10 then
    let t : Thread :=
      if tableAt CVF t.a.age_group > 1 then
        if engine t.k < tableAt CVF t.a.age_group - 1 then
          { a := { t.a with status := Status.dead }
            ds := atomicAddNoRet t.ds t.a.home_i t.a.home_j DiseaseStats.death 1
            k := t.k + 1 }
        else
          { t with k := t.k + 1 }
      else t
    let t : Thread :=
      { t with ds := atomicAddNoRet t.ds t.a.home_i t.a.home_j DiseaseStats.ICU (-1) }
    if t.a.status ≠ Status.dead then
      { t with a := { t.a with status := Status.immune } }
    else t
  else t

/-- Lines 913-928: the block `if (timer_ptr[i] == 20)`. -/
def ventilatorBlock (engine : Nat → ℚ) (t : Thread) : Thread :=
  if t.a.treatment_timer = 20 then
    let t : Thread :=
      if engine t.k < tableAt CVF t.a.age_group then
        { a := { t.a with status := Status.dead }
          ds := atomicAddNoRet t.ds t.a.home_i t.a.home_j DiseaseStats.death 1
          k := t.k + 1 }
      else
        { t with k := t.k + 1 }
    let t : Thread :=
      { t with ds := atomicAddNoRet t.ds t.a.home_i t.a.home_j DiseaseStats.ventilator (-1) }
    if t.a.status ≠ Status.dead then
      { t with a := { t.a with status := Status.immune } }
    else t
  else t

/-- Lines 830-936: the body of the `ParallelForRNG` lambda of `updateStatus` for one
agent, with the engine of its loop index. -/
def updateStatusAgent (engine : Nat → ℚ) (ds : Stats) (a : Agent) : Agent × Stats :=
  let a : Agent := { a with prob := 1 }
  if a.status = Status.never ∨ a.status = Status.susceptible then
    (a, ds)
  else if a.status = Status.infected then
    let a : Agent := { a with disease_counter := a.disease_counter + 1 }
    if a.disease_counter < a.incubation_period then
      (a, ds)
    else if a.disease_counter = (⌈a.incubation_period⌉ : ℚ) then
      let t := onsetBlock engine { a := a, ds := ds, k := 0 }
      (t.a, t.ds)
    else if a.treatment_timer > 0 then
      let t : Thread := { a := { a with treatment_timer := a.treatment_timer - 1 }, ds := ds, k := 0 }
      let t := ventilatorBlock engine (icuBlock engine (wardBlock engine t))
      (t.a, t.ds)
    else if a.disease_counter ≥ a.incubation_period + a.infectious_period then
      ({ a with status := Status.immune }, ds)
    else
      (a, ds)
  else
    (a, ds)

/-- The loop `ParallelForRNG(np, ...)` of `updateStatus`, from loop index `i` on. -/
def updateStatusFrom (engine : Nat → Nat → ℚ) : Nat → Stats → List Agent → List Agent × Stats
  | _, ds, [] => ([], ds)
  | i, ds, a :: rest =>
    let r := updateStatusAgent (engine i) ds a
    let r' := updateStatusFrom engine (i + 1) r.2 rest
    (r.1 :: r'.1, r'.2)

/-- `AgentContainer::updateStatus` on one tile. -/
def updateStatus (engine : Nat → Nat → ℚ) (ds : Stats) (ag : List Agent) : List Agent × Stats :=
  updateStatusFrom engine 0 ds ag

/-! ## `AgentContainer::infectAgents` -/

/-- Lines 1068-1079: the body of the `ParallelForRNG` lambda of `infectAgents`. -/
def infectAgentsAgent (lparm : DiseaseParm) (engine : Nat → ℚ) (normal : ℚ → ℚ → Nat → ℚ)
    (a : Agent) : Agent :=
  let a : Agent := { a with prob := 1 - a.prob }
  if a.status = Status.never ∨ a.status = Status.susceptible then
    if engine 0 < a.prob then
      { a with
        status := Status.infected
        disease_counter := 0
        incubation_period := normal lparm.incubation_length_mean lparm.incubation_length_std 0
        infectious_period := normal lparm.infectious_length_mean lparm.infectious_length_std 1
        symptomdev_period := normal lparm.symptomdev_length_mean lparm.symptomdev_length_std 2 }
    else a
  else a

/-- The loop `ParallelForRNG(np, ...)` of `infectAgents`, from loop index `i` on. -/
def infectAgentsFrom (lparm : DiseaseParm) (engine : Nat → Nat → ℚ)
    (normal : Nat → ℚ → ℚ → Nat → ℚ) : Nat → List Agent → List Agent
  | _, [] => []
  | i, a :: rest =>
    infectAgentsAgent lparm (engine i) (normal i) a :: infectAgentsFrom lparm engine normal (i + 1) rest

/-- `AgentContainer::infectAgents` on one tile. -/
def infectAgents (lparm : DiseaseParm) (engine : Nat → Nat → ℚ)
    (normal : Nat → ℚ → ℚ → Nat → ℚ) (ag : List Agent) : List Agent :=
  infectAgentsFrom lparm engine normal 0 ag

/-! ## Bins (`amrex::DenseBins`) -/

/-- The two arrays of a built `amrex::DenseBins`: `permutationPtr()` and `offsetsPtr()`. -/
structure Bins where
  inds : List Nat
  offsets : List Nat

/-- The member `numItems()`. -/
def Bins.numItems (b : Bins) : Nat := b.inds.length

/-- The member `numBins()` of built bins. -/
def Bins.numBins (b : Bins) : Nat := b.offsets.length - 1

/-! ## `AgentContainer::interactAgents` (simple cell mode) -/

/-- Lines 1005-1010: one iteration of the first pass over a cell; `num_infected` is the
pair of its two entries. An entry other than `0` or `1` of `strain` is outside the array. -/
def countInfectedStep (inds : List Nat) (ag : List Agent) (num_infected : Nat × Nat) (i : Nat) :
    Option (Nat × Nat) := do
  let pindex ← inds[i]?
  let a ← ag[pindex]?
  if a.status = 1 then
    if a.strain = 0 then pure (num_infected.1 + 1, num_infected.2)
    else if a.strain = 1 then pure (num_infected.1, num_infected.2 + 1)
    else none
  else pure num_infected

/-- Lines 1013-1027: one iteration of the second pass over a cell; the state is the agent
store and the number of values taken from the engine of the cell. -/
def infectStep (engine : Nat → ℚ) (inds : List Nat) (num_infected : Nat × Nat)
    (s : List Agent × Nat) (i : Nat) : Option (List Agent × Nat) := do
  let pindex ← inds[i]?
  let a ← s.1[pindex]?
  if a.status ≠ Status.infected ∧ a.status ≠ Status.immune then
    if engine s.2 < (1/10000 : ℚ) * (num_infected.1 : ℚ) then
      pure (s.1.set pindex { a with strain := 0, status := Status.infected, disease_counter := 0 },
            s.2 + 1)
    else if engine (s.2 + 1) < (2/10000 : ℚ) * (num_infected.2 : ℚ) then
      pure (s.1.set pindex { a with strain := 1, status := Status.infected, disease_counter := 0 },
            s.2 + 2)
    else pure (s.1, s.2 + 2)
  else pure s

/-- Lines 1000-1027: the body of the `ParallelForRNG` lambda of `interactAgents` for the
cell `i_cell`, with the engine of that loop index. -/
def interactAgentsCell (engine : Nat → ℚ) (bins : Bins) (ag : List Agent) (i_cell : Nat) :
    Option (List Agent) := do
  let cell_start ← bins.offsets[i_cell]?
  let cell_stop ← bins.offsets[i_cell + 1]?
  let num_infected ←
    (List.range' cell_start (cell_stop - cell_start)).foldlM (countInfectedStep bins.inds ag) (0, 0)
  let s ← (List.range' cell_start (cell_stop - cell_start)).foldlM
    (infectStep engine bins.inds num_infected) (ag, 0)
  pure s.1

/-- `AgentContainer::interactAgents` on one tile; `bins` is the result of `bins.build` on
the current positions. -/
def interactAgents (engine : Nat → Nat → ℚ) (bins : Bins) (ag : List Agent) :
    Option (List Agent) :=
  (List.range bins.numBins).foldlM (fun ag i_cell => interactAgentsCell (engine i_cell) bins ag i_cell) ag

/-! ## `AgentContainer::interactAgentsHomeWork` -/

/-- Lines 1245-1259: the household term, multiplied into the local `prob`. -/
def familyTerm (lparm : DiseaseParm) (infect : ℚ) (ai aj : Agent) (prob : ℚ) : ℚ :=
  if aj.age_group ≤ 1 then
    if aj.school < 0 then prob * (1 - infect * lparm.xmit_child_SC ai.age_group)
    else prob * (1 - infect * lparm.xmit_child ai.age_group)
  else
    if aj.school < 0 then prob * (1 - infect * lparm.xmit_adult_SC ai.age_group)
    else prob * (1 - infect * lparm.xmit_adult ai.age_group)

/-- Lines 1262-1276: the neighbourhood cluster term. -/
def clusterTerm (lparm : DiseaseParm) (infect social_scale : ℚ) (ai aj : Agent) (prob : ℚ) : ℚ :=
  if aj.age_group ≤ 1 then
    if aj.school < 0 then prob * (1 - infect * lparm.xmit_nc_child_SC ai.age_group * social_scale)
    else prob * (1 - infect * lparm.xmit_nc_child ai.age_group * social_scale)
  else
    if aj.school < 0 then prob * (1 - infect * lparm.xmit_nc_adult_SC ai.age_group * social_scale)
    else prob * (1 - infect * lparm.xmit_nc_adult ai.age_group * social_scale)

/-- Lines 1283-1287: the community term. -/
def communityTerm (lparm : DiseaseParm) (infect social_scale : ℚ) (ai aj : Agent) (prob : ℚ) : ℚ :=
  if aj.school < 0 then prob * (1 - infect * lparm.xmit_comm_SC ai.age_group * social_scale)
  else prob * (1 - infect * lparm.xmit_comm ai.age_group * social_scale)

/-- Lines 1290-1294: the workgroup term. -/
def workgroupTerm (lparm : DiseaseParm) (DAYTIME : Bool) (infect work_scale : ℚ) (ai aj : Agent)
    (prob : ℚ) : ℚ :=
  if DAYTIME = true ∧ aj.workgroup ≠ 0 ∧ aj.work_i ≥ 0 then
    if ai.work_i ≥ 0 ∧ ai.workgroup = aj.workgroup then prob * (1 - infect * lparm.xmit_work * work_scale)
    else prob
  else prob

/-- Lines 1297-1313: the neighbourhood term with the playgroup and day care term inside. -/
def hoodTerm (lparm : DiseaseParm) (DAYTIME : Bool) (infect social_scale : ℚ) (ai aj : Agent)
    (prob : ℚ) : ℚ :=
  if ai.nborhood = aj.nborhood then
    let prob :=
      if aj.school < 0 then prob * (1 - infect * lparm.xmit_hood_SC ai.age_group * social_scale)
      else prob * (1 - infect * lparm.xmit_hood ai.age_group * social_scale)
    if ai.school = aj.school ∧ DAYTIME = true then
      if ai.school > 5 then prob * (1 - infect * lparm.xmit_school 6 * social_scale)
      else if ai.school = 5 then prob * (1 - infect * lparm.xmit_school 5 * social_scale)
      else prob
    else prob
  else prob

/-- Lines 1316-1327: the elementary, middle and high school term. -/
def schoolTerm (lparm : DiseaseParm) (DAYTIME : Bool) (infect social_scale : ℚ) (ai aj : Agent)
    (prob : ℚ) : ℚ :=
  if ai.school = aj.school ∧ DAYTIME = true ∧ ai.school > 0 ∧ ai.school < 5 then
    if ai.age_group ≤ 1 then
      if aj.age_group ≤ 1 then prob * (1 - infect * lparm.xmit_school ai.school * social_scale)
      else prob * (1 - infect * lparm.xmit_sch_a2c ai.school * social_scale)
    else if aj.age_group ≤ 1 then prob * (1 - infect * lparm.xmit_sch_c2a ai.school * social_scale)
    else prob
  else prob

/-- Lines 1235-1328: the local `prob` that the pair (receiver `ai`, transmitter `aj`)
hands to `Gpu::Atomic::Multiply`. -/
def pairProb (lparm : DiseaseParm) (DAYTIME : Bool) (ai aj : Agent) : ℚ :=
  let infect : ℚ := lparm.infect * lparm.vac_eff
  let social_scale : ℚ := 1
  let work_scale : ℚ := 1
  let prob : ℚ := 1
  let prob : ℚ :=
    if ai.nborhood = aj.nborhood ∧ ai.family = aj.family ∧ ¬ (DAYTIME = true) then
      familyTerm lparm infect ai aj prob
    else if ai.nborhood = aj.nborhood ∧ ai.withdrawn = 0 ∧ aj.withdrawn = 0 ∧
        ai.family.tdiv 4 = aj.family.tdiv 4 ∧ ¬ (DAYTIME = true) then
      clusterTerm lparm infect social_scale ai aj prob
    else prob
  if ai.withdrawn = 0 ∧ aj.withdrawn = 0 then
    let prob := communityTerm lparm infect social_scale ai aj prob
    let prob := workgroupTerm lparm DAYTIME infect work_scale ai aj prob
    let prob := hoodTerm lparm DAYTIME infect social_scale ai aj prob
    schoolTerm lparm DAYTIME infect social_scale ai aj prob
  else prob

/-- The call `Gpu::Atomic::Multiply(&prob_ptr[i], prob)`. -/
def atomicMultiply (ag : List Agent) (i : Nat) (prob : ℚ) : List Agent :=
  match ag[i]? with
  | some a => ag.set i { a with prob := a.prob * prob }
  | none => ag

/-- Lines 1223-1330: one iteration of the loop over `jj` run for the receiver `i`. -/
def pairStep (lparm : DiseaseParm) (DAYTIME : Bool) (inds : List Nat) (i : Nat)
    (ag : List Agent) (jj : Nat) : Option (List Agent) := do
  let j ← inds[jj]?
  if i = j then pure ag
  else
    let aj ← ag[j]?
    let ai ← ag[i]?
    if aj.status = Status.immune then pure ag
    else if aj.status = Status.dead then pure ag
    else if aj.status = Status.infected ∧ aj.disease_counter < aj.incubation_period then pure ag
    else if aj.status = Status.infected ∧
        (ai.status ≠ Status.infected ∧ ai.status ≠ Status.dead) then
      if aj.disease_counter < aj.incubation_period then pure ag
      else pure (atomicMultiply ag i (pairProb lparm DAYTIME ai aj))
    else pure ag

/-- Lines 1212-1331: the body of the `ParallelFor` lambda of `interactAgentsHomeWork` at
loop index `ii`; `binner` is the functor `GetParticleBin`, which reads the position of
the particle. -/
def homeWorkThread (lparm : DiseaseParm) (DAYTIME : Bool) (binner : ℚ → ℚ → Nat) (bins : Bins)
    (ag : List Agent) (ii : Nat) : Option (List Agent) := do
  let i ← bins.inds[ii]?
  let ai ← ag[i]?
  let i_cell := binner ai.pos_x ai.pos_y
  let cell_start ← bins.offsets[i_cell]?
  let cell_stop ← bins.offsets[i_cell + 1]?
  if ai.status = Status.immune then pure ag
  else if ai.status = Status.dead then pure ag
  else if ai.status = Status.infected ∧ ai.disease_counter < ai.incubation_period then pure ag
  else
    (List.range' cell_start (cell_stop - cell_start)).foldlM (pairStep lparm DAYTIME bins.inds i) ag

/-- Lines 1171-1334: the contact kernel of `interactAgentsHomeWork` on one tile with the
bins of the phase, `DAYTIME = !home`. -/
def interactAgentsHomeWorkKernel (lparm : DiseaseParm) (home : Bool) (binner : ℚ → ℚ → Nat)
    (bins : Bins) (ag : List Agent) : Option (List Agent) :=
  let DAYTIME : Bool := !home
  (List.range bins.numItems).foldlM (homeWorkThread lparm DAYTIME binner bins) ag

/-- One tile of the container: the agents and the cached bins `m_bins_home` and
`m_bins_work`; `none` stands for bins never built (`numBins() < 0`). -/
structure Tile where
  agents : List Agent
  m_bins_home : Option Bins
  m_bins_work : Option Bins

/-- The bins of the phase: `home ? &m_bins_home[pair_ind] : &m_bins_work[pair_ind]`. -/
def Tile.phaseBins (home : Bool) (t : Tile) : Option Bins :=
  if home then t.m_bins_home else t.m_bins_work

/-- Lines 1161-1163: the bins of the phase are built if they never were. `build` is
`DenseBins::build(BinPolicy::Serial, np, pstruct_ptr, ntiles, binner)` on the agents. -/
def Tile.ensureBins (build : List Agent → Bins) (home : Bool) (t : Tile) : Tile :=
  match t.phaseBins home with
  | some _ => t
  | none =>
    if home then { t with m_bins_home := some (build t.agents) }
    else { t with m_bins_work := some (build t.agents) }

/-- `AgentContainer::interactAgentsHomeWork` on one tile: the first loop builds the bins of
the phase if needed and asserts `np == numItems()`, the second loop asserts that the bins
are built and runs the contact kernel. -/
def interactAgentsHomeWork (lparm : DiseaseParm) (build : List Agent → Bins)
    (binner : ℚ → ℚ → Nat) (home : Bool) (t : Tile) : Option Tile := do
  let t := t.ensureBins build home
  let bins ← t.phaseBins home
  if t.agents.length ≠ bins.numItems then none
  else
    let ag ← interactAgentsHomeWorkKernel lparm home binner bins t.agents
    pure { t with agents := ag }

/-! ## Concrete agents used in the examples -/

/-- An agent with every attribute zero except `prob = 1` and unit periods: never infected,
age group `0`, at the origin. -/
def agentZero : Agent :=
  { pos_x := 0, pos_y := 0, status := Status.never, strain := 0, age_group := 0, family := 0,
    home_i := 0, home_j := 0, work_i := 0, work_j := 0, nborhood := 0, school := 0,
    workgroup := 0, work_nborhood := 0, withdrawn := 0, symptomatic := 0,
    disease_counter := 0, treatment_timer := 0, prob := 1, incubation_period := 1,
    infectious_period := 1, symptomdev_period := 1 }

/-- Statistics that are zero everywhere. -/
def statsZero : Stats := fun _ _ _ => 0

/-- An engine whose every value is `0`. -/
def engineZero : Nat → ℚ := fun _ => 0

/-- An engine whose every value is `1/2`. -/
def engineHalf : Nat → ℚ := fun _ => 1/2

/-- Bins of a tile with one cell holding the agents `0` and `1`. -/
def binsOneCell : Bins := { inds := [0, 1], offsets := [0, 2] }

/-- An infected agent of strain `0`. -/
def agentInfected : Agent := { agentZero with status := Status.infected }

/-- A dead agent. -/
def agentDead : Agent := { agentZero with status := Status.dead }

/-- An infected agent past incubation in intensive care, one day before its timer
reaches `10`. -/
def agentICU : Agent :=
  { agentZero with status := Status.infected, disease_counter := 5, treatment_timer := 11 }

/-- An infected agent past incubation on a ventilator, one day before its timer
reaches `20`. -/
def agentVentilated : Agent :=
  { agentZero with status := Status.infected, disease_counter := 5, treatment_timer := 21 }

/-- Disease parameters with `infect = vac_eff = 1`, every transmission rate `1/2` and
zero means and deviations. -/
def lparmUnit : DiseaseParm :=
  { infect := 1, vac_eff := 1,
    xmit_child := fun _ => 1/2, xmit_child_SC := fun _ => 1/2,
    xmit_adult := fun _ => 1/2, xmit_adult_SC := fun _ => 1/2,
    xmit_nc_child := fun _ => 1/2, xmit_nc_child_SC := fun _ => 1/2,
    xmit_nc_adult := fun _ => 1/2, xmit_nc_adult_SC := fun _ => 1/2,
    xmit_comm := fun _ => 1/2, xmit_comm_SC := fun _ => 1/2,
    xmit_hood := fun _ => 1/2, xmit_hood_SC := fun _ => 1/2,
    xmit_work := 1/2,
    xmit_school := fun _ => 1/2, xmit_sch_a2c := fun _ => 1/2, xmit_sch_c2a := fun _ => 1/2,
    incubation_length_mean := 0, incubation_length_std := 0,
    infectious_length_mean := 0, infectious_length_std := 0,
    symptomdev_length_mean := 0, symptomdev_length_std := 0 }

/-- A never infected agent whose contact kernel result is `prob = 1/4`. -/
def agentExposed : Agent := { agentZero with prob := 1/4 }

/-! ## The mixing groups as the specification tabulates them -/

/-- The factor a mixing group contributes: `1 - infect * rate` when it is active. -/
def groupFactor (active : Prop) [Decidable active] (infect rate : ℚ) : ℚ :=
  if active then 1 - infect * rate else 1

/-- Base rate of the household group: child or adult transmitter, in school or not,
indexed by the age group of the receiver. -/
def householdRate (lparm : DiseaseParm) (ai aj : Agent) : ℚ :=
  if aj.age_group ≤ 1 then
    if aj.school ≥ 0 then lparm.xmit_child ai.age_group else lparm.xmit_child_SC ai.age_group
  else
    if aj.school ≥ 0 then lparm.xmit_adult ai.age_group else lparm.xmit_adult_SC ai.age_group

/-- Base rate of the neighbourhood cluster group. -/
def clusterRate (lparm : DiseaseParm) (ai aj : Agent) : ℚ :=
  if aj.age_group ≤ 1 then
    if aj.school ≥ 0 then lparm.xmit_nc_child ai.age_group
    else lparm.xmit_nc_child_SC ai.age_group
  else
    if aj.school ≥ 0 then lparm.xmit_nc_adult ai.age_group
    else lparm.xmit_nc_adult_SC ai.age_group

/-- Base rate of the community group. -/
def communityRate (lparm : DiseaseParm) (ai aj : Agent) : ℚ :=
  if aj.school ≥ 0 then lparm.xmit_comm ai.age_group else lparm.xmit_comm_SC ai.age_group

/-- Base rate of the neighbourhood group. -/
def hoodRate (lparm : DiseaseParm) (ai aj : Agent) : ℚ :=
  if aj.school ≥ 0 then lparm.xmit_hood ai.age_group else lparm.xmit_hood_SC ai.age_group

/-- Base rate of the day care and playgroup group. -/
def daycareRate (lparm : DiseaseParm) (ai : Agent) : ℚ :=
  if ai.school > 5 then lparm.xmit_school 6 else lparm.xmit_school 5

/-- Base rate of the elementary, middle and high school group; no rate is tabulated
between two adults. -/
def schoolRate (lparm : DiseaseParm) (ai aj : Agent) : ℚ :=
  if ai.age_group ≤ 1 then
    if aj.age_group ≤ 1 then lparm.xmit_school ai.school else lparm.xmit_sch_a2c ai.school
  else
    if aj.age_group ≤ 1 then lparm.xmit_sch_c2a ai.school else 0

/-- The household group is active: same `nborhood`, same `family`, not `DAYTIME`. -/
def householdActive (DAYTIME : Bool) (ai aj : Agent) : Prop :=
  ai.nborhood = aj.nborhood ∧ ai.family = aj.family ∧ DAYTIME = false

instance (DAYTIME : Bool) (ai aj : Agent) : Decidable (householdActive DAYTIME ai aj) := by
  unfold householdActive; infer_instance

/-- The neighbourhood cluster group is active as tabulated: same `nborhood`, same
`family/4`, neither withdrawn, not `DAYTIME`. -/
def clusterActive (DAYTIME : Bool) (ai aj : Agent) : Prop :=
  ai.nborhood = aj.nborhood ∧ ai.family.tdiv 4 = aj.family.tdiv 4 ∧ ai.withdrawn = 0 ∧
    aj.withdrawn = 0 ∧ DAYTIME = false

instance (DAYTIME : Bool) (ai aj : Agent) : Decidable (clusterActive DAYTIME ai aj) := by
  unfold clusterActive; infer_instance

/-- The workgroup group is active as tabulated. -/
def workgroupActive (DAYTIME : Bool) (ai aj : Agent) : Prop :=
  DAYTIME = true ∧ aj.workgroup ≠ 0 ∧ aj.work_i ≥ 0 ∧ ai.work_i ≥ 0 ∧ ai.workgroup = aj.workgroup

instance (DAYTIME : Bool) (ai aj : Agent) : Decidable (workgroupActive DAYTIME ai aj) := by
  unfold workgroupActive; infer_instance

/-- The day care and playgroup group is active as tabulated. -/
def daycareActive (DAYTIME : Bool) (ai aj : Agent) : Prop :=
  ai.nborhood = aj.nborhood ∧ ai.school = aj.school ∧ DAYTIME = true ∧ ai.school ≥ 5

instance (DAYTIME : Bool) (ai aj : Agent) : Decidable (daycareActive DAYTIME ai aj) := by
  unfold daycareActive; infer_instance

/-- The elementary, middle and high school group is active as tabulated. -/
def schoolActive (DAYTIME : Bool) (ai aj : Agent) : Prop :=
  ai.school = aj.school ∧ 1 ≤ ai.school ∧ ai.school ≤ 4 ∧ DAYTIME = true

instance (DAYTIME : Bool) (ai aj : Agent) : Decidable (schoolActive DAYTIME ai aj) := by
  unfold schoolActive; infer_instance

/-- Neither agent of the pair is withdrawn. -/
def neitherWithdrawn (ai aj : Agent) : Prop := ai.withdrawn = 0 ∧ aj.withdrawn = 0

instance (ai aj : Agent) : Decidable (neitherWithdrawn ai aj) := by
  unfold neitherWithdrawn; infer_instance

/-- The factor of a pair as the table of mixing groups of the specification reads: every
group whose "active when" condition holds contributes its factor. -/
def specPairProb (lparm : DiseaseParm) (DAYTIME : Bool) (ai aj : Agent) : ℚ :=
  let infect := lparm.infect * lparm.vac_eff
  groupFactor (householdActive DAYTIME ai aj) infect (householdRate lparm ai aj) *
  groupFactor (clusterActive DAYTIME ai aj) infect (clusterRate lparm ai aj) *
  groupFactor (neitherWithdrawn ai aj) infect (communityRate lparm ai aj) *
  groupFactor (workgroupActive DAYTIME ai aj) infect lparm.xmit_work *
  groupFactor (ai.nborhood = aj.nborhood) infect (hoodRate lparm ai aj) *
  groupFactor (daycareActive DAYTIME ai aj) infect (daycareRate lparm ai) *
  groupFactor (schoolActive DAYTIME ai aj) infect (schoolRate lparm ai aj)

/-- The factor of a pair with the groups as the kernel nests them: the neighbourhood
cluster group only when the household group is not active, and every group other than
these two only when neither agent is withdrawn. -/
def nestedPairProb (lparm : DiseaseParm) (DAYTIME : Bool) (ai aj : Agent) : ℚ :=
  let infect := lparm.infect * lparm.vac_eff
  groupFactor (householdActive DAYTIME ai aj) infect (householdRate lparm ai aj) *
  groupFactor (¬ householdActive DAYTIME ai aj ∧ clusterActive DAYTIME ai aj) infect
    (clusterRate lparm ai aj) *
  groupFactor (neitherWithdrawn ai aj) infect (communityRate lparm ai aj) *
  groupFactor (neitherWithdrawn ai aj ∧ workgroupActive DAYTIME ai aj) infect lparm.xmit_work *
  groupFactor (neitherWithdrawn ai aj ∧ ai.nborhood = aj.nborhood) infect (hoodRate lparm ai aj) *
  groupFactor (neitherWithdrawn ai aj ∧ daycareActive DAYTIME ai aj) infect
    (daycareRate lparm ai) *
  groupFactor (neitherWithdrawn ai aj ∧ schoolActive DAYTIME ai aj) infect
    (schoolRate lparm ai aj)

/-- The parameters with both neighbourhood tables set to zero. -/
def withoutHood (lparm : DiseaseParm) : DiseaseParm :=
  { lparm with xmit_hood := fun _ => 0, xmit_hood_SC := fun _ => 0 }

/-- A receiver: never infected, age group `0`, family `0`, neighbourhood `0`, not
withdrawn, `prob = 1`. -/
def agentReceiver : Agent := agentZero

/-- A transmitter of the same family and neighbourhood: infected and past incubation. -/
def agentTransmitter : Agent :=
  { agentZero with status := Status.infected, disease_counter := 5 }

/-- A withdrawn receiver. -/
def agentWithdrawn : Agent := { agentZero with withdrawn := 1 }

/-! ## Closed form of the contact kernel -/

/-- Lines 1227-1233: the transmitter `aj` is infected and past incubation and the receiver
`ai` is neither infected nor dead, so that the pair reaches `Gpu::Atomic::Multiply`. -/
def transmits (ai aj : Agent) : Prop :=
  aj.status = Status.infected ∧ ¬ (aj.disease_counter < aj.incubation_period) ∧
    ai.status ≠ Status.infected ∧ ai.status ≠ Status.dead

instance (ai aj : Agent) : Decidable (transmits ai aj) := by
  unfold transmits; infer_instance

/-- The factor by which one iteration of the loop over `jj` multiplies `prob` of the
receiver: the local `prob` of the pair when it transmits, and `1` when it is skipped. -/
def pairFactor (lparm : DiseaseParm) (DAYTIME : Bool) (ai aj : Agent) : ℚ :=
  if transmits ai aj then pairProb lparm DAYTIME ai aj else 1

/-- The factor of the iteration that meets the transmitter index `j`, for the receiver
index `i`; `none` when a read fails. -/
def factorOf (lparm : DiseaseParm) (DAYTIME : Bool) (ag : List Agent) (i j : Nat) : Option ℚ :=
  if i = j then some 1
  else
    match ag[j]?, ag[i]? with
    | some aj, some ai => some (pairFactor lparm DAYTIME ai aj)
    | _, _ => none

/-- Product of the factors `f j` over a list of indices; `none` when one of them is. -/
def prodM (f : Nat → Option ℚ) : List Nat → Option ℚ
  | [] => some 1
  | j :: l =>
    match f j, prodM f l with
    | some c, some r => some (c * r)
    | _, _ => none

/-- Lines 1218-1220: the receiver is immune, dead, or infected and still incubating. -/
def receiverSkipped (ai : Agent) : Prop :=
  ai.status = Status.immune ∨ ai.status = Status.dead ∨
    (ai.status = Status.infected ∧ ai.disease_counter < ai.incubation_period)

instance (ai : Agent) : Decidable (receiverSkipped ai) := by
  unfold receiverSkipped; infer_instance

/-- The factor by which the loop index that handles the receiver `i` multiplies `prob[i]`;
`none` when a read fails. -/
def receiverFactor (lparm : DiseaseParm) (DAYTIME : Bool) (binner : ℚ → ℚ → Nat) (bins : Bins)
    (ag : List Agent) (i : Nat) : Option ℚ :=
  match ag[i]? with
  | none => none
  | some ai =>
    match bins.offsets[binner ai.pos_x ai.pos_y]?, bins.offsets[binner ai.pos_x ai.pos_y + 1]? with
    | some cell_start, some cell_stop =>
      if receiverSkipped ai then some 1
      else
        prodM (fun jj => (bins.inds[jj]?).bind (factorOf lparm DAYTIME ag i))
          (List.range' cell_start (cell_stop - cell_start))
    | _, _ => none

/-- The agent with its `prob` field set to `0`. -/
def eraseProb (a : Agent) : Agent := { a with prob := 0 }

/-- The bins fit the agent store: every entry of `inds` is an agent, the cell of every
agent has its two offsets, and no offset points behind `inds`. -/
structure BinsFit (binner : ℚ → ℚ → Nat) (bins : Bins) (ag : List Agent) : Prop where
  inds_lt : ∀ i ∈ bins.inds, i < ag.length
  cell_lt : ∀ a ∈ ag, binner a.pos_x a.pos_y + 1 < bins.offsets.length
  offsets_le : ∀ o ∈ bins.offsets, o ≤ bins.inds.length

/-- The agents of the cell `[cell_start, cell_stop)` in bin order. -/
def Bins.cell (bins : Bins) (cell_start cell_stop : Nat) : List Nat :=
  (bins.inds.drop cell_start).take (cell_stop - cell_start)

/-- The effect of the loop index that handles the receiver `i`: `prob[i]` is multiplied by
the factor of the receiver. -/
def receiverStep (lparm : DiseaseParm) (DAYTIME : Bool) (binner : ℚ → ℚ → Nat) (bins : Bins)
    (ag : List Agent) (i : Nat) : Option (List Agent) :=
  (receiverFactor lparm DAYTIME binner bins ag i).map (atomicMultiply ag i)

/-- Every field other than `prob` is the same in `a'` as in `a`. -/
def sameButProb (a a' : Agent) : Prop := a' = { a with prob := a'.prob }

/-- An infectious agent of the same neighbourhood as `agentZero` and of another family
and family cluster. -/
def agentNeighbour : Agent :=
  { agentZero with status := Status.infected, disease_counter := 5, family := 8 }

/-- A tile of two agents, a receiver and a transmitter of its family, whose bins were
never built. -/
def tileTwo : Tile :=
  { agents := [agentReceiver, agentTransmitter], m_bins_home := none, m_bins_work := none }

/-- The transmission tables of the disease parameters that the contact kernel reads. -/
def DiseaseParm.tables (lparm : DiseaseParm) : List (Int → ℚ) :=
  [lparm.xmit_child, lparm.xmit_child_SC, lparm.xmit_adult, lparm.xmit_adult_SC,
   lparm.xmit_nc_child, lparm.xmit_nc_child_SC, lparm.xmit_nc_adult, lparm.xmit_nc_adult_SC,
   lparm.xmit_comm, lparm.xmit_comm_SC, lparm.xmit_hood, lparm.xmit_hood_SC,
   lparm.xmit_school, lparm.xmit_sch_a2c, lparm.xmit_sch_c2a]

/-- Every product `infect * vac_eff * rate` that the contact kernel can use lies in
`[0, 1]`. -/
def RatesInUnit (lparm : DiseaseParm) : Prop :=
  (∀ T ∈ lparm.tables, ∀ k : Int,
      0 ≤ lparm.infect * lparm.vac_eff * T k ∧ lparm.infect * lparm.vac_eff * T k ≤ 1) ∧
    0 ≤ lparm.infect * lparm.vac_eff * lparm.xmit_work ∧
    lparm.infect * lparm.vac_eff * lparm.xmit_work ≤ 1

/-- The bin of the cell of the agent `a` holds, at an index `jj` of its range, an agent
`j` other than `k` that is infected with `disease_counter ≥ incubation_period`. -/
def cellHasTransmitter (binner : ℚ → ℚ → Nat) (bins : Bins) (ag : List Agent) (k : Nat)
    (a : Agent) : Prop :=
  ∃ cell_start cell_stop jj j aj,
    bins.offsets[binner a.pos_x a.pos_y]? = some cell_start ∧
    bins.offsets[binner a.pos_x a.pos_y + 1]? = some cell_stop ∧
    cell_start ≤ jj ∧ jj < cell_stop ∧ bins.inds[jj]? = some j ∧ j ≠ k ∧
    ag[j]? = some aj ∧ aj.status = Status.infected ∧
    aj.incubation_period ≤ aj.disease_counter

/-- The bins `binsOneCell` with the two agents of the cell in the other order. -/
def binsOneCellSwapped : Bins := { inds := [1, 0], offsets := [0, 2] }

/-- An immune agent with a stale timer and counter. -/
def agentImmune : Agent :=
  { agentZero with status := Status.immune, disease_counter := 9, treatment_timer := 10 }

/-- An infected agent of age group `4` on its onset day: the incremented counter `1`
equals `ceil(incubation_period) = 1`. -/
def agentOnsetSenior : Agent :=
  { agentZero with status := Status.infected, age_group := 4 }

/-- An infected agent of age group `3` on its onset day. -/
def agentOnsetAdult : Agent :=
  { agentZero with status := Status.infected, age_group := 3 }

/-- An infected agent past its onset day on the last day of its ward stay. -/
def agentWard : Agent :=
  { agentZero with status := Status.infected, disease_counter := 5, treatment_timer := 1 }

/-- An infected agent of age group `4` past its onset day on a ventilator, one day before
its timer reaches `20`. -/
def agentVentilatedSenior : Agent :=
  { agentZero with status := Status.infected, age_group := 4, disease_counter := 5,
                   treatment_timer := 21 }

/-- An infected agent that was never hospitalised, past incubation and past its
infectious period. -/
def agentRecovering : Agent :=
  { agentZero with status := Status.infected, disease_counter := 5 }

/-- An infected agent that is not hospitalised, on its onset day, with an infectious
period `3/10` shorter than the remainder of the onset day: the incremented counter `3`
equals `ceil(5/2)` and is at least `5/2 + 3/10`. -/
def agentShortInfectious : Agent :=
  { agentZero with status := Status.infected, disease_counter := 2, incubation_period := 5/2,
                   infectious_period := 3/10 }

/-- The base hospital stay decided on the onset day, as the specification states it: `3`
for the age groups `0..2`, `7` for the age group `4`, and for the age group `3` the value
`3` if the second draw is below `0.57` and `8` otherwise. -/
def onsetBase (engine : Nat → ℚ) (a : Agent) : ℚ :=
  if a.age_group ≤ 2 then 3
  else if a.age_group = 4 then 7
  else if engine 1 < 57/100 then 3 else 8

/-- The position of the ICU draw in the stream of the agent: the age group `3` takes one
more draw before it than the other age groups. -/
def onsetICUDraw (a : Agent) : Nat := if a.age_group = 3 then 2 else 1

/-- The parameters `lparm` and `lparm'` agree on everything the specification lets the
home phase use: the base coefficient and the household, neighbourhood cluster, community
and neighbourhood tables. -/
def agreeAtHome (lparm lparm' : DiseaseParm) : Prop :=
  lparm.infect = lparm'.infect ∧ lparm.vac_eff = lparm'.vac_eff ∧
  lparm.xmit_child = lparm'.xmit_child ∧ lparm.xmit_child_SC = lparm'.xmit_child_SC ∧
  lparm.xmit_adult = lparm'.xmit_adult ∧ lparm.xmit_adult_SC = lparm'.xmit_adult_SC ∧
  lparm.xmit_nc_child = lparm'.xmit_nc_child ∧
  lparm.xmit_nc_child_SC = lparm'.xmit_nc_child_SC ∧
  lparm.xmit_nc_adult = lparm'.xmit_nc_adult ∧
  lparm.xmit_nc_adult_SC = lparm'.xmit_nc_adult_SC ∧
  lparm.xmit_comm = lparm'.xmit_comm ∧ lparm.xmit_comm_SC = lparm'.xmit_comm_SC ∧
  lparm.xmit_hood = lparm'.xmit_hood ∧ lparm.xmit_hood_SC = lparm'.xmit_hood_SC

/-- The parameters `lparm` and `lparm'` agree on everything the specification lets the
work phase use: the base coefficient and the community, neighbourhood, workgroup and
school tables. -/
def agreeAtWork (lparm lparm' : DiseaseParm) : Prop :=
  lparm.infect = lparm'.infect ∧ lparm.vac_eff = lparm'.vac_eff ∧
  lparm.xmit_comm = lparm'.xmit_comm ∧ lparm.xmit_comm_SC = lparm'.xmit_comm_SC ∧
  lparm.xmit_hood = lparm'.xmit_hood ∧ lparm.xmit_hood_SC = lparm'.xmit_hood_SC ∧
  lparm.xmit_work = lparm'.xmit_work ∧ lparm.xmit_school = lparm'.xmit_school ∧
  lparm.xmit_sch_a2c = lparm'.xmit_sch_a2c ∧ lparm.xmit_sch_c2a = lparm'.xmit_sch_c2a

/-- The parameters with the three school tables set to zero. -/
def withoutSchool (lparm : DiseaseParm) : DiseaseParm :=
  { lparm with xmit_school := fun _ => 0, xmit_sch_a2c := fun _ => 0,
               xmit_sch_c2a := fun _ => 0 }

/-- Disease parameters with all transmission switched off: `lparmUnit` with `infect = 0`. -/
def lparmOff : DiseaseParm := { lparmUnit with infect := 0 }

/-- A child in elementary school `3`, never infected. -/
def agentPupil : Agent := { agentZero with age_group := 1, school := 3 }

/-- An infectious child of the same school in another neighbourhood and family. -/
def agentClassmate : Agent :=
  { agentZero with status := Status.infected, disease_counter := 5, age_group := 1,
                   school := 3, nborhood := 1, family := 8 }

/-- The three period fields of an agent. -/
def periodsOf (a : Agent) : ℚ × ℚ × ℚ :=
  (a.incubation_period, a.infectious_period, a.symptomdev_period)

/-- The bins fit the agent store for `interactAgents`: every entry of `inds` is an agent,
no offset points behind `inds`, and the strain of every infected agent is `0` or `1`. -/
structure CellBinsFit (bins : Bins) (ag : List Agent) : Prop where
  inds_lt : ∀ i ∈ bins.inds, i < ag.length
  offsets_le : ∀ o ∈ bins.offsets, o ≤ bins.inds.length
  strain_ok : ∀ a ∈ ag, a.status = 1 → a.strain = 0 ∨ a.strain = 1

/-- A never infected agent whose three period fields are `0`. -/
def agentNoPeriods : Agent :=
  { agentZero with incubation_period := 0, infectious_period := 0, symptomdev_period := 0 }

/-! ## Movement: `moveAgentsRandomWalk`, `moveAgentsToWork`, `moveAgentsToHome`,
`moveRandomTravel` -/

/-- Lines 633-635: the body of the `ParallelForRNG` lambda of `moveAgentsRandomWalk`;
`dx` is `Geom(lev).CellSizeArray()`. -/
def moveAgentsRandomWalkAgent (dx : ℚ × ℚ) (engine : Nat → ℚ) (p : Agent) : Agent :=
  { p with pos_x := p.pos_x + (2 * engine 0 - 1) * dx.1
           pos_y := p.pos_y + (2 * engine 1 - 1) * dx.2 }

/-- The loop `ParallelForRNG(np, ...)` of `moveAgentsRandomWalk`, from loop index `i` on. -/
def moveAgentsRandomWalkFrom (dx : ℚ × ℚ) (engine : Nat → Nat → ℚ) : Nat → List Agent → List Agent
  | _, [] => []
  | i, p :: rest =>
    moveAgentsRandomWalkAgent dx (engine i) p :: moveAgentsRandomWalkFrom dx engine (i + 1) rest

/-- `AgentContainer::moveAgentsRandomWalk` on one tile. -/
def moveAgentsRandomWalk (dx : ℚ × ℚ) (engine : Nat → Nat → ℚ) (ag : List Agent) : List Agent :=
  moveAgentsRandomWalkFrom dx engine 0 ag

/-- Lines 673-675: the body of the `ParallelFor` lambda of `moveAgentsToWork`. -/
def moveAgentsToWorkAgent (dx : ℚ × ℚ) (p : Agent) : Agent :=
  { p with pos_x := ((p.work_i : ℚ) + 1/2) * dx.1
           pos_y := ((p.work_j : ℚ) + 1/2) * dx.2 }

/-- `AgentContainer::moveAgentsToWork` on one tile. -/
def moveAgentsToWork (dx : ℚ × ℚ) (ag : List Agent) : List Agent :=
  ag.map (moveAgentsToWorkAgent dx)

/-- Lines 713-715: the body of the `ParallelFor` lambda of `moveAgentsToHome`. -/
def moveAgentsToHomeAgent (dx : ℚ × ℚ) (p : Agent) : Agent :=
  { p with pos_x := ((p.home_i : ℚ) + 1/2) * dx.1
           pos_y := ((p.home_j : ℚ) + 1/2) * dx.2 }

/-- `AgentContainer::moveAgentsToHome` on one tile. -/
def moveAgentsToHome (dx : ℚ × ℚ) (ag : List Agent) : List Agent :=
  ag.map (moveAgentsToHomeAgent dx)

/-- Lines 748-753: the body of the `ParallelForRNG` lambda of `moveRandomTravel`. -/
def moveRandomTravelAgent (engine : Nat → ℚ) (p : Agent) : Agent :=
  if engine 0 < 1/10000 then
    { p with pos_x := 3000 * engine 1, pos_y := 3000 * engine 2 }
  else p

/-- The loop `ParallelForRNG(np, ...)` of `moveRandomTravel`, from loop index `i` on. -/
def moveRandomTravelFrom (engine : Nat → Nat → ℚ) : Nat → List Agent → List Agent
  | _, [] => []
  | i, p :: rest => moveRandomTravelAgent (engine i) p :: moveRandomTravelFrom engine (i + 1) rest

/-- `AgentContainer::moveRandomTravel` on one tile. -/
def moveRandomTravel (engine : Nat → Nat → ℚ) (ag : List Agent) : List Agent :=
  moveRandomTravelFrom engine 0 ag

/-- The owning cell `(floor(x/dx), floor(y/dx))` of a position, for a domain with origin
`0`. -/
def cellOf (dx : ℚ × ℚ) (p : Agent) : Int × Int :=
  (⌊p.pos_x / dx.1⌋, ⌊p.pos_y / dx.2⌋)

/-- Every attribute other than the position is the same in `a'` as in `a`. -/
def sameButPos (a a' : Agent) : Prop := a' = { a with pos_x := a'.pos_x, pos_y := a'.pos_y }

/-! ## `AgentContainer::printTotals` -/

/-- The tuple `amrex::GpuTuple<int,int,int,int,int>` of the reduction, one count for each
value of `Status` in that order. No count can exceed the number of particles of the tile,
which the kernels index with an `int`. -/
structure Totals where
  never : Int
  infected : Int
  immune : Int
  susceptible : Int
  dead : Int
  deriving DecidableEq

/-- The sum `ReduceOpSum` of two tuples. -/
def Totals.add (s t : Totals) : Totals :=
  { never := s.never + t.never, infected := s.infected + t.infected,
    immune := s.immune + t.immune, susceptible := s.susceptible + t.susceptible,
    dead := s.dead + t.dead }

/-- Lines 1397-1401: the tuple of one agent, `s[status] = 1`; the two assertions on the
status fail outside `0..4`. -/
def printTotalsAgent (p : Agent) : Option Totals :=
  if ¬ (p.status ≥ 0) then none
  else if ¬ (p.status ≤ 4) then none
  else some
    { never := if p.status = 0 then 1 else 0, infected := if p.status = 1 then 1 else 0,
      immune := if p.status = 2 then 1 else 0, susceptible := if p.status = 3 then 1 else 0,
      dead := if p.status = 4 then 1 else 0 }

/-- `AgentContainer::printTotals` on one tile and one rank: the reduction of the tuples
of the agents. -/
def printTotals : List Agent → Option Totals
  | [] => some { never := 0, infected := 0, immune := 0, susceptible := 0, dead := 0 }
  | p :: rest => do
    let s ← printTotalsAgent p
    let r ← printTotals rest
    pure (s.add r)

/-- The status of an agent is one of the five values of `Status`. -/
def statusValid (a : Agent) : Prop := 0 ≤ a.status ∧ a.status ≤ 4

/-- The store `ag'` holds as many agents as `ag`, and valid statuses if `ag` does. -/
def sameAgentCount (ag ag' : List Agent) : Prop :=
  ag'.length = ag.length ∧ ((∀ a ∈ ag, statusValid a) → ∀ a ∈ ag', statusValid a)

/-- The number of agents of a store with a given status. -/
def countStatus (s : Int) (ag : List Agent) : Int :=
  (ag.countP (fun a => decide (a.status = s)) : Nat)

/-! ## Counting the infected of a cell -/

/-- The bin position `i` holds an infected agent of the given strain. -/
def infectedAt (inds : List Nat) (ag : List Agent) (strain : Int) (i : Nat) : Bool :=
  match inds[i]? with
  | none => false
  | some pindex =>
    match ag[pindex]? with
    | none => false
    | some a => decide (a.status = 1 ∧ a.strain = strain)

/-- The number of bin positions of the list that hold an infected agent of the given
strain. -/
def numInfected (inds : List Nat) (ag : List Agent) (strain : Int) (l : List Nat) : Nat :=
  l.countP (infectedAt inds ag strain)
/-- An agent that lives in the cell `(3, 4)` and works in the cell `(7, 1)`. -/
def agentCommuter : Agent :=
  { agentZero with home_i := 3, home_j := 4, work_i := 7, work_j := 1 }

/-! ## `AgentContainer::initAgentsCensus` -/

/-- The demographic data read by `initAgentsCensus` (`demo.Start_d`, `demo.Population_d`,
`demo.H1_d` ... `demo.H7_d`, `demo.N5_d`, `demo.N17_d`, `demo.Ncommunity`), one entry of
each array for each unit. The values are taken small enough for the `int` arithmetic of
the kernel not to wrap. -/
structure DemographicData where
  Start : List Int
  Population : List Int
  H1 : List Int
  H2 : List Int
  H3 : List Int
  H4 : List Int
  H5 : List Int
  H6 : List Int
  H7 : List Int
  N5 : List Int
  N17 : List Int
  Ncommunity : Int

/-- Lines 382-388 and 502-508: the community size, from `Population[unit]`, `Start[unit]`
and the community number. -/
def communitySize (population start community : Int) : Int :=
  if population < 1000 + 2000 * (community - start) then 0 else 2000

/-- Lines 390-404: the table `p_hh` of a unit, from the seven household counts of the
unit; `/` is the division of `int`, truncating. -/
def householdTable (h1 h2 h3 h4 h5 h6 h7 : Int) : List Int :=
  let num_hh := h1 + h2 + h3 + h4 + h5 + h6 + h7
  if num_hh ≠ 0 then
    [Int.tdiv (1000 * h1) num_hh,
     Int.tdiv (1000 * (h1 + h2)) num_hh,
     Int.tdiv (1000 * (h1 + h2 + h3)) num_hh,
     Int.tdiv (1000 * (h1 + h2 + h3 + h4)) num_hh,
     Int.tdiv (1000 * (h1 + h2 + h3 + h4 + h5)) num_hh,
     Int.tdiv (1000 * (h1 + h2 + h3 + h4 + h5 + h6)) num_hh,
     1000]
  else [330, 670, 800, 900, 970, 990, 1000]

/-- Line 411, `while (il > p_hh[family_size]) { ++family_size; }`: the argument list is
the part of `p_hh` from index `family_size` on; the loop reads its head, and a read past
the end of the array gives `none`. -/
def familySizeFrom (il : Int) : List Int → Nat → Option Nat
  | [], _ => none
  | p :: rest, family_size =>
    if il > p then familySizeFrom il rest (family_size + 1) else some family_size

/-- Lines 410-411: `int family_size = 1;` followed by the loop, which reads `p_hh` from
index `1` on. -/
def familySize (p_hh : List Int) (il : Int) : Option Nat :=
  familySizeFrom il (p_hh.drop 1) 1

/-- The state of the household loop of one cell: the seven family counts
`nf_arr(i, j, k, 0..6)`, `npeople`, and the number of values taken from the engine. -/
structure Households where
  nf : List Int
  npeople : Int
  k : Nat
  deriving DecidableEq

/-- Lines 406-417: the loop `while (npeople < community_size + 1)`; `engine k` is the
value of the `k`-th call `amrex::Random_int(1000, engine)` of the cell. The first argument
bounds the number of iterations; every iteration adds at least `1` to `npeople`, so
`community_size + 1` iterations are enough, and `none` is a read past the end of `p_hh`. -/
def householdLoop (engine : Nat → Int) (p_hh : List Int) (community_size : Int) :
    Nat → Households → Option Households
  | 0, h => if h.npeople < community_size + 1 then none else some h
  | fuel + 1, h =>
    if h.npeople < community_size + 1 then do
      let il := engine h.k
      let family_size ← familySize p_hh il
      householdLoop engine p_hh community_size fuel
        { nf := h.nf.modify (· + 1) (family_size - 1)
          npeople := h.npeople + (family_size : Int)
          k := h.k + 1 }
    else some h

/-- Lines 510-518: the percentage `p_schoolage` of children of school age. -/
def schoolAge (community_size n5 n17 : Int) : Int :=
  if community_size ≠ 0 then
    if n5 + n17 ≠ 0 then Int.tdiv (100 * n17) (n5 + n17) else 76
  else 0

/-- The function `assign_school` of `AgentContainer.H`; `il4` is the value of its call
`amrex::Random_int(100, engine)`. -/
def assign_school (nborhood : Int) (il4 : Int) : Int :=
  if il4 < 36 then 3 + Int.tdiv nborhood 2
  else if il4 < 68 then 2
  else if il4 < 93 then 1
  else 0

/-- The state of one thread of the second kernel of `initAgentsCensus`: the resident
counts `nr_arr(i, j, k, 0..5)` of the cell, the local `family_id`, and the number of
values taken from the engine. -/
structure CensusThread where
  nr : Int → Int
  family_id : Int
  k : Nat

/-- The statement `nr_arr(i, j, k, comp) += v`. -/
def nrAdd (nr : Int → Int) (comp v : Int) : Int → Int :=
  fun c => if c = comp then nr c + v else nr c

/-- Lines 563-570: the loop `for (int nc = 2; nc < family_size; ++nc)` over the children,
with the number of iterations left; the state is the local `age_group`, the counts and
the number of values taken from the engine. -/
def childLoop (engine : Nat → Int) (p_schoolage : Int) :
    Nat → Int × (Int → Int) × Nat → Int × (Int → Int) × Nat
  | 0, s => s
  | m + 1, (_, nr, k) =>
    let age_group : Int := if engine k < p_schoolage then 1 else 0
    childLoop engine p_schoolage m (age_group, nrAdd nr age_group 1, k + 1)

/-- Lines 522-571: the draws of one iteration of the loop over `ip`, up to the choice of
the local `age_group`: the result is `nborhood`, `age_group`, the counts and the number of
values taken from the engine. -/
def censusAges (engine : Nat → Int) (family_size p_schoolage : Int) (nr : Int → Int)
    (k : Nat) : Int × Int × (Int → Int) × Nat :=
  let il2 := engine k
  let nborhood := engine (k + 1)
  let k := k + 2
  let age_group : Int := -1
  let s : Int × (Int → Int) × Nat :=
    if family_size = 1 then
      let age_group : Int := if il2 < 28 then 4 else if il2 < 68 then 3 else 2
      (age_group, nrAdd nr age_group 1, k)
    else if family_size = 2 then
      if il2 = 0 then
        let il3 := engine k
        let age_group : Int := if il3 < 2 then 4 else if il3 < 62 then 3 else 2
        let nr := nrAdd nr age_group 1
        let age_group : Int := if engine (k + 1) < p_schoolage then 1 else 0
        (age_group, nrAdd nr age_group 1, k + 2)
      else
        let age_group : Int := if il2 < 28 then 4 else if il2 < 68 then 3 else 2
        (age_group, nrAdd nr age_group 2, k)
    else (age_group, nr, k)
  let s : Int × (Int → Int) × Nat :=
    if family_size > 2 then
      let age_group : Int := if il2 < 2 then 4 else if il2 < 62 then 3 else 2
      childLoop engine p_schoolage (family_size - 2).toNat
        (age_group, nrAdd s.2.1 age_group 2, s.2.2)
    else s
  (nborhood, s)

/-- Lines 521-597: one iteration of the loop over `ip`, on the slot `agent` of the
particle arrays; the result is the written slot and the state of the thread. -/
def censusAgent (engine : Nat → Int) (i j : Int) (dx : ℚ × ℚ) (family_size p_schoolage : Int)
    (agent : Agent) (t : CensusThread) : Agent × CensusThread :=
  let r := censusAges engine family_size p_schoolage t.nr t.k
  let nborhood := r.1
  let age_group := r.2.1
  let agent : Agent :=
    { agent with
      pos_x := ((i : ℚ) + 1/2) * dx.1
      pos_y := ((j : ℚ) + 1/2) * dx.2
      status := 0
      disease_counter := 0
      age_group := age_group
      family := t.family_id
      home_i := i
      home_j := j
      work_i := i
      work_j := j
      nborhood := nborhood
      work_nborhood := 5 * nborhood
      workgroup := 0 }
  let t : CensusThread := { nr := r.2.2.1, family_id := t.family_id + 1, k := r.2.2.2 }
  if age_group = 0 then
    ({ agent with school := 5 }, t)
  else if age_group = 1 then
    ({ agent with school := assign_school nborhood (engine t.k) }, { t with k := t.k + 1 })
  else
    ({ agent with school := -1 }, t)

/-- Lines 521-597: the loop `for (int ip = start; ip < start + num_to_add; ++ip)`, with
the number of iterations left; a slot outside the particle arrays gives `none`. -/
def censusBlockLoop (engine : Nat → Int) (i j : Int) (dx : ℚ × ℚ)
    (family_size p_schoolage : Int) :
    Nat → Nat → List Agent × CensusThread → Option (List Agent × CensusThread)
  | 0, _, s => some s
  | m + 1, ip, (agents, t) => do
    let agent ← agents[ip]?
    let r := censusAgent engine i j dx family_size p_schoolage agent t
    censusBlockLoop engine i j dx family_size p_schoolage m (ip + 1) (agents.set ip r.1, r.2)

/-- Lines 496-597: the body of the lambda of the second kernel for the cell `(i, j)` and
the component `n`, after the early return on `nf == 0`; `nf`, `family_id` and `start` are
the values of `nf_arr`, `fam_id_arr` and `offset_arr` at `(i, j, k, n)`, and `nr` the
counts `nr_arr` of the cell. -/
def censusBlock (engine : Nat → Int) (i j : Int) (dx : ℚ × ℚ) (n : Nat) (nf : Int)
    (community_size n5 n17 : Int) (family_id start : Int) (agents : List Agent)
    (nr : Int → Int) : Option (List Agent × (Int → Int)) := do
  let family_size : Int := (n : Int) + 1
  let num_to_add := family_size * nf
  let p_schoolage := schoolAge community_size n5 n17
  let r ← censusBlockLoop engine i j dx family_size p_schoolage num_to_add.toNat start.toNat
    (agents, { nr := nr, family_id := family_id, k := 0 })
  pure (r.1, r.2.nr)

/-- Line 377, `while (community >= Start[unit+1]) { unit++; }`: the argument list is the
part of `Start` from index `unit + 1` on; a read past the end of the array gives `none`. -/
def unitFrom (community : Int) : List Int → Nat → Option Nat
  | [], _ => none
  | s :: rest, unit => if community ≥ s then unitFrom community rest (unit + 1) else some unit

/-- Lines 376-377: `int unit = 0;` followed by the loop. -/
def unitOf (Start : List Int) (community : Int) : Option Nat :=
  unitFrom community (Start.drop 1) 0

/-- The values of one cell after the first kernel: `comm_arr`, `unit_arr`, the seven
family counts `nf_arr` and the resident counts `nr_arr`. -/
structure CensusCell where
  i : Int
  j : Int
  community : Int
  unit : Int
  nf : List Int
  nr : Int → Int

/-- Lines 368-426: the body of the lambda of the first kernel for the cell `(i, j)` of
community number `community`, with the engine of the cell. The arrays are set to `-1`
and `0` before the kernel (lines 329-337). -/
def censusHouseholds (demo : DemographicData) (engine : Nat → Int) (i j community : Int) :
    Option CensusCell :=
  if community ≥ demo.Ncommunity then
    some { i := i, j := j, community := -1, unit := -1, nf := List.replicate 7 0,
           nr := fun _ => 0 }
  else do
    let unit ← unitOf demo.Start community
    let population ← demo.Population[unit]?
    let start ← demo.Start[unit]?
    let community_size := communitySize population start community
    let h1 ← demo.H1[unit]?
    let h2 ← demo.H2[unit]?
    let h3 ← demo.H3[unit]?
    let h4 ← demo.H4[unit]?
    let h5 ← demo.H5[unit]?
    let h6 ← demo.H6[unit]?
    let h7 ← demo.H7[unit]?
    let p_hh := householdTable h1 h2 h3 h4 h5 h6 h7
    let h ← householdLoop engine p_hh community_size (community_size + 1).toNat
      { nf := List.replicate 7 0, npeople := 0, k := 0 }
    pure { i := i, j := j, community := community, unit := unit, nf := h.nf,
           nr := fun c => if c = 5 then h.npeople else 0 }

/-- The call `Scan::PrefixSum` with `Scan::Type::exclusive` and `Scan::retSum`, from the
running sum `acc` on: the output array and the total. -/
def exclusiveScanFrom (acc : Int) : List Int → List Int × Int
  | [] => ([], acc)
  | x :: xs => (acc :: (exclusiveScanFrom (acc + x) xs).1, (exclusiveScanFrom (acc + x) xs).2)

/-- The array `in` of lines 433 and 446: the data of `num_families`, component by
component, each component holding the cells in order. -/
def familyArray (cells : List CensusCell) : List Int :=
  (List.range 7).flatMap (fun comp => cells.map (fun c => c.nf.getD comp 0))

/-- Lines 431-441: `fam_offsets` and `nagents`, the scan of `(comp + 1) * in[i]` with
`comp = i / ncell`. -/
def famOffsets (cells : List CensusCell) : List Int × Int :=
  exclusiveScanFrom 0
    ((List.range 7).flatMap (fun comp => cells.map (fun c => ((comp : Int) + 1) * c.nf.getD comp 0)))

/-- Lines 443-454: `fam_id`, the scan of `in[i]`. -/
def famId (cells : List CensusCell) : List Int :=
  (exclusiveScanFrom 0 (familyArray cells)).1

/-- Lines 491-597: the thread of the second kernel for the cell of index `ci` and the
component `n`; the state is the particle arrays and the cells. -/
def censusThread (demo : DemographicData) (engine : Nat → Int) (dx : ℚ × ℚ)
    (offsets fam_id : List Int) (ncell : Nat) (n ci : Nat)
    (s : List Agent × List CensusCell) : Option (List Agent × List CensusCell) := do
  let c ← s.2[ci]?
  let nf ← c.nf[n]?
  if nf = 0 then pure s
  else do
    let family_id ← fam_id[n * ncell + ci]?
    let population ← demo.Population[c.unit.toNat]?
    let start ← demo.Start[c.unit.toNat]?
    let community_size := communitySize population start c.community
    let n5 ← demo.N5[c.unit.toNat]?
    let n17 ← demo.N17[c.unit.toNat]?
    let offset ← offsets[n * ncell + ci]?
    let r ← censusBlock engine c.i c.j dx n nf community_size n5 n17 family_id offset s.1 c.nr
    pure (r.1, s.2.set ci { c with nr := r.2 })

/-- `AgentContainer::initAgentsCensus` on one box holding the cells `cells`, given as
`(i, j, community)` in the order of the box: the first kernel on every cell, the two
scans, the allocation of `nagents` slots equal to `slot`, and the second kernel on every
component and cell. `engine1 ci` is the engine of the cell `ci` in the first kernel and
`engine2 n ci` that of the component `n` and the cell `ci` in the second. -/
def initAgentsCensus (demo : DemographicData) (engine1 : Nat → Nat → Int)
    (engine2 : Nat → Nat → Nat → Int) (dx : ℚ × ℚ) (slot : Agent)
    (cells : List (Int × Int × Int)) : Option (List Agent × List CensusCell) := do
  let cs ← (List.range cells.length).mapM (fun ci => do
    let c ← cells[ci]?
    censusHouseholds demo (engine1 ci) c.1 c.2.1 c.2.2)
  let offsets := famOffsets cs
  let fam_id := famId cs
  let agents := List.replicate offsets.2.toNat slot
  (List.range 7).foldlM (fun s n =>
    (List.range cs.length).foldlM (fun s ci =>
      censusThread demo (engine2 n ci) dx offsets.1 fam_id cs.length n ci s) s) (agents, cs)

/-- The five age counts `nr_arr(i, j, k, 0..4)` of a cell. -/
def CensusCell.ageCounts (c : CensusCell) : List Int := [c.nr 0, c.nr 1, c.nr 2, c.nr 3, c.nr 4]

/-- Demographic data of one unit of one community with population `0`, no household
counts and no children counts. -/
def demoSmall : DemographicData :=
  { Start := [0, 1], Population := [0], H1 := [0], H2 := [0], H3 := [0], H4 := [0],
    H5 := [0], H6 := [0], H7 := [0], N5 := [0], N17 := [0], Ncommunity := 1 }

/-- The state of the thread after one iteration of the loop over `ip`; it does not depend
on the cell nor on the slot written. -/
def censusStep (engine : Nat → Int) (family_size p_schoolage : Int) (t : CensusThread) :
    CensusThread :=
  (censusAgent engine 0 0 (0, 0) family_size p_schoolage agentZero t).2

/-- The state of the thread after `q` iterations of the loop over `ip`. -/
def censusThreadAfter (engine : Nat → Int) (family_size p_schoolage : Int) :
    Nat → CensusThread → CensusThread
  | 0, t => t
  | q + 1, t =>
    censusThreadAfter engine family_size p_schoolage q (censusStep engine family_size p_schoolage t)

/-- The age group of the only member of a household of size `1`, from its draw `il2`. -/
def singleAge (il2 : Int) : Int := if il2 < 28 then 4 else if il2 < 68 then 3 else 2

/-! ## `AgentContainer::initAgentsDemo`: the cells of a rank -/

/-- Lines 177-190: the range `[ibegin, iend)` of cells of the rank `myproc` out of `nprocs`
ranks, for a grid of `ncell * ncell` cells (`ncell` is `3000` in the source); `/` is the
division of `int`. -/
def rankRange (ncell nprocs myproc : Int) : Int × Int :=
  let navg := Int.tdiv (ncell * ncell) nprocs
  let nleft := ncell * ncell - navg * nprocs
  if myproc < nleft then
    let ibegin := myproc * (navg + 1)
    (ibegin, ibegin + navg + 1)
  else
    let ibegin := myproc * navg + nleft
    (ibegin, ibegin + navg)

/-- The right-hand side of the assertion of lines 419-425: the number of people of the
families counted in `nf_arr(i, j, k, 0..6)`. -/
def familiesPeople (nf : List Int) : Int :=
  nf.getD 0 0 + 2 * nf.getD 1 0 + 3 * nf.getD 2 0 + 4 * nf.getD 3 0 + 5 * nf.getD 4 0 +
    6 * nf.getD 5 0 + 7 * nf.getD 6 0

/-- A cell of community `0` and unit `0` holding one family of size `2`. -/
def cellOneFamily : CensusCell :=
  { i := 0, j := 0, community := 0, unit := 0, nf := [0, 1, 0, 0, 0, 0, 0],
    nr := fun c => if c = 5 then 2 else 0 }

/-- An instance of `build` for a box of two cells split at `x = 1`: the first bin holds the
agents with `pos_x < 1`, the second the others. -/
def buildByColumn (ag : List Agent) : Bins :=
  let left := (List.range ag.length).filter
    (fun i => match ag[i]? with | some a => decide (a.pos_x < 1) | none => false)
  let right := (List.range ag.length).filter
    (fun i => match ag[i]? with | some a => !decide (a.pos_x < 1) | none => false)
  { inds := left ++ right, offsets := [0, left.length, left.length + right.length] }

/-- A tile of the one agent `agentZero`, at `x = 0`, whose bins were never built. -/
def tileOne : Tile := { agents := [agentZero], m_bins_home := none, m_bins_work := none }

/-- The agent and the statistics after `d` daily runs of the body of `updateStatus` on the
agent, the run of the day `d + 1` taking its draws from `engine d`. -/
def updateStatusDays (engine : Nat → Nat → ℚ) : Nat → Agent × Stats → Agent × Stats
  | 0, s => s
  | d + 1, s =>
    updateStatusAgent (engine d) (updateStatusDays engine d s).2 (updateStatusDays engine d s).1

/-- The guard of the first branch of an infected agent (line 840): the incremented counter
is below the incubation period. -/
def incubating (a : Agent) : Prop :=
  a.status = Status.infected ∧ a.disease_counter + 1 < a.incubation_period

/-- The guard of the onset branch (lines 840-843): the agent is infected, and the
incremented counter is not below the incubation period and is its ceiling. -/
def onsetDay (a : Agent) : Prop :=
  a.status = Status.infected ∧ ¬ a.disease_counter + 1 < a.incubation_period ∧
    a.disease_counter + 1 = (⌈a.incubation_period⌉ : ℚ)

/-- The guard of the branches after the onset branch (lines 877-935): the countdown of the
timer and the recovery. -/
def afterOnset (a : Agent) : Prop :=
  a.status = Status.infected ∧ ¬ a.disease_counter + 1 < a.incubation_period ∧
    a.disease_counter + 1 ≠ (⌈a.incubation_period⌉ : ℚ)

/-- An infected agent on its first day, with an incubation period of `5/2` days. -/
def agentIncubating : Agent :=
  { agentZero with status := Status.infected, incubation_period := 5/2 }

/-! # Theorems -/

/-! ## Theorems: disease progression (`updateStatus`) -/

theorem wardBlock_timer (e : Nat → ℚ) (t : Thread) :
    (wardBlock e t).a.treatment_timer = t.a.treatment_timer := by
  unfold wardBlock
  dsimp only
  split_ifs <;> rfl

theorem icuBlock_timer (e : Nat → ℚ) (t : Thread) :
    (icuBlock e t).a.treatment_timer = t.a.treatment_timer := by
  unfold icuBlock
  dsimp only
  split_ifs <;> rfl

theorem ventilatorBlock_timer (e : Nat → ℚ) (t : Thread) :
    (ventilatorBlock e t).a.treatment_timer = t.a.treatment_timer := by
  unfold ventilatorBlock
  dsimp only
  split_ifs <;> rfl

theorem wardBlock_status (e : Nat → ℚ) (t : Thread) :
    (wardBlock e t).a.status = t.a.status ∨
      (t.a.treatment_timer = 0 ∧
        ((wardBlock e t).a.status = Status.immune ∨ (wardBlock e t).a.status = Status.dead)) := by
  unfold wardBlock
  dsimp only
  split_ifs <;> simp_all

theorem icuBlock_status (e : Nat → ℚ) (t : Thread) :
    (icuBlock e t).a.status = t.a.status ∨
      (t.a.treatment_timer = 10 ∧
        ((icuBlock e t).a.status = Status.immune ∨ (icuBlock e t).a.status = Status.dead)) := by
  unfold icuBlock
  dsimp only
  split_ifs <;> simp_all

theorem ventilatorBlock_status (e : Nat → ℚ) (t : Thread) :
    (ventilatorBlock e t).a.status = t.a.status ∨
      (t.a.treatment_timer = 20 ∧
        ((ventilatorBlock e t).a.status = Status.immune ∨
          (ventilatorBlock e t).a.status = Status.dead)) := by
  unfold ventilatorBlock
  dsimp only
  split_ifs <;> simp_all

theorem onsetBlock_status (e : Nat → ℚ) (t : Thread) :
    (onsetBlock e t).a.status = t.a.status := by
  unfold onsetBlock
  simp only
  split_ifs <;> rfl

/-- A relation that holds between every agent and its image under the per-agent body
holds position by position between the store and its image under the loop. -/
theorem updateStatusFrom_forall₂ (P : Agent → Agent → Prop) (e : Nat → Nat → ℚ)
    (hP : ∀ i ds a, P a (updateStatusAgent (e i) ds a).1) :
    ∀ (ag : List Agent) (i : Nat) (ds : Stats),
      List.Forall₂ P ag (updateStatusFrom e i ds ag).1
  | [], _, _ => by simp [updateStatusFrom]
  | a :: rest, i, ds => by
    simp only [updateStatusFrom]
    exact List.Forall₂.cons (hP i ds a) (updateStatusFrom_forall₂ P e hP rest (i + 1) _)

theorem forall₂_mem_right {α β : Type} {P : α → β → Prop} {l : List α} {l' : List β}
    (h : List.Forall₂ P l l') : ∀ b ∈ l', ∃ a ∈ l, P a b := by
  induction h with
  | nil => simp
  | cons hab _ ih =>
    intro b hb
    rcases List.mem_cons.mp hb with rfl | hb
    · exact ⟨_, List.mem_cons_self _ _, hab⟩
    · obtain ⟨a, ha, hp⟩ := ih b hb
      exact ⟨a, List.mem_cons_of_mem _ ha, hp⟩

theorem forall₂_getElem? {α β : Type} {P : α → β → Prop} {l : List α} {l' : List β}
    (h : List.Forall₂ P l l') : ∀ (n : Nat) (a : α), l[n]? = some a → ∃ b, l'[n]? = some b ∧ P a b := by
  induction h with
  | nil => simp
  | cons hab _ ih =>
    intro n a hn
    cases n with
    | zero =>
      simp only [List.getElem?_cons_zero, Option.some.injEq] at hn
      subst hn
      exact ⟨_, by simp, hab⟩
    | succ n =>
      simp only [List.getElem?_cons_succ] at hn ⊢
      exact ih n a hn

/-- The per-agent body of `updateStatus` leaves a dead agent dead. -/
theorem updateStatusAgent_dead (e : Nat → ℚ) (ds : Stats) (a : Agent)
    (h : a.status = Status.dead) : (updateStatusAgent e ds a).1.status = Status.dead := by
  simp [updateStatusAgent, h]

/-- The per-agent body of `infectAgents` leaves a dead agent dead. -/
theorem infectAgentsAgent_dead (lparm : DiseaseParm) (e : Nat → ℚ) (nrm : ℚ → ℚ → Nat → ℚ)
    (a : Agent) (h : a.status = Status.dead) :
    (infectAgentsAgent lparm e nrm a).status = Status.dead := by
  simp [infectAgentsAgent, h]

/-- The timer and status after the per-agent body of `updateStatus`, for an agent that
satisfies `treatment_timer > 0 → status = infected` before. -/
theorem updateStatusAgent_timer_status (e : Nat → ℚ) (ds : Stats) (a : Agent)
    (h : 0 < a.treatment_timer → a.status = Status.infected) :
    0 < (updateStatusAgent e ds a).1.treatment_timer →
      (updateStatusAgent e ds a).1.status = Status.infected ∨
        (((updateStatusAgent e ds a).1.treatment_timer = 10 ∨
            (updateStatusAgent e ds a).1.treatment_timer = 20) ∧
          ((updateStatusAgent e ds a).1.status = Status.immune ∨
            (updateStatusAgent e ds a).1.status = Status.dead)) := by
  unfold updateStatusAgent
  simp only
  split_ifs with h1 h2 h3 h4 h5 h6
  · intro ht; exact absurd (h ht) (by rcases h1 with h1 | h1 <;> simp [h1])
  · intro _; exact Or.inl h2
  · intro _; left; rw [onsetBlock_status]; exact h2
  · intro ht
    rw [ventilatorBlock_timer, icuBlock_timer, wardBlock_timer] at ht ⊢
    simp only at ht ⊢
    rcases ventilatorBlock_status e (icuBlock e (wardBlock e
      { a := { a with prob := 1, disease_counter := a.disease_counter + 1,
                      treatment_timer := a.treatment_timer - 1 }, ds := ds, k := 0 })) with hv | ⟨hv, hv'⟩
    · rcases icuBlock_status e (wardBlock e
        { a := { a with prob := 1, disease_counter := a.disease_counter + 1,
                        treatment_timer := a.treatment_timer - 1 }, ds := ds, k := 0 }) with hi | ⟨hi, hi'⟩
      · rcases wardBlock_status e
          { a := { a with prob := 1, disease_counter := a.disease_counter + 1,
                          treatment_timer := a.treatment_timer - 1 }, ds := ds, k := 0 } with hw | ⟨hw, _⟩
        · left; rw [hv, hi, hw]; exact h2
        · simp only at hw; rw [hw] at ht; exact absurd ht (lt_irrefl _)
      · rw [wardBlock_timer] at hi
        simp only at hi
        right
        refine ⟨Or.inl hi, ?_⟩
        rw [hv]; exact hi'
    · rw [icuBlock_timer, wardBlock_timer] at hv
      simp only at hv
      right
      exact ⟨Or.inr hv, hv'⟩
  · intro ht; exact absurd ht h5
  · intro ht; exact absurd ht h5
  · intro ht
    have := h ht
    exact absurd this h2

/-- C2 (as stated, refuted): the one-agent store `[agentICU]` satisfies
`treatment_timer > 0 → status = infected`, and after one `updateStatus` step its agent has
`treatment_timer = 10 > 0` and status immune. -/
theorem updateStatus_timer_invariant_broken :
    (∀ a ∈ [agentICU], 0 < a.treatment_timer → a.status = Status.infected) ∧
      ¬ (∀ a ∈ (updateStatus (fun _ => engineZero) statsZero [agentICU]).1,
          0 < a.treatment_timer → a.status = Status.infected) := by
  constructor
  · simp [agentICU, agentZero]
  · simp [updateStatus, updateStatusFrom, updateStatusAgent, wardBlock, icuBlock,
      ventilatorBlock, agentICU, agentZero, tableAt, CVF]
    norm_num

/-- C2 (amended): if every agent of the store satisfies `treatment_timer > 0 → status =
infected`, then after one `updateStatus` step, for all random draws, every agent with
`treatment_timer > 0` is infected, or its timer is exactly `10` or `20` and it is immune or
dead. -/
theorem updateStatus_timer_invariant (e : Nat → Nat → ℚ) (ds : Stats) (ag : List Agent)
    (h : ∀ a ∈ ag, 0 < a.treatment_timer → a.status = Status.infected) :
    ∀ a ∈ (updateStatus e ds ag).1, 0 < a.treatment_timer →
      a.status = Status.infected ∨
        ((a.treatment_timer = 10 ∨ a.treatment_timer = 20) ∧
          (a.status = Status.immune ∨ a.status = Status.dead)) := by
  intro a' ha'
  have hall := updateStatusFrom_forall₂
    (fun a a' => (0 < a.treatment_timer → a.status = Status.infected) →
      0 < a'.treatment_timer →
        a'.status = Status.infected ∨
          ((a'.treatment_timer = 10 ∨ a'.treatment_timer = 20) ∧
            (a'.status = Status.immune ∨ a'.status = Status.dead)))
    e (fun i ds a => updateStatusAgent_timer_status (e i) ds a) ag 0 ds
  obtain ⟨a, ha, hp⟩ := forall₂_mem_right hall a' ha'
  exact hp (h a ha)

/-- C2 (amended), at the store `[agentICU]`. -/
theorem updateStatus_timer_invariant_witness :
    (∀ a ∈ [agentICU], 0 < a.treatment_timer → a.status = Status.infected) ∧
      ∀ a ∈ (updateStatus (fun _ => engineZero) statsZero [agentICU]).1, 0 < a.treatment_timer →
        a.status = Status.infected ∨
          ((a.treatment_timer = 10 ∨ a.treatment_timer = 20) ∧
            (a.status = Status.immune ∨ a.status = Status.dead)) :=
  ⟨by simp [agentICU, agentZero],
   updateStatus_timer_invariant (fun _ => engineZero) statsZero [agentICU]
     (by simp [agentICU, agentZero])⟩

/-- C3 (as stated, refuted): `agentVentilated` is infected, past incubation, its timer
reaches `20` in the step and its death draw `1/2` misses (`1/2 ≥ CVF[0]`), yet after the
step it is immune, not infected. -/
theorem updateStatus_ventilator_survivor_not_infected :
    agentVentilated.status = Status.infected ∧
      agentVentilated.treatment_timer - 1 = 20 ∧
      ¬ (engineHalf 0 < tableAt CVF agentVentilated.age_group) ∧
      (updateStatusAgent engineHalf statsZero agentVentilated).1.status ≠ Status.infected := by
  refine ⟨rfl, ?_, ?_, ?_⟩
  · simp [agentVentilated, agentZero]; norm_num
  · simp [agentVentilated, agentZero, engineHalf, tableAt, CVF]; norm_num
  · simp [updateStatusAgent, wardBlock, icuBlock, ventilatorBlock, agentVentilated, agentZero,
      engineHalf, tableAt, CVF]
    norm_num

/-- C3 (amended): for an infected agent past its onset day whose timer is decremented to
`20` and whose death draw misses, the step subtracts `1` from the ventilator counter of its
home cell and changes no other counter, the agent becomes immune with its timer left at
`20`, and every later step leaves its status, its timer and the counters as they are. -/
theorem updateStatus_ventilator_survivor (e : Nat → ℚ) (ds : Stats) (a : Agent)
    (hs : a.status = Status.infected)
    (hinc : ¬ a.disease_counter + 1 < a.incubation_period)
    (hon : a.disease_counter + 1 ≠ (⌈a.incubation_period⌉ : ℚ))
    (ht : a.treatment_timer - 1 = 20)
    (hU : ¬ e 0 < tableAt CVF a.age_group) :
    (updateStatusAgent e ds a).1.status = Status.immune ∧
      (updateStatusAgent e ds a).1.treatment_timer = 20 ∧
      (updateStatusAgent e ds a).2 =
        atomicAddNoRet ds a.home_i a.home_j DiseaseStats.ventilator (-1) ∧
      (updateStatusAgent e ds a).2 a.home_i a.home_j DiseaseStats.ventilator =
        ds a.home_i a.home_j DiseaseStats.ventilator - 1 ∧
      ∀ (e' : Nat → ℚ) (ds' : Stats),
        (updateStatusAgent e' ds' (updateStatusAgent e ds a).1).1.status = Status.immune ∧
        (updateStatusAgent e' ds' (updateStatusAgent e ds a).1).1.treatment_timer = 20 ∧
        (updateStatusAgent e' ds' (updateStatusAgent e ds a).1).2 = ds' := by
  have ht' : a.treatment_timer = 21 := by linarith
  have hr : updateStatusAgent e ds a =
      ({ a with prob := 1, disease_counter := a.disease_counter + 1, treatment_timer := 20,
                status := Status.immune },
        atomicAddNoRet ds a.home_i a.home_j DiseaseStats.ventilator (-1)) := by
    simp only [updateStatusAgent, wardBlock, icuBlock, ventilatorBlock, hs, ht', if_neg hU,
      if_neg hinc, if_neg hon]
    norm_num
    simp only [if_neg hU]
    norm_num
  rw [hr]
  refine ⟨rfl, rfl, rfl, ?_, ?_⟩
  · simp [atomicAddNoRet]; ring
  · intro e' ds'
    simp [updateStatusAgent]

/-- C3 (amended), at `agentVentilated` with the draws `1/2`. -/
theorem updateStatus_ventilator_survivor_witness :
    (updateStatusAgent engineHalf statsZero agentVentilated).1.status = Status.immune ∧
      (updateStatusAgent engineHalf statsZero agentVentilated).1.treatment_timer = 20 ∧
      (updateStatusAgent engineHalf statsZero agentVentilated).2 =
        atomicAddNoRet statsZero agentVentilated.home_i agentVentilated.home_j
          DiseaseStats.ventilator (-1) ∧
      (updateStatusAgent engineHalf statsZero agentVentilated).2 agentVentilated.home_i
          agentVentilated.home_j DiseaseStats.ventilator =
        statsZero agentVentilated.home_i agentVentilated.home_j DiseaseStats.ventilator - 1 ∧
      ∀ (e' : Nat → ℚ) (ds' : Stats),
        (updateStatusAgent e' ds'
            (updateStatusAgent engineHalf statsZero agentVentilated).1).1.status =
          Status.immune ∧
        (updateStatusAgent e' ds'
            (updateStatusAgent engineHalf statsZero agentVentilated).1).1.treatment_timer = 20 ∧
        (updateStatusAgent e' ds' (updateStatusAgent engineHalf statsZero agentVentilated).1).2 =
          ds' :=
  updateStatus_ventilator_survivor engineHalf statsZero agentVentilated rfl
    (by norm_num [agentVentilated, agentZero])
    (by norm_num [agentVentilated, agentZero])
    (by norm_num [agentVentilated, agentZero])
    (by norm_num [agentVentilated, agentZero, engineHalf, tableAt, CVF])

/-! ## Theorems: the commit step (`infectAgents`) -/

theorem infectAgentsFrom_getElem? (lparm : DiseaseParm) (e : Nat → Nat → ℚ)
    (nrm : Nat → ℚ → ℚ → Nat → ℚ) :
    ∀ (ag : List Agent) (i n : Nat),
      (infectAgentsFrom lparm e nrm i ag)[n]? =
        (ag[n]?).map (infectAgentsAgent lparm (e (i + n)) (nrm (i + n)))
  | [], _, _ => by simp [infectAgentsFrom]
  | a :: rest, i, 0 => by simp [infectAgentsFrom]
  | a :: rest, i, n + 1 => by
    simp only [infectAgentsFrom, List.getElem?_cons_succ]
    rw [infectAgentsFrom_getElem? lparm e nrm rest (i + 1) n]
    have : i + 1 + n = i + (n + 1) := by omega
    rw [this]

/-- C10: after `infectAgents`, the agent at every index `n` has `prob` flipped to
`1 - prob`; if it was never infected or susceptible and its draw is below the flipped
probability, it is infected with `disease_counter = 0` and the three sampled periods;
otherwise its status, counter and periods are those before. -/
theorem infectAgents_commit (lparm : DiseaseParm) (e : Nat → Nat → ℚ)
    (nrm : Nat → ℚ → ℚ → Nat → ℚ) (ag : List Agent) (n : Nat) (a : Agent)
    (h : ag[n]? = some a) :
    ∃ a', (infectAgents lparm e nrm ag)[n]? = some a' ∧
      a'.prob = 1 - a.prob ∧
      (((a.status = Status.never ∨ a.status = Status.susceptible) ∧ e n 0 < 1 - a.prob) →
        a'.status = Status.infected ∧ a'.disease_counter = 0 ∧
        a'.incubation_period =
          nrm n lparm.incubation_length_mean lparm.incubation_length_std 0 ∧
        a'.infectious_period =
          nrm n lparm.infectious_length_mean lparm.infectious_length_std 1 ∧
        a'.symptomdev_period =
          nrm n lparm.symptomdev_length_mean lparm.symptomdev_length_std 2) ∧
      (¬ ((a.status = Status.never ∨ a.status = Status.susceptible) ∧ e n 0 < 1 - a.prob) →
        a'.status = a.status ∧ a'.disease_counter = a.disease_counter ∧
        a'.incubation_period = a.incubation_period ∧
        a'.infectious_period = a.infectious_period ∧
        a'.symptomdev_period = a.symptomdev_period) := by
  refine ⟨infectAgentsAgent lparm (e n) (nrm n) a, ?_, ?_, ?_, ?_⟩
  · simp [infectAgents, infectAgentsFrom_getElem?, h]
  · unfold infectAgentsAgent
    dsimp only
    split_ifs <;> rfl
  · rintro ⟨hs, hU⟩
    unfold infectAgentsAgent
    dsimp only
    rw [if_pos hs, if_pos hU]
    exact ⟨rfl, rfl, rfl, rfl, rfl⟩
  · intro hn
    unfold infectAgentsAgent
    dsimp only
    split_ifs with h1 h2
    · exact absurd ⟨h1, h2⟩ hn
    · exact ⟨rfl, rfl, rfl, rfl, rfl⟩
    · exact ⟨rfl, rfl, rfl, rfl, rfl⟩

/-- C10, at the store `[agentExposed]` with `prob = 1/4` flipped to `3/4`. -/
theorem infectAgents_commit_witness :
    ∃ a', (infectAgents lparmUnit (fun _ => engineHalf) (fun _ _ _ _ => 3) [agentExposed])[0]? =
        some a' ∧
      a'.prob = 1 - agentExposed.prob ∧
      (((agentExposed.status = Status.never ∨ agentExposed.status = Status.susceptible) ∧
          engineHalf 0 < 1 - agentExposed.prob) →
        a'.status = Status.infected ∧ a'.disease_counter = 0 ∧
        a'.incubation_period = 3 ∧ a'.infectious_period = 3 ∧ a'.symptomdev_period = 3) ∧
      (¬ ((agentExposed.status = Status.never ∨ agentExposed.status = Status.susceptible) ∧
          engineHalf 0 < 1 - agentExposed.prob) →
        a'.status = agentExposed.status ∧ a'.disease_counter = agentExposed.disease_counter ∧
        a'.incubation_period = agentExposed.incubation_period ∧
        a'.infectious_period = agentExposed.infectious_period ∧
        a'.symptomdev_period = agentExposed.symptomdev_period) :=
  infectAgents_commit lparmUnit (fun _ => engineHalf) (fun _ _ _ _ => 3) [agentExposed] 0 agentExposed
    (by simp)

/-- Death is terminal in `infectAgents`: an agent that is dead before is dead after. -/
theorem infectAgents_dead (lparm : DiseaseParm) (e : Nat → Nat → ℚ)
    (nrm : Nat → ℚ → ℚ → Nat → ℚ) (ag : List Agent) (n : Nat) (a : Agent)
    (h : ag[n]? = some a) (hd : a.status = Status.dead) :
    ∃ a', (infectAgents lparm e nrm ag)[n]? = some a' ∧ a'.status = Status.dead :=
  ⟨infectAgentsAgent lparm (e n) (nrm n) a, by simp [infectAgents, infectAgentsFrom_getElem?, h],
    infectAgentsAgent_dead lparm (e n) (nrm n) a hd⟩

/-- Death is terminal in `updateStatus`: an agent that is dead before is dead after. -/
theorem updateStatus_dead (e : Nat → Nat → ℚ) (ds : Stats) (ag : List Agent) (n : Nat)
    (a : Agent) (h : ag[n]? = some a) (hd : a.status = Status.dead) :
    ∃ a', (updateStatus e ds ag).1[n]? = some a' ∧ a'.status = Status.dead := by
  have hall := updateStatusFrom_forall₂
    (fun a a' => a.status = Status.dead → a'.status = Status.dead)
    e (fun i ds a => updateStatusAgent_dead (e i) ds a) ag 0 ds
  obtain ⟨a', ha', hp⟩ := forall₂_getElem? hall n a h
  exact ⟨a', ha', hp hd⟩

/-! ## Theorems: simple cell mode (`interactAgents`) -/

/-- C1 (the code at the failing input): in a cell holding one infected agent of strain `0`
and one dead agent, with every draw equal to `0`, `interactAgents` turns the dead agent
into an infected one. -/
theorem interactAgents_infects_dead :
    agentDead.status = Status.dead ∧
      (interactAgents (fun _ => engineZero) binsOneCell [agentInfected, agentDead]).map
          (fun ag => ag.map (fun a => a.status)) =
        some [Status.infected, Status.infected] := by
  constructor
  · rfl
  · simp [interactAgents, interactAgentsCell, infectStep, countInfectedStep, binsOneCell,
      agentInfected, agentDead, agentZero, engineZero, Bins.numBins, List.range_succ,
      List.range', List.foldlM]

/-! ## Theorems: the factor of one pair (`interactAgentsHomeWork`) -/

theorem familyTerm_eq (lparm : DiseaseParm) (infect : ℚ) (ai aj : Agent) (p : ℚ) :
    familyTerm lparm infect ai aj p = p * (1 - infect * householdRate lparm ai aj) := by
  unfold familyTerm householdRate
  split_ifs <;> first | rfl | (exfalso; omega)

theorem clusterTerm_eq (lparm : DiseaseParm) (infect : ℚ) (ai aj : Agent) (p : ℚ) :
    clusterTerm lparm infect 1 ai aj p = p * (1 - infect * clusterRate lparm ai aj) := by
  unfold clusterTerm clusterRate
  split_ifs <;> first | (exfalso; omega) | (simp only [mul_one])

theorem communityTerm_eq (lparm : DiseaseParm) (infect : ℚ) (ai aj : Agent) (p : ℚ) :
    communityTerm lparm infect 1 ai aj p = p * (1 - infect * communityRate lparm ai aj) := by
  unfold communityTerm communityRate
  split_ifs <;> first | (exfalso; omega) | (simp only [mul_one])

theorem workgroupTerm_eq (lparm : DiseaseParm) (DAYTIME : Bool) (infect : ℚ) (ai aj : Agent)
    (p : ℚ) :
    workgroupTerm lparm DAYTIME infect 1 ai aj p =
      p * groupFactor (workgroupActive DAYTIME ai aj) infect lparm.xmit_work := by
  unfold workgroupTerm groupFactor workgroupActive
  cases DAYTIME <;>
    simp only [Bool.false_eq_true, and_false, false_and, and_true, true_and, if_false,
      mul_one] <;>
    split_ifs <;> first | (exfalso; omega) | rfl | (simp only [mul_one])

theorem hoodTerm_eq (lparm : DiseaseParm) (DAYTIME : Bool) (infect : ℚ) (ai aj : Agent)
    (p : ℚ) :
    hoodTerm lparm DAYTIME infect 1 ai aj p =
      p * groupFactor (ai.nborhood = aj.nborhood) infect (hoodRate lparm ai aj) *
        groupFactor (daycareActive DAYTIME ai aj) infect (daycareRate lparm ai) := by
  unfold hoodTerm groupFactor daycareActive hoodRate daycareRate
  cases DAYTIME <;>
    simp only [Bool.false_eq_true, and_false, false_and, and_true, true_and, if_false,
      mul_one] <;>
    split_ifs <;> first | (exfalso; omega) | rfl | (simp only [mul_one])

theorem schoolTerm_eq (lparm : DiseaseParm) (DAYTIME : Bool) (infect : ℚ) (ai aj : Agent)
    (p : ℚ) :
    schoolTerm lparm DAYTIME infect 1 ai aj p =
      p * groupFactor (schoolActive DAYTIME ai aj) infect (schoolRate lparm ai aj) := by
  unfold schoolTerm groupFactor schoolActive schoolRate
  cases DAYTIME <;>
    simp only [Bool.false_eq_true, and_false, false_and, and_true, true_and, if_false,
      mul_one] <;>
    split_ifs <;>
    first | (exfalso; omega) | rfl | (simp only [mul_one, mul_zero, sub_zero])

theorem groupFactor_true {active : Prop} [Decidable active] (h : active) (infect rate : ℚ) :
    groupFactor active infect rate = 1 - infect * rate := by
  unfold groupFactor; rw [if_pos h]

theorem groupFactor_false {active : Prop} [Decidable active] (h : ¬ active) (infect rate : ℚ) :
    groupFactor active infect rate = 1 := by
  unfold groupFactor; rw [if_neg h]

/-- The local `prob` of a pair is the product of the factors of the mixing groups as the
kernel nests them. -/
theorem pairProb_eq_nestedPairProb (lparm : DiseaseParm) (DAYTIME : Bool) (ai aj : Agent) :
    pairProb lparm DAYTIME ai aj = nestedPairProb lparm DAYTIME ai aj := by
  have e1 : (ai.nborhood = aj.nborhood ∧ ai.family = aj.family ∧ ¬ (DAYTIME = true)) ↔
      householdActive DAYTIME ai aj := by
    unfold householdActive; cases DAYTIME <;> simp
  have e2 : (ai.nborhood = aj.nborhood ∧ ai.withdrawn = 0 ∧ aj.withdrawn = 0 ∧
      ai.family.tdiv 4 = aj.family.tdiv 4 ∧ ¬ (DAYTIME = true)) ↔
      clusterActive DAYTIME ai aj := by
    unfold clusterActive; cases DAYTIME <;> simp <;> tauto
  have e3 : (ai.withdrawn = 0 ∧ aj.withdrawn = 0) ↔ neitherWithdrawn ai aj := Iff.rfl
  unfold pairProb nestedPairProb
  simp only [familyTerm_eq, clusterTerm_eq, communityTerm_eq, workgroupTerm_eq, hoodTerm_eq,
    schoolTerm_eq, e1, e2, e3]
  by_cases hw : neitherWithdrawn ai aj <;>
  by_cases hh : householdActive DAYTIME ai aj <;>
  by_cases hc : clusterActive DAYTIME ai aj <;>
  simp only [hw, hh, hc, if_true, if_false, true_and, false_and, not_true_eq_false,
    not_false_eq_true, groupFactor_true, groupFactor_false, one_mul, mul_one]

/-! ## Theorems: closed form of the contact kernel -/

theorem atomicMultiply_length (ag : List Agent) (i : Nat) (c : ℚ) :
    (atomicMultiply ag i c).length = ag.length := by
  unfold atomicMultiply
  split <;> simp

theorem atomicMultiply_getElem? (ag : List Agent) (i : Nat) (c : ℚ) (n : Nat) :
    (atomicMultiply ag i c)[n]? =
      (ag[n]?).map (fun a => if n = i then { a with prob := a.prob * c } else a) := by
  unfold atomicMultiply
  split
  · rename_i a ha
    by_cases hn : n = i
    · subst hn
      have hlt : n < ag.length := by
        rcases Nat.lt_or_ge n ag.length with h | h
        · exact h
        · rw [List.getElem?_eq_none h] at ha; cases ha
      simp [List.getElem?_set_self, hlt, ha]
    · have hne : i ≠ n := fun h => hn h.symm
      rw [List.getElem?_set_ne hne]
      simp [hn]
  · rename_i ha
    by_cases hn : n = i
    · subst hn; simp [ha]
    · cases h : ag[n]? <;> simp [hn]

theorem atomicMultiply_one (ag : List Agent) (i : Nat) : atomicMultiply ag i 1 = ag := by
  apply List.ext_getElem?
  intro n
  rw [atomicMultiply_getElem?]
  cases h : ag[n]? <;> simp

theorem atomicMultiply_mul (ag : List Agent) (i : Nat) (c d : ℚ) :
    atomicMultiply (atomicMultiply ag i c) i d = atomicMultiply ag i (c * d) := by
  apply List.ext_getElem?
  intro n
  simp only [atomicMultiply_getElem?]
  cases h : ag[n]? <;> by_cases hn : n = i <;> simp [hn, mul_assoc]

theorem atomicMultiply_comm (ag : List Agent) (i k : Nat) (c d : ℚ) :
    atomicMultiply (atomicMultiply ag i c) k d = atomicMultiply (atomicMultiply ag k d) i c := by
  apply List.ext_getElem?
  intro n
  simp only [atomicMultiply_getElem?]
  cases h : ag[n]? with
  | none => simp
  | some a =>
    have hcd : a.prob * c * d = a.prob * d * c := mul_right_comm _ _ _
    by_cases hn : n = i <;> by_cases hk : n = k
    · subst hn; subst hk; simp [hcd]
    · subst hn; simp [hk]
    · subst hk; simp [hn]
    · simp [hn, hk]

theorem pairFactor_eraseProb (lparm : DiseaseParm) (DAYTIME : Bool) (ai aj : Agent) :
    pairFactor lparm DAYTIME (eraseProb ai) (eraseProb aj) = pairFactor lparm DAYTIME ai aj :=
  rfl

/-- The factor of a pair reads the store only up to the `prob` fields. -/
theorem factorOf_congr (lparm : DiseaseParm) (DAYTIME : Bool) (ag ag' : List Agent)
    (h : ag.map eraseProb = ag'.map eraseProb) (i j : Nat) :
    factorOf lparm DAYTIME ag i j = factorOf lparm DAYTIME ag' i j := by
  have hget : ∀ n : Nat, (ag[n]?).map eraseProb = (ag'[n]?).map eraseProb := by
    intro n
    have h1 : (ag.map eraseProb)[n]? = (ag[n]?).map eraseProb := List.getElem?_map _ _ _
    have h2 : (ag'.map eraseProb)[n]? = (ag'[n]?).map eraseProb := List.getElem?_map _ _ _
    rw [← h1, ← h2, h]
  unfold factorOf
  split_ifs
  · rfl
  · have hj := hget j
    have hi := hget i
    cases haj : ag[j]? <;> cases haj' : ag'[j]? <;> cases hai : ag[i]? <;> cases hai' : ag'[i]? <;>
      simp_all
    rename_i aj aj' ai ai'
    rw [← pairFactor_eraseProb lparm DAYTIME ai aj, ← pairFactor_eraseProb lparm DAYTIME ai' aj',
      hi, hj]

theorem atomicMultiply_eraseProb (ag : List Agent) (i : Nat) (c : ℚ) :
    (atomicMultiply ag i c).map eraseProb = ag.map eraseProb := by
  apply List.ext_getElem?
  intro n
  simp only [List.getElem?_map, atomicMultiply_getElem?]
  cases h : ag[n]? <;> by_cases hn : n = i <;> simp [hn, eraseProb]

/-- One iteration of the loop over `jj` multiplies `prob[i]` by the factor of the pair, and
fails exactly when a read fails. -/
theorem pairStep_eq (lparm : DiseaseParm) (DAYTIME : Bool) (inds : List Nat) (i : Nat)
    (ag : List Agent) (jj : Nat) :
    pairStep lparm DAYTIME inds i ag jj =
      ((inds[jj]?).bind (factorOf lparm DAYTIME ag i)).map (atomicMultiply ag i) := by
  unfold pairStep
  cases hj : inds[jj]? with
  | none => rfl
  | some j =>
    simp only [Option.bind_eq_bind, Option.some_bind, Option.bind_some, factorOf]
    by_cases hij : i = j
    · simp [hij, atomicMultiply_one]
    · simp only [hij, if_false]
      cases haj : ag[j]? with
      | none => simp
      | some aj =>
        cases hai : ag[i]? with
        | none => simp
        | some ai =>
          simp only [Option.some_bind, Option.map_some', pairFactor, transmits]
          split_ifs <;> first | (simp [atomicMultiply_one]; done) | (exfalso; simp_all)

theorem prodM_congr (f g : Nat → Option ℚ) (l : List Nat) (h : ∀ j ∈ l, f j = g j) :
    prodM f l = prodM g l := by
  induction l with
  | nil => rfl
  | cons j l ih =>
    simp only [prodM]
    rw [h j (List.mem_cons_self _ _), ih (fun k hk => h k (List.mem_cons_of_mem _ hk))]

/-- The loop over `jj` multiplies `prob[i]` by the product of the factors of its
iterations. -/
theorem foldlM_pairStep_eq (lparm : DiseaseParm) (DAYTIME : Bool) (inds : List Nat) (i : Nat) :
    ∀ (l : List Nat) (ag : List Agent),
      l.foldlM (pairStep lparm DAYTIME inds i) ag =
        (prodM (fun jj => (inds[jj]?).bind (factorOf lparm DAYTIME ag i)) l).map
          (atomicMultiply ag i)
  | [], ag => by simp [prodM, atomicMultiply_one]
  | jj :: l, ag => by
    rw [List.foldlM_cons, pairStep_eq]
    simp only [prodM]
    cases hc : (inds[jj]?).bind (factorOf lparm DAYTIME ag i) with
    | none => simp
    | some c =>
      simp only [Option.map_some', Option.bind_eq_bind, Option.some_bind]
      rw [foldlM_pairStep_eq lparm DAYTIME inds i l (atomicMultiply ag i c)]
      have hcongr : prodM (fun jj => (inds[jj]?).bind
            (factorOf lparm DAYTIME (atomicMultiply ag i c) i)) l =
          prodM (fun jj => (inds[jj]?).bind (factorOf lparm DAYTIME ag i)) l := by
        apply prodM_congr
        intro k _
        cases inds[k]? with
        | none => rfl
        | some j =>
          simp only [Option.some_bind]
          exact factorOf_congr lparm DAYTIME _ _ (atomicMultiply_eraseProb ag i c) i j
      rw [hcongr]
      cases hr : prodM (fun jj => (inds[jj]?).bind (factorOf lparm DAYTIME ag i)) l with
      | none => simp
      | some r => simp [atomicMultiply_mul]

/-- The factor of a receiver reads the store only up to the `prob` fields. -/
theorem receiverFactor_congr (lparm : DiseaseParm) (DAYTIME : Bool) (binner : ℚ → ℚ → Nat)
    (bins : Bins) (ag ag' : List Agent) (h : ag.map eraseProb = ag'.map eraseProb) (i : Nat) :
    receiverFactor lparm DAYTIME binner bins ag i =
      receiverFactor lparm DAYTIME binner bins ag' i := by
  have hget : (ag[i]?).map eraseProb = (ag'[i]?).map eraseProb := by
    have h1 : (ag.map eraseProb)[i]? = (ag[i]?).map eraseProb := List.getElem?_map _ _ _
    have h2 : (ag'.map eraseProb)[i]? = (ag'[i]?).map eraseProb := List.getElem?_map _ _ _
    rw [← h1, ← h2, h]
  unfold receiverFactor
  cases hai : ag[i]? with
  | none =>
    cases hai' : ag'[i]? with
    | none => rfl
    | some ai' => rw [hai, hai'] at hget; cases hget
  | some ai =>
    cases hai' : ag'[i]? with
    | none => rw [hai, hai'] at hget; cases hget
    | some ai' =>
      rw [hai, hai'] at hget
      simp only [Option.map_some', Option.some.injEq] at hget
      have hx : ai.pos_x = ai'.pos_x := by
        have := congrArg Agent.pos_x hget; exact this
      have hy : ai.pos_y = ai'.pos_y := by
        have := congrArg Agent.pos_y hget; exact this
      have hs : receiverSkipped ai ↔ receiverSkipped ai' := by
        have h1 : ai.status = ai'.status := by
          have := congrArg Agent.status hget; exact this
        have h2 : ai.disease_counter = ai'.disease_counter := by
          have := congrArg Agent.disease_counter hget; exact this
        have h3 : ai.incubation_period = ai'.incubation_period := by
          have := congrArg Agent.incubation_period hget; exact this
        unfold receiverSkipped
        rw [h1, h2, h3]
      simp only [hx, hy, hs]
      have hc : ∀ l : List Nat,
          prodM (fun jj => (bins.inds[jj]?).bind (factorOf lparm DAYTIME ag i)) l =
            prodM (fun jj => (bins.inds[jj]?).bind (factorOf lparm DAYTIME ag' i)) l := by
        intro l
        apply prodM_congr
        intro k _
        cases bins.inds[k]? with
        | none => rfl
        | some j =>
          simp only [Option.some_bind]
          exact factorOf_congr lparm DAYTIME _ _ h i j
      simp only [hc]

/-- The body of the `ParallelFor` lambda multiplies `prob[i]` by the factor of the
receiver `i = inds[ii]`, and fails exactly when a read fails. -/
theorem homeWorkThread_eq (lparm : DiseaseParm) (DAYTIME : Bool) (binner : ℚ → ℚ → Nat)
    (bins : Bins) (ag : List Agent) (ii : Nat) :
    homeWorkThread lparm DAYTIME binner bins ag ii =
      (bins.inds[ii]?).bind (fun i =>
        (receiverFactor lparm DAYTIME binner bins ag i).map (atomicMultiply ag i)) := by
  unfold homeWorkThread receiverFactor
  cases hi : bins.inds[ii]? with
  | none => rfl
  | some i =>
    simp only [Option.bind_eq_bind, Option.some_bind]
    cases hai : ag[i]? with
    | none => rfl
    | some ai =>
      simp only [Option.some_bind]
      cases hcs : bins.offsets[binner ai.pos_x ai.pos_y]? with
      | none => rfl
      | some cs =>
        simp only [Option.some_bind]
        cases hce : bins.offsets[binner ai.pos_x ai.pos_y + 1]? with
        | none => rfl
        | some ce =>
          simp only [Option.some_bind, receiverSkipped]
          split_ifs <;>
            first
              | (simp [atomicMultiply_one]; done)
              | (exfalso; tauto)
              | (exact foldlM_pairStep_eq lparm DAYTIME bins.inds i _ ag)

theorem foldlM_range'_getElem? {β : Type} (g : β → Nat → Option β) :
    ∀ (l pre : List Nat) (b : β),
      (List.range' pre.length l.length).foldlM (fun b ii => ((pre ++ l)[ii]?).bind (g b)) b =
        l.foldlM g b
  | [], pre, b => by simp
  | x :: l, pre, b => by
    simp only [List.length_cons, List.range']
    rw [List.foldlM_cons, List.foldlM_cons]
    have hx : (pre ++ x :: l)[pre.length]? = some x := by
      rw [List.getElem?_append_right (Nat.le_refl _)]
      simp
    rw [hx]
    simp only [Option.some_bind, Option.bind_eq_bind]
    cases hg : g b x with
    | none => rfl
    | some b' =>
      simp only [Option.some_bind]
      have := foldlM_range'_getElem? g l (pre ++ [x]) b'
      simp only [List.length_append, List.length_singleton, List.append_assoc,
        List.singleton_append] at this
      exact this

/-- The contact kernel is the loop of the receiver steps over the bin-sorted indices. -/
theorem interactAgentsHomeWorkKernel_eq (lparm : DiseaseParm) (home : Bool)
    (binner : ℚ → ℚ → Nat) (bins : Bins) (ag : List Agent) :
    interactAgentsHomeWorkKernel lparm home binner bins ag =
      bins.inds.foldlM (receiverStep lparm (!home) binner bins) ag := by
  unfold interactAgentsHomeWorkKernel Bins.numItems
  have h := foldlM_range'_getElem? (receiverStep lparm (!home) binner bins) bins.inds [] ag
  simp only [List.length_nil, List.nil_append] at h
  rw [← h, List.range_eq_range']
  have hf : homeWorkThread lparm (!home) binner bins =
      fun b ii => (bins.inds[ii]?).bind (receiverStep lparm (!home) binner bins b) := by
    funext b ii
    rw [homeWorkThread_eq]
    rfl
  simp only [hf]

theorem receiverStep_eraseProb (lparm : DiseaseParm) (DAYTIME : Bool) (binner : ℚ → ℚ → Nat)
    (bins : Bins) (ag ag' : List Agent) (i : Nat)
    (h : receiverStep lparm DAYTIME binner bins ag i = some ag') :
    ag'.map eraseProb = ag.map eraseProb := by
  unfold receiverStep at h
  cases hc : receiverFactor lparm DAYTIME binner bins ag i with
  | none => rw [hc] at h; cases h
  | some c =>
    rw [hc] at h
    simp only [Option.map_some', Option.some.injEq] at h
    rw [← h]
    exact atomicMultiply_eraseProb ag i c

/-- Invariant rule of the contact kernel: a property of the store that holds on entry and
is kept by every multiplication of a `prob[i]` by the factor of the receiver `i`, computed
on the store on entry, holds on exit; and the store on exit differs from the store on
entry in `prob` fields only. -/
theorem interactAgentsHomeWorkKernel_invariant (lparm : DiseaseParm) (home : Bool)
    (binner : ℚ → ℚ → Nat) (bins : Bins) (ag : List Agent) (Q : List Agent → Prop)
    (hQ : Q ag)
    (hstep : ∀ (b : List Agent) (i : Nat) (c : ℚ), b.map eraseProb = ag.map eraseProb → Q b →
      i ∈ bins.inds → receiverFactor lparm (!home) binner bins ag i = some c →
      Q (atomicMultiply b i c))
    (ag' : List Agent) (h : interactAgentsHomeWorkKernel lparm home binner bins ag = some ag') :
    Q ag' ∧ ag'.map eraseProb = ag.map eraseProb := by
  rw [interactAgentsHomeWorkKernel_eq] at h
  have key : ∀ (l : List Nat) (b : List Agent), (∀ i ∈ l, i ∈ bins.inds) →
      b.map eraseProb = ag.map eraseProb → Q b →
      l.foldlM (receiverStep lparm (!home) binner bins) b = some ag' →
      Q ag' ∧ ag'.map eraseProb = ag.map eraseProb := by
    intro l
    induction l with
    | nil =>
      intro b _ hb hQb hf
      simp only [List.foldlM_nil, Option.pure_def, Option.some.injEq] at hf
      subst hf
      exact ⟨hQb, hb⟩
    | cons i l ih =>
      intro b hl hb hQb hf
      rw [List.foldlM_cons] at hf
      cases hs : receiverStep lparm (!home) binner bins b i with
      | none => rw [hs] at hf; cases hf
      | some b' =>
        rw [hs] at hf
        simp only [Option.bind_eq_bind, Option.some_bind] at hf
        have hb' : b'.map eraseProb = ag.map eraseProb :=
          (receiverStep_eraseProb lparm (!home) binner bins b b' i hs).trans hb
        refine ih b' (fun k hk => hl k (List.mem_cons_of_mem _ hk)) hb' ?_ hf
        unfold receiverStep at hs
        cases hc : receiverFactor lparm (!home) binner bins b i with
        | none => rw [hc] at hs; cases hs
        | some c =>
          rw [hc] at hs
          simp only [Option.map_some', Option.some.injEq] at hs
          rw [← hs]
          rw [receiverFactor_congr lparm (!home) binner bins b ag hb i] at hc
          exact hstep b i c hb hQb (hl i (List.mem_cons_self _ _)) hc
  exact key bins.inds ag (fun i hi => hi) rfl hQ h

/-- The contact kernel returns a store whenever the factor of every receiver can be
computed on the store on entry. -/
theorem interactAgentsHomeWorkKernel_isSome (lparm : DiseaseParm) (home : Bool)
    (binner : ℚ → ℚ → Nat) (bins : Bins) (ag : List Agent)
    (hall : ∀ i ∈ bins.inds, ∃ c, receiverFactor lparm (!home) binner bins ag i = some c) :
    ∃ ag', interactAgentsHomeWorkKernel lparm home binner bins ag = some ag' := by
  rw [interactAgentsHomeWorkKernel_eq]
  have key : ∀ (l : List Nat) (b : List Agent), (∀ i ∈ l, i ∈ bins.inds) →
      b.map eraseProb = ag.map eraseProb →
      ∃ ag', l.foldlM (receiverStep lparm (!home) binner bins) b = some ag' := by
    intro l
    induction l with
    | nil => intro b _ _; exact ⟨b, rfl⟩
    | cons i l ih =>
      intro b hl hb
      rw [List.foldlM_cons]
      obtain ⟨c, hc⟩ := hall i (hl i (List.mem_cons_self _ _))
      have hs : receiverStep lparm (!home) binner bins b i = some (atomicMultiply b i c) := by
        unfold receiverStep
        rw [receiverFactor_congr lparm (!home) binner bins b ag hb i, hc]
        rfl
      rw [hs]
      simp only [Option.bind_eq_bind, Option.some_bind]
      exact ih _ (fun k hk => hl k (List.mem_cons_of_mem _ hk))
        ((atomicMultiply_eraseProb b i c).trans hb)
  exact key bins.inds ag (fun i hi => hi) rfl

theorem prodM_isSome (f : Nat → Option ℚ) (l : List Nat) (h : ∀ j ∈ l, ∃ c, f j = some c) :
    ∃ r, prodM f l = some r := by
  induction l with
  | nil => exact ⟨1, rfl⟩
  | cons j l ih =>
    obtain ⟨c, hc⟩ := h j (List.mem_cons_self _ _)
    obtain ⟨r, hr⟩ := ih (fun k hk => h k (List.mem_cons_of_mem _ hk))
    exact ⟨c * r, by simp only [prodM, hc, hr]⟩

/-- With bins that fit the store, the factor of every receiver of `inds` can be computed. -/
theorem receiverFactor_isSome (lparm : DiseaseParm) (DAYTIME : Bool) (binner : ℚ → ℚ → Nat)
    (bins : Bins) (ag : List Agent) (hfit : BinsFit binner bins ag) (i : Nat)
    (hi : i ∈ bins.inds) : ∃ c, receiverFactor lparm DAYTIME binner bins ag i = some c := by
  have hlt : i < ag.length := hfit.inds_lt i hi
  have hai : ag[i]? = some ag[i] := List.getElem?_eq_getElem hlt
  have hmem : ag[i] ∈ ag := List.getElem_mem hlt
  have hcell := hfit.cell_lt ag[i] hmem
  have hcs : bins.offsets[binner ag[i].pos_x ag[i].pos_y]? =
      some bins.offsets[binner ag[i].pos_x ag[i].pos_y] :=
    List.getElem?_eq_getElem (by omega)
  have hce : bins.offsets[binner ag[i].pos_x ag[i].pos_y + 1]? =
      some bins.offsets[binner ag[i].pos_x ag[i].pos_y + 1] :=
    List.getElem?_eq_getElem hcell
  have hle : bins.offsets[binner ag[i].pos_x ag[i].pos_y + 1] ≤ bins.inds.length :=
    hfit.offsets_le _ (List.getElem_mem hcell)
  unfold receiverFactor
  simp only [hai, hcs, hce]
  split_ifs
  · exact ⟨1, rfl⟩
  · apply prodM_isSome
    intro jj hjj
    rw [List.mem_range'_1] at hjj
    have hjlt : jj < bins.inds.length := by omega
    have hj : bins.inds[jj]? = some bins.inds[jj] := List.getElem?_eq_getElem hjlt
    have hjlt' : bins.inds[jj] < ag.length := hfit.inds_lt _ (List.getElem_mem hjlt)
    rw [hj]
    simp only [Option.some_bind, factorOf]
    split_ifs
    · exact ⟨1, rfl⟩
    · rw [List.getElem?_eq_getElem hjlt', hai]
      exact ⟨_, rfl⟩

theorem sameButProb_of_eraseProb (a a' : Agent) (h : eraseProb a' = eraseProb a) :
    sameButProb a a' := by
  cases a; cases a'
  simp only [eraseProb, Agent.mk.injEq] at h
  simp only [sameButProb, Agent.mk.injEq]
  tauto

theorem forall₂_sameButProb : ∀ (ag ag' : List Agent),
    ag'.map eraseProb = ag.map eraseProb → List.Forall₂ sameButProb ag ag'
  | [], [], _ => List.Forall₂.nil
  | [], _ :: _, h => by simp at h
  | _ :: _, [], h => by simp at h
  | a :: ag, a' :: ag', h => by
    simp only [List.map_cons, List.cons.injEq] at h
    exact List.Forall₂.cons (sameButProb_of_eraseProb a a' h.1) (forall₂_sameButProb ag ag' h.2)

/-- The contact kernel changes `prob` fields only. -/
theorem interactAgentsHomeWorkKernel_sameButProb (lparm : DiseaseParm) (home : Bool)
    (binner : ℚ → ℚ → Nat) (bins : Bins) (ag ag' : List Agent)
    (h : interactAgentsHomeWorkKernel lparm home binner bins ag = some ag') :
    List.Forall₂ sameButProb ag ag' :=
  forall₂_sameButProb ag ag'
    (interactAgentsHomeWorkKernel_invariant lparm home binner bins ag (fun _ => True) trivial
      (fun _ _ _ _ _ _ _ => trivial) ag' h).2

/-- The contact kernel returns a store when the bins fit the store on entry. -/
theorem interactAgentsHomeWorkKernel_total (lparm : DiseaseParm) (home : Bool)
    (binner : ℚ → ℚ → Nat) (bins : Bins) (ag : List Agent) (hfit : BinsFit binner bins ag) :
    ∃ ag', interactAgentsHomeWorkKernel lparm home binner bins ag = some ag' :=
  interactAgentsHomeWorkKernel_isSome lparm home binner bins ag
    (fun i hi => receiverFactor_isSome lparm (!home) binner bins ag hfit i hi)

theorem ensureBins_agents (build : List Agent → Bins) (home : Bool) (t : Tile) :
    (t.ensureBins build home).agents = t.agents := by
  unfold Tile.ensureBins
  split
  · rfl
  · split_ifs <;> rfl

/-- C7: `interactAgentsHomeWork` writes only the `prob` field: whenever it returns, every
agent of the tile has the position and the integer and real attributes it had before,
`prob` apart; and it returns whenever the bins of the phase hold as many items as there are
agents and fit the store. -/
theorem interactAgentsHomeWork_writes_only_prob (lparm : DiseaseParm)
    (build : List Agent → Bins) (binner : ℚ → ℚ → Nat) (home : Bool) (t : Tile) :
    (∀ t', interactAgentsHomeWork lparm build binner home t = some t' →
        List.Forall₂ sameButProb t.agents t'.agents) ∧
      (∀ bins, (t.ensureBins build home).phaseBins home = some bins →
        t.agents.length = bins.numItems → BinsFit binner bins t.agents →
        ∃ t', interactAgentsHomeWork lparm build binner home t = some t') := by
  constructor
  · intro t' h
    unfold interactAgentsHomeWork at h
    simp only [Option.bind_eq_bind, Option.pure_def] at h
    cases hb : (t.ensureBins build home).phaseBins home with
    | none => rw [hb] at h; cases h
    | some bins =>
      rw [hb] at h
      simp only [Option.some_bind, ensureBins_agents] at h
      split_ifs at h with hlen
      cases hk : interactAgentsHomeWorkKernel lparm home binner bins t.agents with
      | none => rw [hk] at h; cases h
      | some ag' =>
        rw [hk] at h
        simp only [Option.some_bind, Option.some.injEq] at h
        rw [← h]
        exact interactAgentsHomeWorkKernel_sameButProb lparm home binner bins t.agents ag' hk
  · intro bins hb hlen hfit
    obtain ⟨ag', hk⟩ := interactAgentsHomeWorkKernel_total lparm home binner bins t.agents hfit
    refine ⟨{ (t.ensureBins build home) with agents := ag' }, ?_⟩
    unfold interactAgentsHomeWork
    simp only [Option.bind_eq_bind, Option.pure_def, hb, Option.some_bind, ensureBins_agents,
      hk]
    rw [if_neg (by simpa using hlen)]

/-- C7, at the two-agent tile `tileTwo` in the home phase: the kernel returns and changes
`prob` fields only. -/
theorem interactAgentsHomeWork_writes_only_prob_witness :
    ∃ t', interactAgentsHomeWork lparmUnit (fun _ => binsOneCell) (fun _ _ => 0) true tileTwo =
        some t' ∧ List.Forall₂ sameButProb tileTwo.agents t'.agents := by
  have h := interactAgentsHomeWork_writes_only_prob lparmUnit (fun _ => binsOneCell)
    (fun _ _ => 0) true tileTwo
  obtain ⟨t', ht'⟩ := h.2 binsOneCell rfl rfl
    ⟨by simp [binsOneCell, tileTwo], by simp [binsOneCell, tileTwo],
      by simp [binsOneCell]⟩
  exact ⟨t', ht', h.1 t' ht'⟩

/-! ## Theorems: mixing groups of one pair -/

/-- For a receiver that is neither infected nor dead and an infected transmitter past
incubation, one iteration of the loop over `jj` multiplies `prob[i]` by the local `prob`
of the pair. -/
theorem pairStep_transmits (lparm : DiseaseParm) (DAYTIME : Bool) (inds : List Nat)
    (i j jj : Nat) (ag : List Agent) (ai aj : Agent)
    (hj : inds[jj]? = some j) (hij : i ≠ j) (hai : ag[i]? = some ai) (haj : ag[j]? = some aj)
    (ht : transmits ai aj) :
    pairStep lparm DAYTIME inds i ag jj =
      some (atomicMultiply ag i (pairProb lparm DAYTIME ai aj)) := by
  rw [pairStep_eq, hj]
  simp only [Option.some_bind, factorOf, if_neg hij, hai, haj, pairFactor, if_pos ht,
    Option.map_some']

/-- C4 (as stated, refuted): at home, for the never infected receiver `agentReceiver` and
the infectious transmitter `agentTransmitter` of the same neighbourhood and family, neither
withdrawn, the household and the neighbourhood cluster conditions both hold, the table of
mixing groups gives the factor `1/16`, and the kernel multiplies `prob` of the receiver by
`1/8`: the household, community and neighbourhood factors without the cluster factor. -/
theorem interactAgentsHomeWork_cluster_factor_not_applied :
    transmits agentReceiver agentTransmitter ∧
      householdActive false agentReceiver agentTransmitter ∧
      clusterActive false agentReceiver agentTransmitter ∧
      neitherWithdrawn agentReceiver agentTransmitter ∧
      agentReceiver.prob * specPairProb lparmUnit false agentReceiver agentTransmitter = 1/16 ∧
      (interactAgentsHomeWorkKernel lparmUnit true (fun _ _ => 0) binsOneCell
          [agentReceiver, agentTransmitter]).map (fun ag => ag.map (fun a => a.prob)) =
        some [1/8, 1] := by
  refine ⟨?_, ?_, ?_, ?_, ?_, ?_⟩
  · simp [transmits, agentReceiver, agentTransmitter, agentZero]
  · simp [householdActive, agentReceiver, agentTransmitter, agentZero]
  · simp [clusterActive, agentReceiver, agentTransmitter, agentZero]
  · simp [neitherWithdrawn, agentReceiver, agentTransmitter, agentZero]
  · simp [specPairProb, groupFactor, householdActive, clusterActive, neitherWithdrawn,
      workgroupActive, daycareActive, schoolActive, householdRate, clusterRate, communityRate,
      hoodRate, lparmUnit, agentReceiver, agentTransmitter, agentZero]
    norm_num
  · simp [interactAgentsHomeWorkKernel, homeWorkThread, pairStep, pairProb, familyTerm,
      clusterTerm, communityTerm, workgroupTerm, hoodTerm, schoolTerm, atomicMultiply,
      Bins.numItems, binsOneCell, lparmUnit, agentReceiver, agentTransmitter, agentZero,
      List.range_succ, List.range', List.foldlM]
    norm_num

/-- C4 (amended): for a receiver that is neither infected nor dead and an infected
transmitter past incubation of the same cell, the iteration multiplies `prob[i]` by the
product of the factors `1 - infect * rate` of the mixing groups as the kernel nests them:
the cluster group only when the household group is not active, the groups other than
these two only when neither agent is withdrawn. At home with the same neighbourhood and
family and neither agent withdrawn this product is the household, community and
neighbourhood factors, without the cluster factor. -/
theorem pairStep_mixing_groups (lparm : DiseaseParm) (DAYTIME : Bool) (inds : List Nat)
    (i j jj : Nat) (ag : List Agent) (ai aj : Agent)
    (hj : inds[jj]? = some j) (hij : i ≠ j) (hai : ag[i]? = some ai) (haj : ag[j]? = some aj)
    (hi : ai.status = Status.never ∨ ai.status = Status.susceptible)
    (hjs : aj.status = Status.infected)
    (hinc : aj.incubation_period ≤ aj.disease_counter) :
    pairStep lparm DAYTIME inds i ag jj =
        some (atomicMultiply ag i (nestedPairProb lparm DAYTIME ai aj)) ∧
      (DAYTIME = false → ai.nborhood = aj.nborhood → ai.family = aj.family →
        ai.withdrawn = 0 → aj.withdrawn = 0 →
        nestedPairProb lparm DAYTIME ai aj =
          (1 - lparm.infect * lparm.vac_eff * householdRate lparm ai aj) *
            (1 - lparm.infect * lparm.vac_eff * communityRate lparm ai aj) *
            (1 - lparm.infect * lparm.vac_eff * hoodRate lparm ai aj)) := by
  have ht : transmits ai aj := by
    refine ⟨hjs, not_lt.mpr hinc, ?_, ?_⟩ <;> rcases hi with h | h <;> simp [h]
  constructor
  · rw [pairStep_transmits lparm DAYTIME inds i j jj ag ai aj hj hij hai haj ht,
      pairProb_eq_nestedPairProb]
  · intro hD hn hf hwi hwj
    subst hD
    have hh : householdActive false ai aj := ⟨hn, hf, rfl⟩
    have hw : neitherWithdrawn ai aj := ⟨hwi, hwj⟩
    have hwk : ¬ workgroupActive false ai aj := by simp [workgroupActive]
    have hdc : ¬ daycareActive false ai aj := by simp [daycareActive]
    have hsc : ¬ schoolActive false ai aj := by simp [schoolActive]
    unfold nestedPairProb
    simp only [groupFactor, hh, hw, hn, hwk, hdc, hsc, not_true_eq_false, false_and, and_false,
      and_true, if_true, if_false, mul_one]

/-- C4 (amended), at the pair `agentReceiver`, `agentTransmitter` at home. -/
theorem pairStep_mixing_groups_witness :
    pairStep lparmUnit false [0, 1] 0 [agentReceiver, agentTransmitter] 1 =
        some (atomicMultiply [agentReceiver, agentTransmitter] 0
          (nestedPairProb lparmUnit false agentReceiver agentTransmitter)) ∧
      (false = false → agentReceiver.nborhood = agentTransmitter.nborhood →
        agentReceiver.family = agentTransmitter.family →
        agentReceiver.withdrawn = 0 → agentTransmitter.withdrawn = 0 →
        nestedPairProb lparmUnit false agentReceiver agentTransmitter =
          (1 - lparmUnit.infect * lparmUnit.vac_eff *
              householdRate lparmUnit agentReceiver agentTransmitter) *
            (1 - lparmUnit.infect * lparmUnit.vac_eff *
              communityRate lparmUnit agentReceiver agentTransmitter) *
            (1 - lparmUnit.infect * lparmUnit.vac_eff *
              hoodRate lparmUnit agentReceiver agentTransmitter)) :=
  pairStep_mixing_groups lparmUnit false [0, 1] 0 1 1 [agentReceiver, agentTransmitter]
    agentReceiver agentTransmitter rfl (by decide) rfl rfl (Or.inl rfl) rfl
    (by norm_num [agentTransmitter, agentZero])

theorem groupFactor_zero (active : Prop) [Decidable active] (infect : ℚ) :
    groupFactor active infect 0 = 1 := by
  unfold groupFactor
  split_ifs <;> simp

theorem hoodRate_withoutHood (lparm : DiseaseParm) (ai aj : Agent) :
    hoodRate (withoutHood lparm) ai aj = 0 := by
  unfold hoodRate withoutHood
  split_ifs <;> rfl

/-- The local `prob` of a pair is its neighbourhood factor times the local `prob` computed
with both neighbourhood tables set to zero. -/
theorem pairProb_hood_split (lparm : DiseaseParm) (DAYTIME : Bool) (ai aj : Agent) :
    pairProb lparm DAYTIME ai aj =
      groupFactor (neitherWithdrawn ai aj ∧ ai.nborhood = aj.nborhood)
          (lparm.infect * lparm.vac_eff) (hoodRate lparm ai aj) *
        pairProb (withoutHood lparm) DAYTIME ai aj := by
  rw [pairProb_eq_nestedPairProb, pairProb_eq_nestedPairProb]
  unfold nestedPairProb
  simp only [hoodRate_withoutHood, groupFactor_zero]
  have h1 : householdRate (withoutHood lparm) ai aj = householdRate lparm ai aj := rfl
  have h2 : clusterRate (withoutHood lparm) ai aj = clusterRate lparm ai aj := rfl
  have h3 : communityRate (withoutHood lparm) ai aj = communityRate lparm ai aj := rfl
  have h4 : daycareRate (withoutHood lparm) ai = daycareRate lparm ai := rfl
  have h5 : schoolRate (withoutHood lparm) ai aj = schoolRate lparm ai aj := rfl
  have h6 : (withoutHood lparm).infect = lparm.infect := rfl
  have h7 : (withoutHood lparm).vac_eff = lparm.vac_eff := rfl
  have h8 : (withoutHood lparm).xmit_work = lparm.xmit_work := rfl
  rw [h1, h2, h3, h4, h5, h6, h7, h8]
  ring

/-- C5 (as stated, refuted): the withdrawn, never infected receiver `agentWithdrawn` and
the infectious transmitter `agentNeighbour` have the same neighbourhood and the
transmitter has `school ≥ 0`, yet the factor of the pair does not contain
`1 - infect * xmit_hood[age_i]`: the kernel leaves `prob` of the receiver at `1`. -/
theorem interactAgentsHomeWork_neighbourhood_factor_not_applied :
    transmits agentWithdrawn agentNeighbour ∧
      agentWithdrawn.nborhood = agentNeighbour.nborhood ∧
      agentNeighbour.school ≥ 0 ∧
      pairProb lparmUnit false agentWithdrawn agentNeighbour ≠
        (1 - lparmUnit.infect * lparmUnit.vac_eff * lparmUnit.xmit_hood agentWithdrawn.age_group) *
          pairProb (withoutHood lparmUnit) false agentWithdrawn agentNeighbour ∧
      (interactAgentsHomeWorkKernel lparmUnit true (fun _ _ => 0) binsOneCell
          [agentWithdrawn, agentNeighbour]).map (fun ag => ag.map (fun a => a.prob)) =
        some [1, 1] := by
  refine ⟨?_, ?_, ?_, ?_, ?_⟩
  · simp [transmits, agentWithdrawn, agentNeighbour, agentZero]
  · simp [agentWithdrawn, agentNeighbour, agentZero]
  · simp [agentNeighbour, agentZero]
  · simp [pairProb, familyTerm, clusterTerm, communityTerm, workgroupTerm, hoodTerm, schoolTerm,
      withoutHood, lparmUnit, agentWithdrawn, agentNeighbour, agentZero]
    norm_num
  · simp [interactAgentsHomeWorkKernel, homeWorkThread, pairStep, pairProb, familyTerm,
      clusterTerm, communityTerm, workgroupTerm, hoodTerm, schoolTerm, atomicMultiply,
      Bins.numItems, binsOneCell, lparmUnit, agentWithdrawn, agentNeighbour, agentZero,
      List.range_succ, List.range', List.foldlM]

/-- C5 (amended): for a receiver that is neither infected nor dead and an infected
transmitter past incubation with the same `nborhood`, the factor by which the iteration
multiplies `prob[i]` contains the neighbourhood factor `1 - infect * xmit_hood[age_i]`
(`school[j] ≥ 0`) or `1 - infect * xmit_hood_SC[age_i]` (`school[j] < 0`) when neither agent
is withdrawn, and contains no neighbourhood factor when one of them is withdrawn. -/
theorem pairStep_neighbourhood_factor (lparm : DiseaseParm) (DAYTIME : Bool) (inds : List Nat)
    (i j jj : Nat) (ag : List Agent) (ai aj : Agent)
    (hj : inds[jj]? = some j) (hij : i ≠ j) (hai : ag[i]? = some ai) (haj : ag[j]? = some aj)
    (hi : ai.status = Status.never ∨ ai.status = Status.susceptible)
    (hjs : aj.status = Status.infected)
    (hinc : aj.incubation_period ≤ aj.disease_counter)
    (hn : ai.nborhood = aj.nborhood) :
    (ai.withdrawn = 0 ∧ aj.withdrawn = 0 →
        pairStep lparm DAYTIME inds i ag jj =
          some (atomicMultiply ag i
            ((1 - lparm.infect * lparm.vac_eff *
                (if aj.school < 0 then lparm.xmit_hood_SC ai.age_group
                  else lparm.xmit_hood ai.age_group)) *
              pairProb (withoutHood lparm) DAYTIME ai aj))) ∧
      (¬ (ai.withdrawn = 0 ∧ aj.withdrawn = 0) →
        pairStep lparm DAYTIME inds i ag jj =
          some (atomicMultiply ag i (pairProb (withoutHood lparm) DAYTIME ai aj))) := by
  have ht : transmits ai aj := by
    refine ⟨hjs, not_lt.mpr hinc, ?_, ?_⟩ <;> rcases hi with h | h <;> simp [h]
  have hrate : hoodRate lparm ai aj =
      (if aj.school < 0 then lparm.xmit_hood_SC ai.age_group
        else lparm.xmit_hood ai.age_group) := by
    unfold hoodRate
    split_ifs <;> first | rfl | (exfalso; omega)
  rw [pairStep_transmits lparm DAYTIME inds i j jj ag ai aj hj hij hai haj ht,
    pairProb_hood_split, hrate]
  constructor
  · intro hw
    rw [groupFactor_true (show neitherWithdrawn ai aj ∧ ai.nborhood = aj.nborhood from ⟨hw, hn⟩)]
  · intro hw
    rw [groupFactor_false (show ¬ (neitherWithdrawn ai aj ∧ ai.nborhood = aj.nborhood) from
      fun h => hw h.1), one_mul]

/-- C5 (amended), at the pairs `agentReceiver`, `agentNeighbour` (neither withdrawn) and
`agentWithdrawn`, `agentNeighbour`. -/
theorem pairStep_neighbourhood_factor_witness :
    pairStep lparmUnit false [0, 1] 0 [agentReceiver, agentNeighbour] 1 =
        some (atomicMultiply [agentReceiver, agentNeighbour] 0
          ((1 - lparmUnit.infect * lparmUnit.vac_eff *
              (if agentNeighbour.school < 0 then lparmUnit.xmit_hood_SC agentReceiver.age_group
                else lparmUnit.xmit_hood agentReceiver.age_group)) *
            pairProb (withoutHood lparmUnit) false agentReceiver agentNeighbour)) ∧
      pairStep lparmUnit false [0, 1] 0 [agentWithdrawn, agentNeighbour] 1 =
        some (atomicMultiply [agentWithdrawn, agentNeighbour] 0
          (pairProb (withoutHood lparmUnit) false agentWithdrawn agentNeighbour)) :=
  ⟨(pairStep_neighbourhood_factor lparmUnit false [0, 1] 0 1 1 [agentReceiver, agentNeighbour]
      agentReceiver agentNeighbour rfl (by decide) rfl rfl (Or.inl rfl) rfl
      (by norm_num [agentNeighbour, agentZero]) rfl).1 ⟨rfl, rfl⟩,
   (pairStep_neighbourhood_factor lparmUnit false [0, 1] 0 1 1 [agentWithdrawn, agentNeighbour]
      agentWithdrawn agentNeighbour rfl (by decide) rfl rfl (Or.inl rfl) rfl
      (by norm_num [agentNeighbour, agentZero]) rfl).2
      (by simp [agentWithdrawn, agentZero])⟩

/-! ## Theorems: bounds on `prob` -/

theorem unit_mul {a b : ℚ} (ha : 0 ≤ a ∧ a ≤ 1) (hb : 0 ≤ b ∧ b ≤ 1) :
    0 ≤ a * b ∧ a * b ≤ 1 :=
  ⟨mul_nonneg ha.1 hb.1, by nlinarith [ha.1, ha.2, hb.1, hb.2]⟩

theorem groupFactor_unit (active : Prop) [Decidable active] (infect rate : ℚ)
    (h : 0 ≤ infect * rate ∧ infect * rate ≤ 1) :
    0 ≤ groupFactor active infect rate ∧ groupFactor active infect rate ≤ 1 := by
  unfold groupFactor
  split_ifs
  · constructor <;> linarith [h.1, h.2]
  · constructor <;> norm_num

/-- Under `RatesInUnit` the local `prob` of every pair lies in `[0, 1]`. -/
theorem pairProb_unit (lparm : DiseaseParm) (hr : RatesInUnit lparm) (DAYTIME : Bool)
    (ai aj : Agent) :
    0 ≤ pairProb lparm DAYTIME ai aj ∧ pairProb lparm DAYTIME ai aj ≤ 1 := by
  have hT : ∀ T ∈ lparm.tables, ∀ k : Int,
      0 ≤ lparm.infect * lparm.vac_eff * T k ∧ lparm.infect * lparm.vac_eff * T k ≤ 1 := hr.1
  have hhouse : 0 ≤ lparm.infect * lparm.vac_eff * householdRate lparm ai aj ∧
      lparm.infect * lparm.vac_eff * householdRate lparm ai aj ≤ 1 := by
    unfold householdRate
    split_ifs <;> exact hT _ (by simp [DiseaseParm.tables]) _
  have hclus : 0 ≤ lparm.infect * lparm.vac_eff * clusterRate lparm ai aj ∧
      lparm.infect * lparm.vac_eff * clusterRate lparm ai aj ≤ 1 := by
    unfold clusterRate
    split_ifs <;> exact hT _ (by simp [DiseaseParm.tables]) _
  have hcomm : 0 ≤ lparm.infect * lparm.vac_eff * communityRate lparm ai aj ∧
      lparm.infect * lparm.vac_eff * communityRate lparm ai aj ≤ 1 := by
    unfold communityRate
    split_ifs <;> exact hT _ (by simp [DiseaseParm.tables]) _
  have hhood : 0 ≤ lparm.infect * lparm.vac_eff * hoodRate lparm ai aj ∧
      lparm.infect * lparm.vac_eff * hoodRate lparm ai aj ≤ 1 := by
    unfold hoodRate
    split_ifs <;> exact hT _ (by simp [DiseaseParm.tables]) _
  have hday : 0 ≤ lparm.infect * lparm.vac_eff * daycareRate lparm ai ∧
      lparm.infect * lparm.vac_eff * daycareRate lparm ai ≤ 1 := by
    unfold daycareRate
    split_ifs <;> exact hT _ (by simp [DiseaseParm.tables]) _
  have hsch : 0 ≤ lparm.infect * lparm.vac_eff * schoolRate lparm ai aj ∧
      lparm.infect * lparm.vac_eff * schoolRate lparm ai aj ≤ 1 := by
    unfold schoolRate
    split_ifs
    · exact hT _ (by simp [DiseaseParm.tables]) _
    · exact hT _ (by simp [DiseaseParm.tables]) _
    · exact hT _ (by simp [DiseaseParm.tables]) _
    · simp
  rw [pairProb_eq_nestedPairProb]
  unfold nestedPairProb
  exact unit_mul (unit_mul (unit_mul (unit_mul (unit_mul (unit_mul
    (groupFactor_unit _ _ _ hhouse) (groupFactor_unit _ _ _ hclus))
    (groupFactor_unit _ _ _ hcomm)) (groupFactor_unit _ _ _ hr.2))
    (groupFactor_unit _ _ _ hhood)) (groupFactor_unit _ _ _ hday))
    (groupFactor_unit _ _ _ hsch)

theorem prodM_unit (f : Nat → Option ℚ) (hf : ∀ j c, f j = some c → 0 ≤ c ∧ c ≤ 1) :
    ∀ (l : List Nat) (r : ℚ), prodM f l = some r → 0 ≤ r ∧ r ≤ 1
  | [], r, h => by
    simp only [prodM, Option.some.injEq] at h
    subst h
    constructor <;> norm_num
  | j :: l, r, h => by
    simp only [prodM] at h
    cases hc : f j with
    | none => rw [hc] at h; cases h
    | some c =>
      cases hr : prodM f l with
      | none => rw [hc, hr] at h; cases h
      | some r' =>
        rw [hc, hr] at h
        simp only [Option.some.injEq] at h
        subst h
        exact unit_mul (hf j c hc) (prodM_unit f hf l r' hr)

theorem factorOf_unit (lparm : DiseaseParm) (hr : RatesInUnit lparm) (DAYTIME : Bool)
    (ag : List Agent) (i j : Nat) (c : ℚ) (h : factorOf lparm DAYTIME ag i j = some c) :
    0 ≤ c ∧ c ≤ 1 := by
  unfold factorOf at h
  split_ifs at h
  · simp only [Option.some.injEq] at h
    subst h
    constructor <;> norm_num
  · split at h
    · simp only [Option.some.injEq] at h
      subst h
      unfold pairFactor
      split_ifs
      · exact pairProb_unit lparm hr DAYTIME _ _
      · constructor <;> norm_num
    · cases h

/-- Under `RatesInUnit` the factor of every receiver lies in `[0, 1]`. -/
theorem receiverFactor_unit (lparm : DiseaseParm) (hr : RatesInUnit lparm) (DAYTIME : Bool)
    (binner : ℚ → ℚ → Nat) (bins : Bins) (ag : List Agent) (i : Nat) (c : ℚ)
    (h : receiverFactor lparm DAYTIME binner bins ag i = some c) : 0 ≤ c ∧ c ≤ 1 := by
  unfold receiverFactor at h
  split at h
  · cases h
  · split at h
    · split_ifs at h
      · simp only [Option.some.injEq] at h
        subst h
        constructor <;> norm_num
      · refine prodM_unit _ ?_ _ c h
        intro jj d hd
        cases hj : bins.inds[jj]? with
        | none => rw [hj] at hd; cases hd
        | some j =>
          rw [hj] at hd
          exact factorOf_unit lparm hr DAYTIME ag i j d hd
    · cases h

theorem atomicMultiply_mem (ag : List Agent) (i : Nat) (c : ℚ) (a' : Agent)
    (h : a' ∈ atomicMultiply ag i c) :
    ∃ a ∈ ag, a'.prob = a.prob ∨ a'.prob = a.prob * c := by
  obtain ⟨n, hn⟩ := List.mem_iff_getElem?.mp h
  rw [atomicMultiply_getElem?] at hn
  cases ha : ag[n]? with
  | none => rw [ha] at hn; cases hn
  | some a =>
    rw [ha] at hn
    simp only [Option.map_some', Option.some.injEq] at hn
    refine ⟨a, List.mem_iff_getElem?.mpr ⟨n, ha⟩, ?_⟩
    subst hn
    split_ifs
    · exact Or.inr rfl
    · exact Or.inl rfl

theorem infectAgents_mem (lparm : DiseaseParm) (e : Nat → Nat → ℚ)
    (nrm : Nat → ℚ → ℚ → Nat → ℚ) (ag : List Agent) (a' : Agent)
    (h : a' ∈ infectAgents lparm e nrm ag) : ∃ a ∈ ag, a'.prob = 1 - a.prob := by
  obtain ⟨n, hn⟩ := List.mem_iff_getElem?.mp h
  unfold infectAgents at hn
  rw [infectAgentsFrom_getElem?] at hn
  cases ha : ag[n]? with
  | none => rw [ha] at hn; cases hn
  | some a =>
    rw [ha] at hn
    simp only [Option.map_some', Option.some.injEq] at hn
    refine ⟨a, List.mem_iff_getElem?.mpr ⟨n, ha⟩, ?_⟩
    subst hn
    unfold infectAgentsAgent
    dsimp only
    split_ifs <;> rfl

/-- C9: if every product `infect * vac_eff * rate` lies in `[0, 1]` and every `prob` is `1`
on entry, then every `prob` lies in `[0, 1]` after the contact kernel and again after
`infectAgents` has flipped it; and the kernel returns when the bins fit the store. -/
theorem interactAgentsHomeWork_prob_in_unit (lparm : DiseaseParm) (home : Bool)
    (binner : ℚ → ℚ → Nat) (bins : Bins) (ag : List Agent)
    (hr : RatesInUnit lparm) (h1 : ∀ a ∈ ag, a.prob = 1) :
    (∀ ag', interactAgentsHomeWorkKernel lparm home binner bins ag = some ag' →
        (∀ a ∈ ag', 0 ≤ a.prob ∧ a.prob ≤ 1) ∧
        ∀ (e : Nat → Nat → ℚ) (nrm : Nat → ℚ → ℚ → Nat → ℚ),
          ∀ a ∈ infectAgents lparm e nrm ag', 0 ≤ a.prob ∧ a.prob ≤ 1) ∧
      (BinsFit binner bins ag →
        ∃ ag', interactAgentsHomeWorkKernel lparm home binner bins ag = some ag') := by
  refine ⟨?_, interactAgentsHomeWorkKernel_total lparm home binner bins ag⟩
  intro ag' h
  have hunit : ∀ a ∈ ag', 0 ≤ a.prob ∧ a.prob ≤ 1 := by
    refine (interactAgentsHomeWorkKernel_invariant lparm home binner bins ag
      (fun b => ∀ a ∈ b, 0 ≤ a.prob ∧ a.prob ≤ 1) ?_ ?_ ag' h).1
    · intro a ha
      rw [h1 a ha]
      constructor <;> norm_num
    · intro b i c _ hb _ hc a' ha'
      obtain ⟨a, ha, hp | hp⟩ := atomicMultiply_mem b i c a' ha'
      · rw [hp]; exact hb a ha
      · rw [hp]
        exact unit_mul (hb a ha) (receiverFactor_unit lparm hr (!home) binner bins ag i c hc)
  refine ⟨hunit, ?_⟩
  intro e nrm a' ha'
  obtain ⟨a, ha, hp⟩ := infectAgents_mem lparm e nrm ag' a' ha'
  have := hunit a ha
  rw [hp]
  constructor <;> linarith [this.1, this.2]

theorem lparmUnit_ratesInUnit : RatesInUnit lparmUnit := by
  refine ⟨?_, ?_, ?_⟩
  · intro T hT k
    simp only [DiseaseParm.tables, lparmUnit, List.mem_cons, List.mem_singleton,
      List.not_mem_nil, or_false, or_self] at hT
    subst hT
    norm_num [lparmUnit]
  · norm_num [lparmUnit]
  · norm_num [lparmUnit]

theorem binsOneCell_fit (a b : Agent) : BinsFit (fun _ _ => 0) binsOneCell [a, b] :=
  ⟨by simp [binsOneCell], by simp [binsOneCell], by simp [binsOneCell]⟩

/-- C9, at the store `[agentReceiver, agentTransmitter]` with the parameters `lparmUnit`:
the kernel returns a store, and every `prob` of it, and of its image under `infectAgents`,
lies in `[0, 1]`. -/
theorem interactAgentsHomeWork_prob_in_unit_witness :
    RatesInUnit lparmUnit ∧ (∀ a ∈ [agentReceiver, agentTransmitter], a.prob = 1) ∧
      ∃ ag', interactAgentsHomeWorkKernel lparmUnit true (fun _ _ => 0) binsOneCell
          [agentReceiver, agentTransmitter] = some ag' ∧
        (∀ a ∈ ag', 0 ≤ a.prob ∧ a.prob ≤ 1) ∧
        ∀ (e : Nat → Nat → ℚ) (nrm : Nat → ℚ → ℚ → Nat → ℚ),
          ∀ a ∈ infectAgents lparmUnit e nrm ag', 0 ≤ a.prob ∧ a.prob ≤ 1 := by
  have hone : ∀ a ∈ [agentReceiver, agentTransmitter], a.prob = 1 := by
    simp [agentReceiver, agentTransmitter, agentZero]
  have h := interactAgentsHomeWork_prob_in_unit lparmUnit true (fun _ _ => 0) binsOneCell
    [agentReceiver, agentTransmitter] lparmUnit_ratesInUnit hone
  obtain ⟨ag', hag'⟩ := h.2 (binsOneCell_fit _ _)
  exact ⟨lparmUnit_ratesInUnit, hone, ag', hag', h.1 ag' hag'⟩

/-! ## Theorems: which `prob` the contact kernel changes -/

theorem prodM_ne_one (f : Nat → Option ℚ) :
    ∀ (l : List Nat) (r : ℚ), prodM f l = some r → r ≠ 1 →
      ∃ j ∈ l, ∃ c, f j = some c ∧ c ≠ 1
  | [], r, h, hne => by
    simp only [prodM, Option.some.injEq] at h
    exact absurd h.symm hne
  | j :: l, r, h, hne => by
    simp only [prodM] at h
    cases hc : f j with
    | none => rw [hc] at h; cases h
    | some c =>
      cases hr : prodM f l with
      | none => rw [hc, hr] at h; cases h
      | some r' =>
        rw [hc, hr] at h
        simp only [Option.some.injEq] at h
        by_cases hc1 : c = 1
        · have hr1 : r' ≠ 1 := by
            intro hr1
            apply hne
            rw [← h, hc1, hr1, mul_one]
          obtain ⟨k, hk, d, hd, hd1⟩ := prodM_ne_one f l r' hr hr1
          exact ⟨k, List.mem_cons_of_mem _ hk, d, hd, hd1⟩
        · exact ⟨j, List.mem_cons_self _ _, c, hc, hc1⟩

/-- A factor other than `1` of a receiver comes from a receiver that is not skipped and a
transmitter of its cell. -/
theorem receiverFactor_ne_one (lparm : DiseaseParm) (DAYTIME : Bool) (binner : ℚ → ℚ → Nat)
    (bins : Bins) (ag : List Agent) (i : Nat) (c : ℚ)
    (h : receiverFactor lparm DAYTIME binner bins ag i = some c) (hc : c ≠ 1) :
    ∃ ai, ag[i]? = some ai ∧ ai.status ≠ Status.infected ∧ ai.status ≠ Status.immune ∧
      ai.status ≠ Status.dead ∧ cellHasTransmitter binner bins ag i ai := by
  unfold receiverFactor at h
  cases hai : ag[i]? with
  | none => rw [hai] at h; cases h
  | some ai =>
    rw [hai] at h
    simp only at h
    cases hcs : bins.offsets[binner ai.pos_x ai.pos_y]? with
    | none => rw [hcs] at h; cases h
    | some cs =>
      cases hce : bins.offsets[binner ai.pos_x ai.pos_y + 1]? with
      | none => rw [hcs, hce] at h; cases h
      | some ce =>
        rw [hcs, hce] at h
        simp only at h
        split_ifs at h with hskip
        · simp only [Option.some.injEq] at h
          exact absurd h.symm hc
        · obtain ⟨jj, hjj, d, hd, hd1⟩ := prodM_ne_one _ _ c h hc
          rw [List.mem_range'_1] at hjj
          cases hj : bins.inds[jj]? with
          | none => rw [hj] at hd; cases hd
          | some j =>
            rw [hj] at hd
            simp only [Option.some_bind, factorOf] at hd
            split_ifs at hd with hij
            · simp only [Option.some.injEq] at hd
              exact absurd hd.symm hd1
            · rw [hai] at hd
              cases haj : ag[j]? with
              | none => rw [haj] at hd; cases hd
              | some aj =>
                rw [haj] at hd
                simp only [Option.some.injEq, pairFactor] at hd
                split_ifs at hd with ht
                · obtain ⟨ht1, ht2, ht3, ht4⟩ := ht
                  refine ⟨ai, rfl, ht3, ?_, ht4, cs, ce, jj, j, aj, hcs, hce, hjj.1, by omega,
                    hj, fun hji => hij hji.symm, haj, ht1, not_lt.mp ht2⟩
                  intro himm
                  exact hskip (Or.inl himm)
                · exact absurd hd.symm hd1

/-- C6: the contact kernel changes `prob[k]` only when the receiver `k` is neither
infected, immune nor dead (never infected or susceptible, for a status in `0..4`) and only
when the bin of its cell holds another agent that is infected with `disease_counter ≥
incubation_period`; a receiver that is immune, dead or infected, or one without such a
transmitter in its cell, keeps its `prob`; and the kernel returns when the bins fit the
store. -/
theorem interactAgentsHomeWork_prob_changes_only (lparm : DiseaseParm) (home : Bool)
    (binner : ℚ → ℚ → Nat) (bins : Bins) (ag : List Agent) :
    (∀ ag', interactAgentsHomeWorkKernel lparm home binner bins ag = some ag' →
        ∀ (k : Nat) (a a' : Agent), ag[k]? = some a → ag'[k]? = some a' →
          (a'.prob ≠ a.prob →
            (a.status ≠ Status.infected ∧ a.status ≠ Status.immune ∧ a.status ≠ Status.dead) ∧
            (0 ≤ a.status → a.status ≤ 4 →
              a.status = Status.never ∨ a.status = Status.susceptible) ∧
            cellHasTransmitter binner bins ag k a) ∧
          ((a.status = Status.immune ∨ a.status = Status.dead ∨ a.status = Status.infected ∨
              ¬ cellHasTransmitter binner bins ag k a) → a'.prob = a.prob)) ∧
      (BinsFit binner bins ag →
        ∃ ag', interactAgentsHomeWorkKernel lparm home binner bins ag = some ag') := by
  refine ⟨?_, interactAgentsHomeWorkKernel_total lparm home binner bins ag⟩
  intro ag' h
  have hQ : ∀ (k : Nat) (a a' : Agent), ag[k]? = some a → ag'[k]? = some a' →
      a'.prob ≠ a.prob →
      a.status ≠ Status.infected ∧ a.status ≠ Status.immune ∧ a.status ≠ Status.dead ∧
        cellHasTransmitter binner bins ag k a := by
    refine (interactAgentsHomeWorkKernel_invariant lparm home binner bins ag
      (fun b => ∀ (k : Nat) (a a' : Agent), ag[k]? = some a → b[k]? = some a' →
        a'.prob ≠ a.prob →
        a.status ≠ Status.infected ∧ a.status ≠ Status.immune ∧ a.status ≠ Status.dead ∧
          cellHasTransmitter binner bins ag k a) ?_ ?_ ag' h).1
    · intro k a a' ha ha' hne
      rw [ha] at ha'
      simp only [Option.some.injEq] at ha'
      subst ha'
      exact absurd rfl hne
    · intro b i c _ hb _ hc k a a'' ha ha'' hne
      rw [atomicMultiply_getElem?] at ha''
      cases hbk : b[k]? with
      | none => rw [hbk] at ha''; cases ha''
      | some a' =>
        rw [hbk] at ha''
        simp only [Option.map_some', Option.some.injEq] at ha''
        by_cases hki : k = i
        · by_cases hc1 : c = 1
          · have hp : a''.prob = a'.prob := by
              rw [← ha'', if_pos hki, hc1]
              simp
            rw [hp] at hne
            exact hb k a a' ha hbk hne
          · obtain ⟨ai, hai, h1, h2, h3, h4⟩ :=
              receiverFactor_ne_one lparm (!home) binner bins ag i c hc hc1
            subst hki
            rw [ha] at hai
            simp only [Option.some.injEq] at hai
            subst hai
            exact ⟨h1, h2, h3, h4⟩
        · rw [if_neg hki] at ha''
          subst ha''
          exact hb k a a' ha hbk hne
  intro k a a' ha ha'
  constructor
  · intro hne
    obtain ⟨h1, h2, h3, h4⟩ := hQ k a a' ha ha' hne
    refine ⟨⟨h1, h2, h3⟩, ?_, h4⟩
    intro h0 h4'
    have h1' : a.status ≠ 1 := h1
    have h2' : a.status ≠ 2 := h2
    have h3' : a.status ≠ 4 := h3
    show a.status = 0 ∨ a.status = 3
    omega
  · intro hcases
    by_contra hne
    obtain ⟨h1, h2, h3, h4⟩ := hQ k a a' ha ha' hne
    rcases hcases with hc | hc | hc | hc
    · exact h2 hc
    · exact h3 hc
    · exact h1 hc
    · exact hc h4

/-- C6, at the store `[agentReceiver, agentTransmitter]`: the kernel returns a store and the
characterisation of the changed `prob` fields holds of it. -/
theorem interactAgentsHomeWork_prob_changes_only_witness :
    ∃ ag', interactAgentsHomeWorkKernel lparmUnit true (fun _ _ => 0) binsOneCell
        [agentReceiver, agentTransmitter] = some ag' ∧
      ∀ (k : Nat) (a a' : Agent), [agentReceiver, agentTransmitter][k]? = some a →
        ag'[k]? = some a' →
        (a'.prob ≠ a.prob →
          (a.status ≠ Status.infected ∧ a.status ≠ Status.immune ∧ a.status ≠ Status.dead) ∧
          (0 ≤ a.status → a.status ≤ 4 →
            a.status = Status.never ∨ a.status = Status.susceptible) ∧
          cellHasTransmitter (fun _ _ => 0) binsOneCell [agentReceiver, agentTransmitter] k a) ∧
        ((a.status = Status.immune ∨ a.status = Status.dead ∨ a.status = Status.infected ∨
            ¬ cellHasTransmitter (fun _ _ => 0) binsOneCell [agentReceiver, agentTransmitter]
              k a) → a'.prob = a.prob) := by
  have h := interactAgentsHomeWork_prob_changes_only lparmUnit true (fun _ _ => 0) binsOneCell
    [agentReceiver, agentTransmitter]
  obtain ⟨ag', hag'⟩ := h.2 (binsOneCell_fit _ _)
  exact ⟨ag', hag', h.1 ag' hag'⟩

/-! ## Theorems: the order of the agents inside a bin -/

theorem prodM_perm (f : Nat → Option ℚ) {l l' : List Nat} (h : l.Perm l') :
    prodM f l = prodM f l' := by
  induction h with
  | nil => rfl
  | cons x _ ih => simp only [prodM, ih]
  | swap x y l =>
    simp only [prodM]
    cases f x <;> cases f y <;> cases prodM f l <;> simp [mul_left_comm]
  | trans _ _ ih1 ih2 => exact ih1.trans ih2

theorem prodM_none_of_mem (f : Nat → Option ℚ) :
    ∀ (l : List Nat) (j : Nat), j ∈ l → f j = none → prodM f l = none
  | [], _, h, _ => by simp at h
  | k :: l, j, h, hf => by
    simp only [prodM]
    rcases List.mem_cons.mp h with rfl | h
    · rw [hf]
    · rw [prodM_none_of_mem f l j h hf]
      cases f k <;> rfl

/-- The product over the index range of a cell is the product over the agents of the
cell, when the range lies inside `inds`. -/
theorem prodM_range'_eq (f : Nat → Option ℚ) (inds : List Nat) :
    ∀ (n cs : Nat), cs + n ≤ inds.length →
      prodM (fun jj => (inds[jj]?).bind f) (List.range' cs n) =
        prodM f ((inds.drop cs).take n)
  | 0, _, _ => by simp [prodM]
  | n + 1, cs, h => by
    have hlt : cs < inds.length := by omega
    have hd : inds.drop cs = inds[cs] :: inds.drop (cs + 1) := List.drop_eq_getElem_cons hlt
    rw [hd]
    simp only [List.range', List.take_succ_cons, prodM]
    rw [prodM_range'_eq f inds n (cs + 1) (by omega), List.getElem?_eq_getElem hlt]
    rfl

/-- The factor of a receiver is the same for two bins with the same offsets whose cells
hold the same agents up to order. -/
theorem receiverFactor_perm (lparm : DiseaseParm) (DAYTIME : Bool) (binner : ℚ → ℚ → Nat)
    (bins bins' : Bins) (hoff : bins'.offsets = bins.offsets)
    (hlen : bins'.inds.length = bins.inds.length)
    (hcell : ∀ c cell_start cell_stop, bins.offsets[c]? = some cell_start →
      bins.offsets[c + 1]? = some cell_stop →
      (bins'.cell cell_start cell_stop).Perm (bins.cell cell_start cell_stop))
    (ag : List Agent) (i : Nat) :
    receiverFactor lparm DAYTIME binner bins' ag i =
      receiverFactor lparm DAYTIME binner bins ag i := by
  unfold receiverFactor
  rw [hoff]
  cases hai : ag[i]? with
  | none => rfl
  | some ai =>
    simp only
    cases hcs : bins.offsets[binner ai.pos_x ai.pos_y]? with
    | none => rfl
    | some cs =>
      cases hce : bins.offsets[binner ai.pos_x ai.pos_y + 1]? with
      | none => rfl
      | some ce =>
        simp only
        split_ifs
        · rfl
        · by_cases hin : cs + (ce - cs) ≤ bins.inds.length
          · rw [prodM_range'_eq _ bins'.inds _ _ (by omega), prodM_range'_eq _ bins.inds _ _ hin]
            exact prodM_perm _ (hcell _ cs ce hcs hce)
          · by_cases hzero : ce - cs = 0
            · rw [hzero]
              rfl
            have hmem : cs + (ce - cs) - 1 ∈ List.range' cs (ce - cs) := by
              rw [List.mem_range'_1]
              omega
            have hn : bins.inds[cs + (ce - cs) - 1]? = none :=
              List.getElem?_eq_none (by omega)
            have hn' : bins'.inds[cs + (ce - cs) - 1]? = none :=
              List.getElem?_eq_none (by omega)
            rw [prodM_none_of_mem _ _ _ hmem (by rw [hn']; rfl),
              prodM_none_of_mem _ _ _ hmem (by rw [hn]; rfl)]

/-- Two receiver steps commute. -/
theorem receiverStep_comm (lparm : DiseaseParm) (DAYTIME : Bool) (binner : ℚ → ℚ → Nat)
    (bins : Bins) (b : List Agent) (x y : Nat) :
    (receiverStep lparm DAYTIME binner bins b x).bind
        (fun b' => receiverStep lparm DAYTIME binner bins b' y) =
      (receiverStep lparm DAYTIME binner bins b y).bind
        (fun b' => receiverStep lparm DAYTIME binner bins b' x) := by
  unfold receiverStep
  cases hx : receiverFactor lparm DAYTIME binner bins b x with
  | none =>
    cases hy : receiverFactor lparm DAYTIME binner bins b y with
    | none => rfl
    | some d =>
      simp only [Option.map_none', Option.none_bind, Option.map_some', Option.some_bind]
      rw [receiverFactor_congr lparm DAYTIME binner bins _ b (atomicMultiply_eraseProb b y d) x,
        hx]
      rfl
  | some c =>
    cases hy : receiverFactor lparm DAYTIME binner bins b y with
    | none =>
      simp only [Option.map_none', Option.none_bind, Option.map_some', Option.some_bind]
      rw [receiverFactor_congr lparm DAYTIME binner bins _ b (atomicMultiply_eraseProb b x c) y,
        hy]
      rfl
    | some d =>
      simp only [Option.map_some', Option.some_bind]
      rw [receiverFactor_congr lparm DAYTIME binner bins _ b (atomicMultiply_eraseProb b x c) y,
        receiverFactor_congr lparm DAYTIME binner bins _ b (atomicMultiply_eraseProb b y d) x,
        hx, hy]
      simp only [Option.map_some']
      rw [atomicMultiply_comm]

/-- The loop of the receiver steps does not depend on the order of the receivers. -/
theorem foldlM_receiverStep_perm (lparm : DiseaseParm) (DAYTIME : Bool) (binner : ℚ → ℚ → Nat)
    (bins : Bins) {l l' : List Nat} (h : l.Perm l') :
    ∀ b : List Agent,
      l.foldlM (receiverStep lparm DAYTIME binner bins) b =
        l'.foldlM (receiverStep lparm DAYTIME binner bins) b := by
  induction h with
  | nil => intro b; rfl
  | cons x _ ih =>
    intro b
    rw [List.foldlM_cons, List.foldlM_cons]
    cases receiverStep lparm DAYTIME binner bins b x with
    | none => rfl
    | some b' => exact ih b'
  | swap x y l =>
    intro b
    simp only [List.foldlM_cons, Option.bind_eq_bind]
    have hc := receiverStep_comm lparm DAYTIME binner bins b x y
    have h1 : ∀ (u v : Nat),
        (receiverStep lparm DAYTIME binner bins b u).bind (fun init =>
          (receiverStep lparm DAYTIME binner bins init v).bind (fun init' =>
            List.foldlM (receiverStep lparm DAYTIME binner bins) init' l)) =
        ((receiverStep lparm DAYTIME binner bins b u).bind (fun init =>
          receiverStep lparm DAYTIME binner bins init v)).bind (fun init' =>
            List.foldlM (receiverStep lparm DAYTIME binner bins) init' l) := by
      intro u v
      rw [Option.bind_assoc]
    rw [h1 y x, h1 x y, hc]
  | trans _ _ ih1 ih2 => intro b; exact (ih1 b).trans (ih2 b)

/-- C8: the store computed by the contact kernel is the same for two bins with the same
offsets whose index arrays are permutations of each other in which every cell holds the
same agents up to order; in particular every `prob[i]` is the same (exact arithmetic). -/
theorem interactAgentsHomeWork_bin_order_irrelevant (lparm : DiseaseParm) (home : Bool)
    (binner : ℚ → ℚ → Nat) (bins bins' : Bins) (ag : List Agent)
    (hoff : bins'.offsets = bins.offsets)
    (hperm : bins'.inds.Perm bins.inds)
    (hcell : ∀ c cell_start cell_stop, bins.offsets[c]? = some cell_start →
      bins.offsets[c + 1]? = some cell_stop →
      (bins'.cell cell_start cell_stop).Perm (bins.cell cell_start cell_stop)) :
    interactAgentsHomeWorkKernel lparm home binner bins' ag =
      interactAgentsHomeWorkKernel lparm home binner bins ag := by
  rw [interactAgentsHomeWorkKernel_eq, interactAgentsHomeWorkKernel_eq]
  have hstep : receiverStep lparm (!home) binner bins' = receiverStep lparm (!home) binner bins := by
    funext b i
    unfold receiverStep
    rw [receiverFactor_perm lparm (!home) binner bins bins' hoff hperm.length_eq hcell b i]
  rw [hstep]
  exact foldlM_receiverStep_perm lparm (!home) binner bins hperm ag

/-- C8, at the one-cell bins `[1, 0]` and `[0, 1]` over the store `[agentReceiver,
agentTransmitter]`: both orders give the same store, with `prob = [1/8, 1]`. -/
theorem interactAgentsHomeWork_bin_order_irrelevant_witness :
    interactAgentsHomeWorkKernel lparmUnit true (fun _ _ => 0) binsOneCellSwapped
        [agentReceiver, agentTransmitter] =
      interactAgentsHomeWorkKernel lparmUnit true (fun _ _ => 0) binsOneCell
        [agentReceiver, agentTransmitter] :=
  interactAgentsHomeWork_bin_order_irrelevant lparmUnit true (fun _ _ => 0) binsOneCell
    binsOneCellSwapped [agentReceiver, agentTransmitter] rfl (List.Perm.swap 0 1 [])
    (by
      intro c cs ce hcs hce
      have hc : c = 0 := by
        by_contra hne
        have h1 : 2 ≤ c + 1 := by omega
        have hlen : binsOneCell.offsets.length ≤ c + 1 := by simpa [binsOneCell] using h1
        rw [List.getElem?_eq_none hlen] at hce
        cases hce
      subst hc
      simp only [binsOneCell, List.getElem?_cons_zero, Option.some.injEq, zero_add,
        List.getElem?_cons_succ] at hcs hce
      subst hcs
      subst hce
      exact List.Perm.swap 0 1 [])

/-! ## Theorems: the branches of `updateStatus` -/

theorem updateStatusFrom_getElem? (e : Nat → Nat → ℚ) :
    ∀ (ag : List Agent) (i : Nat) (ds : Stats) (n : Nat) (a : Agent), ag[n]? = some a →
      ∃ ds', (updateStatusFrom e i ds ag).1[n]? = some (updateStatusAgent (e (i + n)) ds' a).1
  | [], _, _, _, _, h => by simp at h
  | b :: rest, i, ds, 0, a, h => by
    simp only [List.getElem?_cons_zero, Option.some.injEq] at h
    subst h
    exact ⟨ds, by simp [updateStatusFrom]⟩
  | b :: rest, i, ds, n + 1, a, h => by
    simp only [List.getElem?_cons_succ] at h
    obtain ⟨ds', hds'⟩ := updateStatusFrom_getElem? e rest (i + 1) (updateStatusAgent (e i) ds b).2 n a h
    refine ⟨ds', ?_⟩
    simp only [updateStatusFrom, List.getElem?_cons_succ]
    rw [hds']
    have : i + 1 + n = i + (n + 1) := by omega
    rw [this]

/-- The per-agent body of `updateStatus` on an agent that is not infected: `prob` is set to
`1`, nothing else changes, and the statistics are those on entry. -/
theorem updateStatusAgent_not_infected (e : Nat → ℚ) (ds : Stats) (a : Agent)
    (h : a.status ≠ Status.infected) :
    updateStatusAgent e ds a = ({ a with prob := 1 }, ds) := by
  unfold updateStatusAgent
  dsimp only
  split_ifs <;> rfl

/-- C13: `updateStatus` leaves an agent whose status is never, susceptible, immune or dead
untouched in its disease state: the body run for it returns the statistics it was given,
and after the loop the agent at its index has the status, `disease_counter` and
`treatment_timer` it had, for all random draws. -/
theorem updateStatus_not_infected_untouched (e : Nat → Nat → ℚ) (ds : Stats) (ag : List Agent)
    (n : Nat) (a : Agent) (h : ag[n]? = some a)
    (hs : a.status = Status.never ∨ a.status = Status.susceptible ∨
      a.status = Status.immune ∨ a.status = Status.dead) :
    (∀ (e' : Nat → ℚ) (ds' : Stats), (updateStatusAgent e' ds' a).2 = ds') ∧
      ∃ a', (updateStatus e ds ag).1[n]? = some a' ∧ a'.status = a.status ∧
        a'.disease_counter = a.disease_counter ∧ a'.treatment_timer = a.treatment_timer := by
  have hne : a.status ≠ Status.infected := by
    rcases hs with h | h | h | h <;> simp [h]
  constructor
  · intro e' ds'
    rw [updateStatusAgent_not_infected e' ds' a hne]
  · obtain ⟨ds', hds'⟩ := updateStatusFrom_getElem? e ag 0 ds n a h
    refine ⟨_, hds', ?_⟩
    rw [updateStatusAgent_not_infected _ ds' a hne]
    exact ⟨rfl, rfl, rfl⟩

/-- C13, at the store `[agentInfected, agentImmune]` and its immune agent. -/
theorem updateStatus_not_infected_untouched_witness :
    (∀ (e' : Nat → ℚ) (ds' : Stats), (updateStatusAgent e' ds' agentImmune).2 = ds') ∧
      ∃ a', (updateStatus (fun _ => engineHalf) statsZero [agentInfected, agentImmune]).1[1]? =
          some a' ∧ a'.status = agentImmune.status ∧
        a'.disease_counter = agentImmune.disease_counter ∧
        a'.treatment_timer = agentImmune.treatment_timer :=
  updateStatus_not_infected_untouched (fun _ => engineHalf) statsZero
    [agentInfected, agentImmune] 1 agentImmune rfl (Or.inr (Or.inr (Or.inl rfl)))

theorem atomicAddNoRet_same (ds : Stats) (i j : Int) (c : Nat) (v : ℚ) :
    atomicAddNoRet ds i j c v i j c = ds i j c + v := by
  simp [atomicAddNoRet]

theorem atomicAddNoRet_other (ds : Stats) (i j : Int) (c c' : Nat) (v : ℚ) (h : c' ≠ c) :
    atomicAddNoRet ds i j c v i j c' = ds i j c' := by
  simp [atomicAddNoRet, h]

/-- The per-agent body of `updateStatus` on the onset day is the onset block. -/
theorem updateStatusAgent_onset (e : Nat → ℚ) (ds : Stats) (a : Agent)
    (hs : a.status = Status.infected)
    (hinc : ¬ a.disease_counter + 1 < a.incubation_period)
    (hon : a.disease_counter + 1 = (⌈a.incubation_period⌉ : ℚ)) :
    updateStatusAgent e ds a =
      ((onsetBlock e { a := { a with prob := 1, disease_counter := a.disease_counter + 1 },
                       ds := ds, k := 0 }).a,
       (onsetBlock e { a := { a with prob := 1, disease_counter := a.disease_counter + 1 },
                       ds := ds, k := 0 }).ds) := by
  unfold updateStatusAgent
  simp only [hs, if_neg hinc, if_pos hon]
  norm_num

/-- The per-agent body of `updateStatus` on a day after the onset day with a positive
timer is the three hospital blocks run on the decremented timer. -/
theorem updateStatusAgent_hospital (e : Nat → ℚ) (ds : Stats) (a : Agent)
    (hs : a.status = Status.infected)
    (hinc : ¬ a.disease_counter + 1 < a.incubation_period)
    (hon : a.disease_counter + 1 ≠ (⌈a.incubation_period⌉ : ℚ))
    (ht : 0 < a.treatment_timer) :
    updateStatusAgent e ds a =
      ((ventilatorBlock e (icuBlock e (wardBlock e
          { a := { a with prob := 1, disease_counter := a.disease_counter + 1,
                          treatment_timer := a.treatment_timer - 1 }, ds := ds, k := 0 }))).a,
       (ventilatorBlock e (icuBlock e (wardBlock e
          { a := { a with prob := 1, disease_counter := a.disease_counter + 1,
                          treatment_timer := a.treatment_timer - 1 }, ds := ds, k := 0 }))).ds) := by
  unfold updateStatusAgent
  simp only [hs, if_neg hinc, if_neg hon]
  norm_num [ht]

/-- The onset block in closed form, for an age group in `0..4`. -/
theorem onsetBlock_eq (e : Nat → ℚ) (ds : Stats) (a : Agent)
    (hage0 : 0 ≤ a.age_group) (hage4 : a.age_group ≤ 4) :
    onsetBlock e { a := a, ds := ds, k := 0 } =
      if e 0 < tableAt CHR a.age_group then
        if e (onsetICUDraw a) < tableAt CIC a.age_group then
          if e (onsetICUDraw a + 1) < tableAt CVE a.age_group then
            { a := { a with treatment_timer := onsetBase e a + 10 + 10 }
              ds := atomicAddNoRet (atomicAddNoRet (atomicAddNoRet ds a.home_i a.home_j
                DiseaseStats.hospitalization 1) a.home_i a.home_j DiseaseStats.ICU 1)
                a.home_i a.home_j DiseaseStats.ventilator 1
              k := onsetICUDraw a + 2 }
          else
            { a := { a with treatment_timer := onsetBase e a + 10 }
              ds := atomicAddNoRet (atomicAddNoRet ds a.home_i a.home_j
                DiseaseStats.hospitalization 1) a.home_i a.home_j DiseaseStats.ICU 1
              k := onsetICUDraw a + 2 }
        else
          { a := { a with treatment_timer := onsetBase e a }
            ds := atomicAddNoRet ds a.home_i a.home_j DiseaseStats.hospitalization 1
            k := onsetICUDraw a + 1 }
      else { a := a, ds := ds, k := 1 } := by
  unfold onsetBlock
  dsimp only
  by_cases h0 : e 0 < tableAt CHR a.age_group
  · simp only [if_pos h0]
    by_cases h3 : a.age_group < 3
    · have hb : onsetBase e a = 3 := by
        unfold onsetBase; rw [if_pos (by omega)]
      have hk : onsetICUDraw a = 1 := by
        unfold onsetICUDraw; rw [if_neg (by omega)]
      simp only [if_pos h3, hb, hk]
    · by_cases h4 : a.age_group = 4
      · have hb : onsetBase e a = 7 := by
          unfold onsetBase; rw [if_neg (by omega), if_pos h4]
        have hk : onsetICUDraw a = 1 := by
          unfold onsetICUDraw; rw [if_neg (by omega)]
        simp only [if_neg h3, if_pos h4, hb, hk]
      · have hk : onsetICUDraw a = 2 := by
          unfold onsetICUDraw; rw [if_pos (by omega)]
        by_cases h57 : e 1 < 57/100
        · have hb : onsetBase e a = 3 := by
            unfold onsetBase; rw [if_neg (by omega), if_neg h4, if_pos h57]
          simp only [if_neg h3, if_neg h4, hb, hk, zero_add, if_pos h57]
        · have hb : onsetBase e a = 8 := by
            unfold onsetBase; rw [if_neg (by omega), if_neg h4, if_neg h57]
          simp only [if_neg h3, if_neg h4, hb, hk, zero_add, if_neg h57]
  · simp only [if_neg h0, zero_add]

/-- C14: on the onset day of an infected agent of an age group in `0..4`, the timer after
`updateStatus` is the base stay (`3`, `7`, or `3`/`8` by a second draw for the age group
`3`) plus `10` if the ICU draw hits plus a further `10` if then the ventilator draw hits,
when the hospitalisation draw hits, and is the timer before when it misses; the
hospitalisation, ICU and ventilator counters of the home cell go up by `1` exactly with the
hospitalisation, with the ICU admission, and with both the ICU and the ventilator
admission. -/
theorem updateStatus_onset_timer (e : Nat → ℚ) (ds : Stats) (a : Agent)
    (hage0 : 0 ≤ a.age_group) (hage4 : a.age_group ≤ 4)
    (hs : a.status = Status.infected)
    (hinc : ¬ a.disease_counter + 1 < a.incubation_period)
    (hon : a.disease_counter + 1 = (⌈a.incubation_period⌉ : ℚ)) :
    (updateStatusAgent e ds a).1.treatment_timer =
        (if e 0 < tableAt CHR a.age_group then
          onsetBase e a +
            (if e (onsetICUDraw a) < tableAt CIC a.age_group then
              10 + (if e (onsetICUDraw a + 1) < tableAt CVE a.age_group then 10 else 0)
            else 0)
        else a.treatment_timer) ∧
      (updateStatusAgent e ds a).2 a.home_i a.home_j DiseaseStats.hospitalization =
        ds a.home_i a.home_j DiseaseStats.hospitalization +
          (if e 0 < tableAt CHR a.age_group then 1 else 0) ∧
      (updateStatusAgent e ds a).2 a.home_i a.home_j DiseaseStats.ICU =
        ds a.home_i a.home_j DiseaseStats.ICU +
          (if e 0 < tableAt CHR a.age_group ∧ e (onsetICUDraw a) < tableAt CIC a.age_group
            then 1 else 0) ∧
      (updateStatusAgent e ds a).2 a.home_i a.home_j DiseaseStats.ventilator =
        ds a.home_i a.home_j DiseaseStats.ventilator +
          (if e 0 < tableAt CHR a.age_group ∧ e (onsetICUDraw a) < tableAt CIC a.age_group ∧
              e (onsetICUDraw a + 1) < tableAt CVE a.age_group
            then 1 else 0) := by
  rw [updateStatusAgent_onset e ds a hs hinc hon]
  have hq := onsetBlock_eq e ds { a with prob := 1, disease_counter := a.disease_counter + 1 }
    hage0 hage4
  have hb : onsetBase e { a with prob := 1, disease_counter := a.disease_counter + 1 } =
      onsetBase e a := rfl
  have hk : onsetICUDraw { a with prob := 1, disease_counter := a.disease_counter + 1 } =
      onsetICUDraw a := rfl
  rw [hb, hk] at hq
  dsimp only at hq
  rw [hq]
  by_cases h0 : e 0 < tableAt CHR a.age_group
  · by_cases h1 : e (onsetICUDraw a) < tableAt CIC a.age_group
    · by_cases h2 : e (onsetICUDraw a + 1) < tableAt CVE a.age_group
      · simp only [eq_true h0, eq_true h1, eq_true h2, and_self, if_true]
        refine ⟨by ring, ?_, ?_, ?_⟩ <;> simp [atomicAddNoRet]
      · simp only [eq_true h0, eq_true h1, eq_false h2, and_self, and_false, if_true, if_false]
        refine ⟨by ring, ?_, ?_, ?_⟩ <;> simp [atomicAddNoRet]
    · simp only [eq_true h0, eq_false h1, and_false, false_and, if_true, if_false]
      refine ⟨by ring, ?_, ?_, ?_⟩ <;> simp [atomicAddNoRet]
  · simp only [eq_false h0, false_and, if_false]
    refine ⟨trivial, ?_, ?_, ?_⟩ <;> simp

/-- C14, at the agent `agentOnsetAdult` of age group `3` on its onset day with every draw
equal to `0`. -/
theorem updateStatus_onset_timer_witness :
    (updateStatusAgent engineZero statsZero agentOnsetAdult).1.treatment_timer =
        (if engineZero 0 < tableAt CHR agentOnsetAdult.age_group then
          onsetBase engineZero agentOnsetAdult +
            (if engineZero (onsetICUDraw agentOnsetAdult) <
                tableAt CIC agentOnsetAdult.age_group then
              10 + (if engineZero (onsetICUDraw agentOnsetAdult + 1) <
                  tableAt CVE agentOnsetAdult.age_group then 10 else 0)
            else 0)
        else agentOnsetAdult.treatment_timer) ∧
      (updateStatusAgent engineZero statsZero agentOnsetAdult).2 agentOnsetAdult.home_i
          agentOnsetAdult.home_j DiseaseStats.hospitalization =
        statsZero agentOnsetAdult.home_i agentOnsetAdult.home_j DiseaseStats.hospitalization +
          (if engineZero 0 < tableAt CHR agentOnsetAdult.age_group then 1 else 0) ∧
      (updateStatusAgent engineZero statsZero agentOnsetAdult).2 agentOnsetAdult.home_i
          agentOnsetAdult.home_j DiseaseStats.ICU =
        statsZero agentOnsetAdult.home_i agentOnsetAdult.home_j DiseaseStats.ICU +
          (if engineZero 0 < tableAt CHR agentOnsetAdult.age_group ∧
              engineZero (onsetICUDraw agentOnsetAdult) < tableAt CIC agentOnsetAdult.age_group
            then 1 else 0) ∧
      (updateStatusAgent engineZero statsZero agentOnsetAdult).2 agentOnsetAdult.home_i
          agentOnsetAdult.home_j DiseaseStats.ventilator =
        statsZero agentOnsetAdult.home_i agentOnsetAdult.home_j DiseaseStats.ventilator +
          (if engineZero 0 < tableAt CHR agentOnsetAdult.age_group ∧
              engineZero (onsetICUDraw agentOnsetAdult) <
                tableAt CIC agentOnsetAdult.age_group ∧
              engineZero (onsetICUDraw agentOnsetAdult + 1) <
                tableAt CVE agentOnsetAdult.age_group
            then 1 else 0) :=
  updateStatus_onset_timer engineZero statsZero agentOnsetAdult
    (by norm_num [agentOnsetAdult, agentZero]) (by norm_num [agentOnsetAdult, agentZero]) rfl
    (by norm_num [agentOnsetAdult, agentZero]) (by norm_num [agentOnsetAdult, agentZero])

theorem tableAt_CVF_le_two (age : Int) : ¬ (tableAt CVF age > 2) := by
  unfold tableAt CVF
  split_ifs with h
  · obtain ⟨n, hn⟩ : ∃ n, age.toNat = n := ⟨_, rfl⟩
    rw [hn]
    match n with
    | 0 => norm_num
    | 1 => norm_num
    | 2 => norm_num
    | 3 => norm_num
    | 4 => norm_num
    | n + 5 => norm_num [List.getD]
  · norm_num

/-- C15: when the timer of an infected agent past its onset day is decremented to `0`,
`updateStatus` subtracts `1` from the hospitalization counter of its home cell, changes no
other counter, and makes the agent immune, for every age group and every draw. -/
theorem updateStatus_ward_end (e : Nat → ℚ) (ds : Stats) (a : Agent)
    (hs : a.status = Status.infected)
    (hinc : ¬ a.disease_counter + 1 < a.incubation_period)
    (hon : a.disease_counter + 1 ≠ (⌈a.incubation_period⌉ : ℚ))
    (ht : a.treatment_timer - 1 = 0) :
    (updateStatusAgent e ds a).1.status = Status.immune ∧
      (updateStatusAgent e ds a).1.treatment_timer = 0 ∧
      (updateStatusAgent e ds a).2 =
        atomicAddNoRet ds a.home_i a.home_j DiseaseStats.hospitalization (-1) ∧
      (updateStatusAgent e ds a).2 a.home_i a.home_j DiseaseStats.hospitalization =
        ds a.home_i a.home_j DiseaseStats.hospitalization - 1 := by
  have ht' : a.treatment_timer = 1 := by linarith
  have hr : updateStatusAgent e ds a =
      ({ a with prob := 1, disease_counter := a.disease_counter + 1, treatment_timer := 0,
                status := Status.immune },
        atomicAddNoRet ds a.home_i a.home_j DiseaseStats.hospitalization (-1)) := by
    rw [updateStatusAgent_hospital e ds a hs hinc hon (by rw [ht']; norm_num)]
    simp only [wardBlock, icuBlock, ventilatorBlock, ht', hs]
    norm_num
    simp only [if_neg (tableAt_CVF_le_two a.age_group)]
    norm_num
  rw [hr]
  refine ⟨rfl, rfl, rfl, ?_⟩
  simp [atomicAddNoRet]; ring

/-- C15, at `agentWard` with the draws `0`. -/
theorem updateStatus_ward_end_witness :
    (updateStatusAgent engineZero statsZero agentWard).1.status = Status.immune ∧
      (updateStatusAgent engineZero statsZero agentWard).1.treatment_timer = 0 ∧
      (updateStatusAgent engineZero statsZero agentWard).2 =
        atomicAddNoRet statsZero agentWard.home_i agentWard.home_j
          DiseaseStats.hospitalization (-1) ∧
      (updateStatusAgent engineZero statsZero agentWard).2 agentWard.home_i agentWard.home_j
          DiseaseStats.hospitalization =
        statsZero agentWard.home_i agentWard.home_j DiseaseStats.hospitalization - 1 :=
  updateStatus_ward_end engineZero statsZero agentWard rfl
    (by norm_num [agentWard, agentZero]) (by norm_num [agentWard, agentZero])
    (by norm_num [agentWard, agentZero])

/-- C16 (as stated, refuted): `agentShortInfectious` is infected, not hospitalised and past
incubation, its incremented counter `3` is at least `incubation_period +
infectious_period = 14/5`, yet after `updateStatus` (hospitalisation draw `1/2`, a miss)
it is still infected: the day is its onset day. -/
theorem updateStatus_onset_day_no_recovery :
    agentShortInfectious.status = Status.infected ∧
      agentShortInfectious.treatment_timer ≤ 0 ∧
      ¬ (agentShortInfectious.disease_counter + 1 < agentShortInfectious.incubation_period) ∧
      agentShortInfectious.disease_counter + 1 ≥
        agentShortInfectious.incubation_period + agentShortInfectious.infectious_period ∧
      (updateStatusAgent engineHalf statsZero agentShortInfectious).1.status ≠
        Status.immune := by
  refine ⟨rfl, ?_, ?_, ?_, ?_⟩
  · norm_num [agentShortInfectious, agentZero]
  · norm_num [agentShortInfectious, agentZero]
  · norm_num [agentShortInfectious, agentZero]
  · have hc : (⌈(5 / 2 : ℚ)⌉ : ℤ) = 3 := by
      rw [Int.ceil_eq_iff]; norm_num
    rw [updateStatusAgent_onset engineHalf statsZero agentShortInfectious rfl
      (by norm_num [agentShortInfectious, agentZero])
      (by simp only [agentShortInfectious, agentZero, hc]; norm_num)]
    rw [onsetBlock_status]
    decide

/-- C16 (amended): an infected agent that is not hospitalised, past incubation and not on
its onset day is immune after `updateStatus` when its incremented counter is at least
`incubation_period + infectious_period`; on its onset day an infected agent stays
infected. -/
theorem updateStatus_recovery (e : Nat → ℚ) (ds : Stats) (a : Agent)
    (hs : a.status = Status.infected)
    (ht : a.treatment_timer ≤ 0)
    (hinc : ¬ a.disease_counter + 1 < a.incubation_period) :
    (a.disease_counter + 1 ≠ (⌈a.incubation_period⌉ : ℚ) →
        a.disease_counter + 1 ≥ a.incubation_period + a.infectious_period →
        (updateStatusAgent e ds a).1.status = Status.immune) ∧
      (a.disease_counter + 1 = (⌈a.incubation_period⌉ : ℚ) →
        (updateStatusAgent e ds a).1.status = Status.infected) := by
  constructor
  · intro hon hrec
    unfold updateStatusAgent
    simp only [hs, if_neg hinc, if_neg hon, if_neg (not_lt.mpr ht), if_pos hrec]
    norm_num
  · intro hon
    rw [updateStatusAgent_onset e ds a hs hinc hon, onsetBlock_status]
    exact hs

/-- C16 (amended), at `agentRecovering`. -/
theorem updateStatus_recovery_witness :
    (agentRecovering.disease_counter + 1 ≠ (⌈agentRecovering.incubation_period⌉ : ℚ) →
        agentRecovering.disease_counter + 1 ≥
          agentRecovering.incubation_period + agentRecovering.infectious_period →
        (updateStatusAgent engineHalf statsZero agentRecovering).1.status = Status.immune) ∧
      (agentRecovering.disease_counter + 1 = (⌈agentRecovering.incubation_period⌉ : ℚ) →
        (updateStatusAgent engineHalf statsZero agentRecovering).1.status =
          Status.infected) :=
  updateStatus_recovery engineHalf statsZero agentRecovering rfl
    (by norm_num [agentRecovering, agentZero]) (by norm_num [agentRecovering, agentZero])

theorem tableAt_CHR_four : tableAt CHR 4 = 1 := by
  have h : (4 : Int).toNat = 4 := rfl
  simp only [tableAt, CHR, h]
  norm_num

theorem tableAt_CVF_four : tableAt CVF 4 = 126/100 := by
  have h : (4 : Int).toNat = 4 := rfl
  simp only [tableAt, CVF, h]
  norm_num

theorem onsetBase_senior (e : Nat → ℚ) (a : Agent) (hage : a.age_group = 4) :
    onsetBase e a = 7 := by
  unfold onsetBase
  rw [if_neg (by omega), if_pos hage]

/-- C17: an infected agent of age group `4` on its onset day is hospitalised for every
draw `U < 1`: after `updateStatus` its timer is at least `7` (it is `7`, `17` or `27`) and
the hospitalization counter of its home cell is up by `1`. -/
theorem updateStatus_senior_hospitalised (e : Nat → ℚ) (ds : Stats) (a : Agent)
    (hage : a.age_group = 4)
    (hs : a.status = Status.infected)
    (hinc : ¬ a.disease_counter + 1 < a.incubation_period)
    (hon : a.disease_counter + 1 = (⌈a.incubation_period⌉ : ℚ))
    (hU : e 0 < 1) :
    7 ≤ (updateStatusAgent e ds a).1.treatment_timer ∧
      ((updateStatusAgent e ds a).1.treatment_timer = 7 ∨
        (updateStatusAgent e ds a).1.treatment_timer = 17 ∨
        (updateStatusAgent e ds a).1.treatment_timer = 27) ∧
      (updateStatusAgent e ds a).2 a.home_i a.home_j DiseaseStats.hospitalization =
        ds a.home_i a.home_j DiseaseStats.hospitalization + 1 := by
  rw [updateStatusAgent_onset e ds a hs hinc hon]
  have hq := onsetBlock_eq e ds { a with prob := 1, disease_counter := a.disease_counter + 1 }
    (by show 0 ≤ a.age_group; omega) (by show a.age_group ≤ 4; omega)
  have hb : onsetBase e { a with prob := 1, disease_counter := a.disease_counter + 1 } = 7 :=
    onsetBase_senior e _ hage
  have hc : tableAt CHR a.age_group = 1 := by rw [hage]; exact tableAt_CHR_four
  rw [hb] at hq
  dsimp only at hq
  rw [hq, hc, if_pos hU]
  split_ifs
  · refine ⟨by norm_num, Or.inr (Or.inr (by norm_num)), ?_⟩
    simp [atomicAddNoRet]
  · refine ⟨by norm_num, Or.inr (Or.inl (by norm_num)), ?_⟩
    simp [atomicAddNoRet]
  · refine ⟨by norm_num, Or.inl rfl, ?_⟩
    simp [atomicAddNoRet]

/-- C17, at `agentOnsetSenior` with the draws `1/2`. -/
theorem updateStatus_senior_hospitalised_witness :
    7 ≤ (updateStatusAgent engineHalf statsZero agentOnsetSenior).1.treatment_timer ∧
      ((updateStatusAgent engineHalf statsZero agentOnsetSenior).1.treatment_timer = 7 ∨
        (updateStatusAgent engineHalf statsZero agentOnsetSenior).1.treatment_timer = 17 ∨
        (updateStatusAgent engineHalf statsZero agentOnsetSenior).1.treatment_timer = 27) ∧
      (updateStatusAgent engineHalf statsZero agentOnsetSenior).2 agentOnsetSenior.home_i
          agentOnsetSenior.home_j DiseaseStats.hospitalization =
        statsZero agentOnsetSenior.home_i agentOnsetSenior.home_j
          DiseaseStats.hospitalization + 1 :=
  updateStatus_senior_hospitalised engineHalf statsZero agentOnsetSenior rfl rfl
    (by norm_num [agentOnsetSenior, agentZero]) (by norm_num [agentOnsetSenior, agentZero])
    (by norm_num [engineHalf])

/-- C18: an infected agent of age group `4` past its onset day whose timer is decremented
to `20` dies for every draw `U < 1`: after `updateStatus` its status is dead, the death
counter of its home cell is up by `1` and the ventilator counter is down by `1`. -/
theorem updateStatus_senior_ventilator_death (e : Nat → ℚ) (ds : Stats) (a : Agent)
    (hage : a.age_group = 4)
    (hs : a.status = Status.infected)
    (hinc : ¬ a.disease_counter + 1 < a.incubation_period)
    (hon : a.disease_counter + 1 ≠ (⌈a.incubation_period⌉ : ℚ))
    (ht : a.treatment_timer - 1 = 20)
    (hU : e 0 < 1) :
    (updateStatusAgent e ds a).1.status = Status.dead ∧
      (updateStatusAgent e ds a).2 a.home_i a.home_j DiseaseStats.death =
        ds a.home_i a.home_j DiseaseStats.death + 1 ∧
      (updateStatusAgent e ds a).2 a.home_i a.home_j DiseaseStats.ventilator =
        ds a.home_i a.home_j DiseaseStats.ventilator - 1 := by
  have ht' : a.treatment_timer = 21 := by linarith
  have hcvf : e 0 < tableAt CVF a.age_group := by
    rw [hage, tableAt_CVF_four]; linarith
  have hr : updateStatusAgent e ds a =
      ({ a with prob := 1, disease_counter := a.disease_counter + 1, treatment_timer := 20,
                status := Status.dead },
        atomicAddNoRet (atomicAddNoRet ds a.home_i a.home_j DiseaseStats.death 1)
          a.home_i a.home_j DiseaseStats.ventilator (-1)) := by
    rw [updateStatusAgent_hospital e ds a hs hinc hon (by rw [ht']; norm_num)]
    simp only [wardBlock, icuBlock, ventilatorBlock, ht', hs]
    norm_num
    simp only [if_pos hcvf]
    norm_num
  rw [hr]
  refine ⟨rfl, ?_, ?_⟩
  · simp [atomicAddNoRet]
  · simp [atomicAddNoRet]; ring

/-- C18, at `agentVentilatedSenior` with the draws `1/2`. -/
theorem updateStatus_senior_ventilator_death_witness :
    (updateStatusAgent engineHalf statsZero agentVentilatedSenior).1.status = Status.dead ∧
      (updateStatusAgent engineHalf statsZero agentVentilatedSenior).2
          agentVentilatedSenior.home_i agentVentilatedSenior.home_j DiseaseStats.death =
        statsZero agentVentilatedSenior.home_i agentVentilatedSenior.home_j
          DiseaseStats.death + 1 ∧
      (updateStatusAgent engineHalf statsZero agentVentilatedSenior).2
          agentVentilatedSenior.home_i agentVentilatedSenior.home_j DiseaseStats.ventilator =
        statsZero agentVentilatedSenior.home_i agentVentilatedSenior.home_j
          DiseaseStats.ventilator - 1 :=
  updateStatus_senior_ventilator_death engineHalf statsZero agentVentilatedSenior rfl rfl
    (by norm_num [agentVentilatedSenior, agentZero])
    (by norm_num [agentVentilatedSenior, agentZero])
    (by norm_num [agentVentilatedSenior, agentZero])
    (by norm_num [engineHalf])

/-! ## Theorems: the no-contact scenario -/

theorem groupFactor_infect_zero (active : Prop) [Decidable active] (rate : ℚ) :
    groupFactor active 0 rate = 1 := by
  unfold groupFactor
  split_ifs <;> simp

theorem pairProb_infect_zero (lparm : DiseaseParm) (h0 : lparm.infect * lparm.vac_eff = 0)
    (DAYTIME : Bool) (ai aj : Agent) : pairProb lparm DAYTIME ai aj = 1 := by
  rw [pairProb_eq_nestedPairProb]
  unfold nestedPairProb
  simp only [h0, groupFactor_infect_zero, mul_one]

theorem prodM_eq_one (f : Nat → Option ℚ) (hf : ∀ j c, f j = some c → c = 1) :
    ∀ (l : List Nat) (r : ℚ), prodM f l = some r → r = 1
  | [], r, h => by
    simp only [prodM, Option.some.injEq] at h
    exact h.symm
  | j :: l, r, h => by
    by_contra hne
    obtain ⟨k, _, c, hc, hc1⟩ := prodM_ne_one f (j :: l) r h hne
    exact hc1 (hf k c hc)

theorem receiverFactor_infect_zero (lparm : DiseaseParm)
    (h0 : lparm.infect * lparm.vac_eff = 0) (DAYTIME : Bool) (binner : ℚ → ℚ → Nat)
    (bins : Bins) (ag : List Agent) (i : Nat) (c : ℚ)
    (h : receiverFactor lparm DAYTIME binner bins ag i = some c) : c = 1 := by
  unfold receiverFactor at h
  split at h
  · cases h
  · split at h
    · split_ifs at h
      · simp only [Option.some.injEq] at h
        exact h.symm
      · refine prodM_eq_one _ ?_ _ c h
        intro jj d hd
        cases hj : bins.inds[jj]? with
        | none => rw [hj] at hd; cases hd
        | some j =>
          rw [hj] at hd
          simp only [Option.some_bind, factorOf] at hd
          split_ifs at hd
          · simp only [Option.some.injEq] at hd
            exact hd.symm
          · split at hd
            · simp only [Option.some.injEq] at hd
              rw [← hd]
              unfold pairFactor
              split_ifs
              · exact pairProb_infect_zero lparm h0 DAYTIME _ _
              · rfl
            · cases hd
    · cases h

theorem infectAgentsFrom_status_of_prob_one (lparm : DiseaseParm) (e : Nat → Nat → ℚ)
    (nrm : Nat → ℚ → ℚ → Nat → ℚ) (hU : ∀ i k, 0 ≤ e i k ∧ e i k < 1) :
    ∀ (ag : List Agent) (i : Nat), (∀ a ∈ ag, a.prob = 1) →
      (infectAgentsFrom lparm e nrm i ag).map (fun a => a.status) =
        ag.map (fun a => a.status)
  | [], _, _ => rfl
  | a :: rest, i, h => by
    simp only [infectAgentsFrom, List.map_cons]
    rw [infectAgentsFrom_status_of_prob_one lparm e nrm hU rest (i + 1)
      (fun b hb => h b (List.mem_cons_of_mem _ hb))]
    congr 1
    unfold infectAgentsAgent
    dsimp only
    rw [h a (List.mem_cons_self _ _)]
    have hnot : ¬ (e i 0 < 1 - 1) := by
      have := (hU i 0).1
      intro hlt
      linarith
    split_ifs <;> rfl

/-- C12: if `infect * vac_eff = 0` and every `prob` is `1` on entry, the contact kernel
returns the store it was given, so every `prob` is still `1`, and the following
`infectAgents` changes no status for any draws in `[0, 1)`: the number of infected agents
is the same; and the kernel returns when the bins fit the store. -/
theorem interactAgentsHomeWork_no_contact (lparm : DiseaseParm) (home : Bool)
    (binner : ℚ → ℚ → Nat) (bins : Bins) (ag : List Agent) (e : Nat → Nat → ℚ)
    (nrm : Nat → ℚ → ℚ → Nat → ℚ)
    (h0 : lparm.infect * lparm.vac_eff = 0) (h1 : ∀ a ∈ ag, a.prob = 1)
    (hU : ∀ i k, 0 ≤ e i k ∧ e i k < 1) :
    (∀ ag', interactAgentsHomeWorkKernel lparm home binner bins ag = some ag' →
        ag' = ag ∧ (∀ a ∈ ag', a.prob = 1) ∧
        (infectAgents lparm e nrm ag').map (fun a => a.status) = ag.map (fun a => a.status) ∧
        (infectAgents lparm e nrm ag').countP (fun a => decide (a.status = Status.infected)) =
          ag.countP (fun a => decide (a.status = Status.infected))) ∧
      (BinsFit binner bins ag →
        ∃ ag', interactAgentsHomeWorkKernel lparm home binner bins ag = some ag') := by
  refine ⟨?_, interactAgentsHomeWorkKernel_total lparm home binner bins ag⟩
  intro ag' h
  have heq : ag' = ag := by
    refine (interactAgentsHomeWorkKernel_invariant lparm home binner bins ag
      (fun b => b = ag) rfl ?_ ag' h).1
    intro b i c _ hb _ hc
    rw [receiverFactor_infect_zero lparm h0 (!home) binner bins ag i c hc, atomicMultiply_one]
    exact hb
  subst heq
  have hmap : (infectAgents lparm e nrm ag').map (fun a => a.status) =
      ag'.map (fun a => a.status) :=
    infectAgentsFrom_status_of_prob_one lparm e nrm hU ag' 0 h1
  refine ⟨rfl, h1, hmap, ?_⟩
  have hc : ∀ l : List Agent,
      l.countP (fun a => decide (a.status = Status.infected)) =
        (l.map (fun a => a.status)).countP (fun s => decide (s = Status.infected)) := by
    intro l
    rw [List.countP_map]
    rfl
  rw [hc, hc, hmap]

/-- C12, at the store `[agentReceiver, agentTransmitter]` with `infect = 0` and the draws
`1/2`. -/
theorem interactAgentsHomeWork_no_contact_witness :
    ∃ ag', interactAgentsHomeWorkKernel lparmOff true (fun _ _ => 0) binsOneCell
        [agentReceiver, agentTransmitter] = some ag' ∧
      ag' = [agentReceiver, agentTransmitter] ∧ (∀ a ∈ ag', a.prob = 1) ∧
      (infectAgents lparmOff (fun _ => engineHalf) (fun _ _ _ _ => 3) ag').map
          (fun a => a.status) =
        [agentReceiver, agentTransmitter].map (fun a => a.status) ∧
      (infectAgents lparmOff (fun _ => engineHalf) (fun _ _ _ _ => 3) ag').countP
          (fun a => decide (a.status = Status.infected)) =
        [agentReceiver, agentTransmitter].countP
          (fun a => decide (a.status = Status.infected)) := by
  have h := interactAgentsHomeWork_no_contact lparmOff true (fun _ _ => 0) binsOneCell
    [agentReceiver, agentTransmitter] (fun _ => engineHalf) (fun _ _ _ _ => 3)
    (by norm_num [lparmOff, lparmUnit])
    (by simp [agentReceiver, agentTransmitter, agentZero])
    (by intro i k; norm_num [engineHalf])
  obtain ⟨ag', hag'⟩ := h.2 (binsOneCell_fit _ _)
  exact ⟨ag', hag', h.1 ag' hag'⟩

/-! ## Theorems: phases and school mixing -/

/-- The contact kernel depends on the disease parameters through the local `prob` of the
pairs only. -/
theorem interactAgentsHomeWorkKernel_congr (lparm lparm' : DiseaseParm) (home : Bool)
    (h : ∀ ai aj, pairProb lparm (!home) ai aj = pairProb lparm' (!home) ai aj)
    (binner : ℚ → ℚ → Nat) (bins : Bins) (ag : List Agent) :
    interactAgentsHomeWorkKernel lparm home binner bins ag =
      interactAgentsHomeWorkKernel lparm' home binner bins ag := by
  have hp : pairStep lparm (!home) = pairStep lparm' (!home) := by
    funext inds i b jj
    unfold pairStep
    simp only [h]
  unfold interactAgentsHomeWorkKernel
  have ht : homeWorkThread lparm (!home) = homeWorkThread lparm' (!home) := by
    funext binner bins b ii
    unfold homeWorkThread
    rw [hp]
  simp only [ht]

/-- In the home phase the local `prob` of a pair is made of the household, neighbourhood
cluster, community and neighbourhood factors only. -/
theorem pairProb_home (lparm : DiseaseParm) (ai aj : Agent) :
    pairProb lparm false ai aj =
      groupFactor (householdActive false ai aj) (lparm.infect * lparm.vac_eff)
          (householdRate lparm ai aj) *
        groupFactor (¬ householdActive false ai aj ∧ clusterActive false ai aj)
          (lparm.infect * lparm.vac_eff) (clusterRate lparm ai aj) *
        groupFactor (neitherWithdrawn ai aj) (lparm.infect * lparm.vac_eff)
          (communityRate lparm ai aj) *
        groupFactor (neitherWithdrawn ai aj ∧ ai.nborhood = aj.nborhood)
          (lparm.infect * lparm.vac_eff) (hoodRate lparm ai aj) := by
  have hwk : ¬ (neitherWithdrawn ai aj ∧ workgroupActive false ai aj) := by
    simp [workgroupActive]
  have hdc : ¬ (neitherWithdrawn ai aj ∧ daycareActive false ai aj) := by
    simp [daycareActive]
  have hsc : ¬ (neitherWithdrawn ai aj ∧ schoolActive false ai aj) := by
    simp [schoolActive]
  rw [pairProb_eq_nestedPairProb]
  unfold nestedPairProb
  dsimp only
  rw [groupFactor_false hwk, groupFactor_false hdc, groupFactor_false hsc]
  ring

/-- In the work phase the local `prob` of a pair is made of the community, workgroup,
neighbourhood, day care and playgroup, and school factors only. -/
theorem pairProb_work (lparm : DiseaseParm) (ai aj : Agent) :
    pairProb lparm true ai aj =
      groupFactor (neitherWithdrawn ai aj) (lparm.infect * lparm.vac_eff)
          (communityRate lparm ai aj) *
        groupFactor (neitherWithdrawn ai aj ∧ workgroupActive true ai aj)
          (lparm.infect * lparm.vac_eff) lparm.xmit_work *
        groupFactor (neitherWithdrawn ai aj ∧ ai.nborhood = aj.nborhood)
          (lparm.infect * lparm.vac_eff) (hoodRate lparm ai aj) *
        groupFactor (neitherWithdrawn ai aj ∧ daycareActive true ai aj)
          (lparm.infect * lparm.vac_eff) (daycareRate lparm ai) *
        groupFactor (neitherWithdrawn ai aj ∧ schoolActive true ai aj)
          (lparm.infect * lparm.vac_eff) (schoolRate lparm ai aj) := by
  have hh : ¬ householdActive true ai aj := by simp [householdActive]
  have hc : ¬ (¬ householdActive true ai aj ∧ clusterActive true ai aj) := by
    simp [clusterActive]
  rw [pairProb_eq_nestedPairProb]
  unfold nestedPairProb
  dsimp only
  rw [groupFactor_false hh, groupFactor_false hc]
  ring

/-- C19: phase exclusivity. In the home phase (`home = true`) the factor of every pair is
the product of the household, cluster, community and neighbourhood factors, and the store
the kernel computes does not depend on the workgroup rate or on the school tables (which
hold the day care and playgroup rates); in the work phase (`home = false`) the factor of
every pair is the product of the community, workgroup, neighbourhood, day care and school
factors, and the store the kernel computes does not depend on the household and cluster
tables. -/
theorem interactAgentsHomeWork_phase_exclusive (lparm : DiseaseParm) :
    (∀ ai aj : Agent,
        pairProb lparm (!true) ai aj =
          groupFactor (householdActive false ai aj) (lparm.infect * lparm.vac_eff)
              (householdRate lparm ai aj) *
            groupFactor (¬ householdActive false ai aj ∧ clusterActive false ai aj)
              (lparm.infect * lparm.vac_eff) (clusterRate lparm ai aj) *
            groupFactor (neitherWithdrawn ai aj) (lparm.infect * lparm.vac_eff)
              (communityRate lparm ai aj) *
            groupFactor (neitherWithdrawn ai aj ∧ ai.nborhood = aj.nborhood)
              (lparm.infect * lparm.vac_eff) (hoodRate lparm ai aj)) ∧
      (∀ (lparm' : DiseaseParm), agreeAtHome lparm lparm' →
        ∀ (binner : ℚ → ℚ → Nat) (bins : Bins) (ag : List Agent),
          interactAgentsHomeWorkKernel lparm true binner bins ag =
            interactAgentsHomeWorkKernel lparm' true binner bins ag) ∧
      (∀ ai aj : Agent,
        pairProb lparm (!false) ai aj =
          groupFactor (neitherWithdrawn ai aj) (lparm.infect * lparm.vac_eff)
              (communityRate lparm ai aj) *
            groupFactor (neitherWithdrawn ai aj ∧ workgroupActive true ai aj)
              (lparm.infect * lparm.vac_eff) lparm.xmit_work *
            groupFactor (neitherWithdrawn ai aj ∧ ai.nborhood = aj.nborhood)
              (lparm.infect * lparm.vac_eff) (hoodRate lparm ai aj) *
            groupFactor (neitherWithdrawn ai aj ∧ daycareActive true ai aj)
              (lparm.infect * lparm.vac_eff) (daycareRate lparm ai) *
            groupFactor (neitherWithdrawn ai aj ∧ schoolActive true ai aj)
              (lparm.infect * lparm.vac_eff) (schoolRate lparm ai aj)) ∧
      (∀ (lparm' : DiseaseParm), agreeAtWork lparm lparm' →
        ∀ (binner : ℚ → ℚ → Nat) (bins : Bins) (ag : List Agent),
          interactAgentsHomeWorkKernel lparm false binner bins ag =
            interactAgentsHomeWorkKernel lparm' false binner bins ag) := by
  refine ⟨fun ai aj => pairProb_home lparm ai aj, ?_, fun ai aj => pairProb_work lparm ai aj, ?_⟩
  · rintro lparm' ⟨h1, h2, h3, h4, h5, h6, h7, h8, h9, h10, h11, h12, h13, h14⟩ binner bins ag
    apply interactAgentsHomeWorkKernel_congr
    intro ai aj
    show pairProb lparm false ai aj = pairProb lparm' false ai aj
    rw [pairProb_home, pairProb_home]
    simp only [householdRate, clusterRate, communityRate, hoodRate, h1, h2, h3, h4, h5, h6, h7,
      h8, h9, h10, h11, h12, h13, h14]
  · rintro lparm' ⟨h1, h2, h3, h4, h5, h6, h7, h8, h9, h10⟩ binner bins ag
    apply interactAgentsHomeWorkKernel_congr
    intro ai aj
    show pairProb lparm true ai aj = pairProb lparm' true ai aj
    rw [pairProb_work, pairProb_work]
    simp only [communityRate, hoodRate, daycareRate, schoolRate, h1, h2, h3, h4, h5, h6, h7, h8,
      h9, h10]

/-- C19, at the parameters `lparmUnit` and the same parameters without school tables: the
home phase computes the same store. -/
theorem interactAgentsHomeWork_phase_exclusive_witness :
    interactAgentsHomeWorkKernel lparmUnit true (fun _ _ => 0) binsOneCell
        [agentReceiver, agentTransmitter] =
      interactAgentsHomeWorkKernel (withoutSchool lparmUnit) true (fun _ _ => 0) binsOneCell
        [agentReceiver, agentTransmitter] :=
  (interactAgentsHomeWork_phase_exclusive lparmUnit).2.1 (withoutSchool lparmUnit)
    ⟨rfl, rfl, rfl, rfl, rfl, rfl, rfl, rfl, rfl, rfl, rfl, rfl, rfl, rfl⟩
    (fun _ _ => 0) binsOneCell [agentReceiver, agentTransmitter]

theorem schoolRate_withoutSchool (lparm : DiseaseParm) (ai aj : Agent) :
    schoolRate (withoutSchool lparm) ai aj = 0 := by
  unfold schoolRate withoutSchool
  split_ifs <;> rfl

/-- For a receiver whose `school` is at most `4`, the local `prob` of a pair is its school
factor times the local `prob` computed with the three school tables set to zero. -/
theorem pairProb_school_split (lparm : DiseaseParm) (DAYTIME : Bool) (ai aj : Agent)
    (h4 : ai.school ≤ 4) :
    pairProb lparm DAYTIME ai aj =
      groupFactor (neitherWithdrawn ai aj ∧ schoolActive DAYTIME ai aj)
          (lparm.infect * lparm.vac_eff) (schoolRate lparm ai aj) *
        pairProb (withoutSchool lparm) DAYTIME ai aj := by
  have hdc : ¬ (neitherWithdrawn ai aj ∧ daycareActive DAYTIME ai aj) := by
    rintro ⟨_, _, _, _, h5⟩
    omega
  rw [pairProb_eq_nestedPairProb, pairProb_eq_nestedPairProb]
  unfold nestedPairProb
  dsimp only
  rw [groupFactor_false hdc, groupFactor_false hdc]
  simp only [schoolRate_withoutSchool, groupFactor_zero]
  have h1 : householdRate (withoutSchool lparm) ai aj = householdRate lparm ai aj := rfl
  have h2 : clusterRate (withoutSchool lparm) ai aj = clusterRate lparm ai aj := rfl
  have h3 : communityRate (withoutSchool lparm) ai aj = communityRate lparm ai aj := rfl
  have h4 : hoodRate (withoutSchool lparm) ai aj = hoodRate lparm ai aj := rfl
  have h6 : (withoutSchool lparm).infect = lparm.infect := rfl
  have h7 : (withoutSchool lparm).vac_eff = lparm.vac_eff := rfl
  have h8 : (withoutSchool lparm).xmit_work = lparm.xmit_work := rfl
  rw [h1, h2, h3, h4, h6, h7, h8]
  ring

/-- C20: in the work phase, for a receiver that is never infected or susceptible and an
infected transmitter past incubation with the same `school = s`, neither withdrawn, the
factor by which the iteration multiplies `prob[i]` contains, for `s` in `1..4`, the school
factor `1 - infect * xmit_school[s]` when both are children, `1 - infect * xmit_sch_a2c[s]`
when the receiver is a child and the transmitter an adult, `1 - infect * xmit_sch_c2a[s]`
when the receiver is an adult and the transmitter a child, and no school factor when both
are adults; and no school factor when `s ≤ 0`. -/
theorem pairStep_school_factor (lparm : DiseaseParm) (inds : List Nat)
    (i j jj : Nat) (ag : List Agent) (ai aj : Agent)
    (hj : inds[jj]? = some j) (hij : i ≠ j) (hai : ag[i]? = some ai) (haj : ag[j]? = some aj)
    (hi : ai.status = Status.never ∨ ai.status = Status.susceptible)
    (hjs : aj.status = Status.infected)
    (hinc : aj.incubation_period ≤ aj.disease_counter)
    (hsch : ai.school = aj.school) (hwi : ai.withdrawn = 0) (hwj : aj.withdrawn = 0) :
    (1 ≤ ai.school ∧ ai.school ≤ 4 → ai.age_group ≤ 1 → aj.age_group ≤ 1 →
        pairStep lparm true inds i ag jj =
          some (atomicMultiply ag i
            ((1 - lparm.infect * lparm.vac_eff * lparm.xmit_school ai.school) *
              pairProb (withoutSchool lparm) true ai aj))) ∧
      (1 ≤ ai.school ∧ ai.school ≤ 4 → ai.age_group ≤ 1 → ¬ aj.age_group ≤ 1 →
        pairStep lparm true inds i ag jj =
          some (atomicMultiply ag i
            ((1 - lparm.infect * lparm.vac_eff * lparm.xmit_sch_a2c ai.school) *
              pairProb (withoutSchool lparm) true ai aj))) ∧
      (1 ≤ ai.school ∧ ai.school ≤ 4 → ¬ ai.age_group ≤ 1 → aj.age_group ≤ 1 →
        pairStep lparm true inds i ag jj =
          some (atomicMultiply ag i
            ((1 - lparm.infect * lparm.vac_eff * lparm.xmit_sch_c2a ai.school) *
              pairProb (withoutSchool lparm) true ai aj))) ∧
      (1 ≤ ai.school ∧ ai.school ≤ 4 → ¬ ai.age_group ≤ 1 → ¬ aj.age_group ≤ 1 →
        pairStep lparm true inds i ag jj =
          some (atomicMultiply ag i (pairProb (withoutSchool lparm) true ai aj))) ∧
      (ai.school ≤ 0 →
        pairStep lparm true inds i ag jj =
          some (atomicMultiply ag i (pairProb (withoutSchool lparm) true ai aj))) := by
  have ht : transmits ai aj := by
    refine ⟨hjs, not_lt.mpr hinc, ?_, ?_⟩ <;> rcases hi with h | h <;> simp [h]
  have hstep := pairStep_transmits lparm true inds i j jj ag ai aj hj hij hai haj ht
  have hact : 1 ≤ ai.school ∧ ai.school ≤ 4 →
      (neitherWithdrawn ai aj ∧ schoolActive true ai aj) :=
    fun hs => ⟨⟨hwi, hwj⟩, hsch, hs.1, hs.2, rfl⟩
  refine ⟨?_, ?_, ?_, ?_, ?_⟩
  · intro hs hci hcj
    rw [hstep, pairProb_school_split lparm true ai aj hs.2, groupFactor_true (hact hs)]
    unfold schoolRate
    rw [if_pos hci, if_pos hcj]
  · intro hs hci hcj
    rw [hstep, pairProb_school_split lparm true ai aj hs.2, groupFactor_true (hact hs)]
    unfold schoolRate
    rw [if_pos hci, if_neg hcj]
  · intro hs hci hcj
    rw [hstep, pairProb_school_split lparm true ai aj hs.2, groupFactor_true (hact hs)]
    unfold schoolRate
    rw [if_neg hci, if_pos hcj]
  · intro hs hci hcj
    rw [hstep, pairProb_school_split lparm true ai aj hs.2, groupFactor_true (hact hs)]
    unfold schoolRate
    rw [if_neg hci, if_neg hcj]
    simp
  · intro hs
    have hna : ¬ (neitherWithdrawn ai aj ∧ schoolActive true ai aj) := by
      rintro ⟨_, _, h1, _, _⟩
      omega
    rw [hstep, pairProb_school_split lparm true ai aj (by omega), groupFactor_false hna, one_mul]

/-- C20, at the pupil `agentPupil` and the infectious pupil `agentClassmate` of the same
elementary school. -/
theorem pairStep_school_factor_witness :
    pairStep lparmUnit true [0, 1] 0 [agentPupil, agentClassmate] 1 =
      some (atomicMultiply [agentPupil, agentClassmate] 0
        ((1 - lparmUnit.infect * lparmUnit.vac_eff * lparmUnit.xmit_school agentPupil.school) *
          pairProb (withoutSchool lparmUnit) true agentPupil agentClassmate)) :=
  (pairStep_school_factor lparmUnit [0, 1] 0 1 1 [agentPupil, agentClassmate] agentPupil
    agentClassmate rfl (by decide) rfl rfl (Or.inl rfl) rfl
    (by norm_num [agentClassmate, agentZero]) rfl rfl rfl).1
    ⟨by decide, by decide⟩ (by decide) (by decide)

/-! ## Theorems: the period fields of infected agents -/

theorem foldlM_option_invariant {α β : Type} (f : β → α → Option β) (Q : β → Prop) :
    ∀ (l : List α), (∀ b x b', x ∈ l → Q b → f b x = some b' → Q b') →
      ∀ b b', Q b → l.foldlM f b = some b' → Q b'
  | [], _, b, b', hQ, h => by
    simp only [List.foldlM_nil, Option.pure_def, Option.some.injEq] at h
    exact h ▸ hQ
  | x :: l, hstep, b, b', hQ, h => by
    rw [List.foldlM_cons] at h
    cases hx : f b x with
    | none => rw [hx] at h; cases h
    | some b1 =>
      rw [hx] at h
      simp only [Option.bind_eq_bind, Option.some_bind] at h
      exact foldlM_option_invariant f Q l
        (fun b x b' hm => hstep b x b' (List.mem_cons_of_mem _ hm)) b1 b'
        (hstep b x b1 (List.mem_cons_self _ _) hQ hx) h

theorem foldlM_option_total {α β : Type} (f : β → α → Option β) (Q : β → Prop) :
    ∀ (l : List α), (∀ b x, x ∈ l → Q b → ∃ b', f b x = some b' ∧ Q b') →
      ∀ b, Q b → ∃ b', l.foldlM f b = some b' ∧ Q b'
  | [], _, b, hQ => ⟨b, rfl, hQ⟩
  | x :: l, hstep, b, hQ => by
    obtain ⟨b1, hb1, hQ1⟩ := hstep b x (List.mem_cons_self _ _) hQ
    rw [List.foldlM_cons, hb1]
    simp only [Option.bind_eq_bind, Option.some_bind]
    exact foldlM_option_total f Q l (fun b x hm => hstep b x (List.mem_cons_of_mem _ hm)) b1 hQ1

theorem map_set_of_eq {β : Type} (f : Agent → β) (l : List Agent) (i : Nat) (a a' : Agent)
    (ha : l[i]? = some a) (hf : f a' = f a) : (l.set i a').map f = l.map f := by
  apply List.ext_getElem?
  intro n
  simp only [List.getElem?_map]
  by_cases hn : i = n
  · subst hn
    have hlt : i < l.length := by
      rcases Nat.lt_or_ge i l.length with h | h
      · exact h
      · rw [List.getElem?_eq_none h] at ha; cases ha
    rw [List.getElem?_set_self hlt, ha]
    simp [hf]
  · rw [List.getElem?_set_ne hn]

/-- One iteration of the second pass of `interactAgents` writes no period field. -/
theorem infectStep_periods (engine : Nat → ℚ) (inds : List Nat) (num_infected : Nat × Nat)
    (s s' : List Agent × Nat) (i : Nat) (h : infectStep engine inds num_infected s i = some s') :
    s'.1.map periodsOf = s.1.map periodsOf := by
  unfold infectStep at h
  cases hp : inds[i]? with
  | none => rw [hp] at h; cases h
  | some pindex =>
    rw [hp] at h
    simp only [Option.bind_eq_bind, Option.some_bind] at h
    cases ha : s.1[pindex]? with
    | none => rw [ha] at h; cases h
    | some a =>
      rw [ha] at h
      simp only [Option.some_bind, Option.pure_def] at h
      split_ifs at h <;> simp only [Option.some.injEq] at h <;> subst h
      · exact map_set_of_eq periodsOf s.1 pindex a _ ha rfl
      · exact map_set_of_eq periodsOf s.1 pindex a _ ha rfl
      · rfl
      · rfl

/-- `interactAgents` writes no period field. -/
theorem interactAgents_periods (engine : Nat → Nat → ℚ) (bins : Bins) (ag ag' : List Agent)
    (h : interactAgents engine bins ag = some ag') :
    ag'.map periodsOf = ag.map periodsOf := by
  unfold interactAgents at h
  refine foldlM_option_invariant _ (fun b => b.map periodsOf = ag.map periodsOf) _ ?_ ag ag'
    rfl h
  intro b i_cell b' _ hb hcell
  unfold interactAgentsCell at hcell
  cases hcs : bins.offsets[i_cell]? with
  | none => rw [hcs] at hcell; cases hcell
  | some cs =>
    cases hce : bins.offsets[i_cell + 1]? with
    | none => rw [hcs, hce] at hcell; cases hcell
    | some ce =>
      rw [hcs, hce] at hcell
      simp only [Option.bind_eq_bind, Option.some_bind] at hcell
      cases hn : (List.range' cs (ce - cs)).foldlM (countInfectedStep bins.inds b) (0, 0) with
      | none => rw [hn] at hcell; cases hcell
      | some num =>
        rw [hn] at hcell
        simp only [Option.some_bind] at hcell
        cases hs : (List.range' cs (ce - cs)).foldlM (infectStep (engine i_cell) bins.inds num)
            (b, 0) with
        | none => rw [hs] at hcell; cases hcell
        | some s =>
          rw [hs] at hcell
          simp only [Option.some_bind, Option.pure_def, Option.some.injEq] at hcell
          rw [← hcell]
          have := foldlM_option_invariant (infectStep (engine i_cell) bins.inds num)
            (fun s => s.1.map periodsOf = ag.map periodsOf) _
            (fun s x s' _ hQ hstep =>
              (infectStep_periods (engine i_cell) bins.inds num s s' x hstep).trans hQ)
            (b, 0) s hb hs
          exact this

theorem getElem?_of_range'_mem (bins : Bins) (ag b : List Agent) (hfit : CellBinsFit bins ag)
    (hlen : b.length = ag.length) (cs ce : Nat) (hce : ce ≤ bins.inds.length) (i : Nat)
    (hi : i ∈ List.range' cs (ce - cs)) :
    ∃ pindex a, bins.inds[i]? = some pindex ∧ b[pindex]? = some a ∧ a ∈ b := by
  rw [List.mem_range'_1] at hi
  have hlt : i < bins.inds.length := by omega
  have hp : bins.inds[i] < b.length := by
    rw [hlen]
    exact hfit.inds_lt _ (List.getElem_mem hlt)
  exact ⟨bins.inds[i], b[bins.inds[i]], List.getElem?_eq_getElem hlt,
    List.getElem?_eq_getElem hp, List.getElem_mem hp⟩

/-- `interactAgents` returns a store when the bins fit the store on entry. -/
theorem interactAgents_total (engine : Nat → Nat → ℚ) (bins : Bins) (ag : List Agent)
    (hfit : CellBinsFit bins ag) : ∃ ag', interactAgents engine bins ag = some ag' := by
  unfold interactAgents
  have key := foldlM_option_total
    (fun ag i_cell => interactAgentsCell (engine i_cell) bins ag i_cell)
    (fun b => b.length = ag.length ∧ ∀ a ∈ b, a.status = 1 → a.strain = 0 ∨ a.strain = 1)
    (List.range bins.numBins) ?_ ag ⟨rfl, hfit.strain_ok⟩
  · obtain ⟨ag', h, _⟩ := key
    exact ⟨ag', h⟩
  · intro b i_cell hcell ⟨hlen, hstrain⟩
    rw [List.mem_range] at hcell
    unfold Bins.numBins at hcell
    have h1 : i_cell + 1 < bins.offsets.length := by omega
    have hcs : bins.offsets[i_cell]? = some bins.offsets[i_cell] :=
      List.getElem?_eq_getElem (by omega)
    have hce : bins.offsets[i_cell + 1]? = some bins.offsets[i_cell + 1] :=
      List.getElem?_eq_getElem h1
    have hle : bins.offsets[i_cell + 1] ≤ bins.inds.length :=
      hfit.offsets_le _ (List.getElem_mem h1)
    unfold interactAgentsCell
    dsimp only
    rw [hcs, hce]
    simp only [Option.bind_eq_bind, Option.some_bind]
    obtain ⟨num, hnum, _⟩ := foldlM_option_total (countInfectedStep bins.inds b)
      (fun _ => True) (List.range' bins.offsets[i_cell]
        (bins.offsets[i_cell + 1] - bins.offsets[i_cell])) (by
        intro n i hi _
        obtain ⟨pindex, a, hp, ha, hmem⟩ :=
          getElem?_of_range'_mem bins ag b hfit hlen _ _ hle i hi
        unfold countInfectedStep
        rw [hp]
        simp only [Option.bind_eq_bind, Option.some_bind, ha, Option.pure_def]
        split_ifs with hs h0 h1'
        · exact ⟨_, rfl, trivial⟩
        · exact ⟨_, rfl, trivial⟩
        · exact absurd (hstrain a hmem hs) (by tauto)
        · exact ⟨_, rfl, trivial⟩) (0, 0) trivial
    rw [hnum]
    simp only [Option.some_bind]
    obtain ⟨s, hs, hQs⟩ := foldlM_option_total (infectStep (engine i_cell) bins.inds num)
      (fun s => s.1.length = ag.length ∧
        ∀ a ∈ s.1, a.status = 1 → a.strain = 0 ∨ a.strain = 1)
      (List.range' bins.offsets[i_cell]
        (bins.offsets[i_cell + 1] - bins.offsets[i_cell])) (by
        intro s i hi ⟨hslen, hsstrain⟩
        obtain ⟨pindex, a, hp, ha, _⟩ :=
          getElem?_of_range'_mem bins ag s.1 hfit hslen _ _ hle i hi
        unfold infectStep
        rw [hp]
        simp only [Option.bind_eq_bind, Option.some_bind, ha, Option.pure_def]
        split_ifs
        · refine ⟨_, rfl, by simpa using hslen, ?_⟩
          intro x hx hxs
          rcases List.mem_or_eq_of_mem_set hx with hx | hx
          · exact hsstrain x hx hxs
          · subst hx; exact Or.inl rfl
        · refine ⟨_, rfl, by simpa using hslen, ?_⟩
          intro x hx hxs
          rcases List.mem_or_eq_of_mem_set hx with hx | hx
          · exact hsstrain x hx hxs
          · subst hx; exact Or.inr rfl
        · exact ⟨_, rfl, hslen, hsstrain⟩
        · exact ⟨_, rfl, hslen, hsstrain⟩) (b, 0) ⟨hlen, hstrain⟩
    rw [hs]
    exact ⟨s.1, rfl, hQs⟩

/-- C11 (as stated, refuted): with a Normal sampler that returns `-1`, `infectAgents`
infects the never infected agent `agentExposed` and stores `-1` in its three period
fields; and `interactAgents` infects the agent `agentNoPeriods` and leaves its three
period fields at `0`. -/
theorem infected_with_nonpositive_periods :
    (infectAgents lparmUnit (fun _ => engineHalf) (fun _ _ _ _ => -1) [agentExposed]).map
        (fun a => (a.status, periodsOf a)) = [(Status.infected, (-1, -1, -1))] ∧
      (interactAgents (fun _ => engineZero) binsOneCell [agentInfected, agentNoPeriods]).map
          (fun ag => ag.map (fun a => (a.status, periodsOf a))) =
        some [(Status.infected, (1, 1, 1)), (Status.infected, (0, 0, 0))] := by
  constructor
  · simp [infectAgents, infectAgentsFrom, infectAgentsAgent, agentExposed, agentZero,
      engineHalf, periodsOf]
    norm_num
  · simp [interactAgents, interactAgentsCell, infectStep, countInfectedStep, binsOneCell,
      agentInfected, agentNoPeriods, agentZero, engineZero, Bins.numBins, List.range_succ,
      List.range', List.foldlM, periodsOf]

/-- C11 (amended): an agent that `infectAgents` infects gets as its three periods exactly
the three values returned by the Normal sampler, without clamping, so the stored periods
are positive exactly when the sampled values are; `interactAgents` writes no period field:
every agent, the ones it infects included, keeps the periods it had; and `interactAgents`
returns when the bins fit the store. -/
theorem infected_periods_as_sampled (lparm : DiseaseParm) (e : Nat → Nat → ℚ)
    (nrm : Nat → ℚ → ℚ → Nat → ℚ) (engine : Nat → Nat → ℚ) (bins : Bins) (ag : List Agent) :
    (∀ (n : Nat) (a : Agent), ag[n]? = some a →
        (a.status = Status.never ∨ a.status = Status.susceptible) → e n 0 < 1 - a.prob →
        ∃ a', (infectAgents lparm e nrm ag)[n]? = some a' ∧ a'.status = Status.infected ∧
          periodsOf a' =
            (nrm n lparm.incubation_length_mean lparm.incubation_length_std 0,
             nrm n lparm.infectious_length_mean lparm.infectious_length_std 1,
             nrm n lparm.symptomdev_length_mean lparm.symptomdev_length_std 2)) ∧
      (∀ ag', interactAgents engine bins ag = some ag' →
        ag'.map periodsOf = ag.map periodsOf) ∧
      (CellBinsFit bins ag → ∃ ag', interactAgents engine bins ag = some ag') := by
  refine ⟨?_, fun ag' h => interactAgents_periods engine bins ag ag' h,
    interactAgents_total engine bins ag⟩
  intro n a ha hs hU
  refine ⟨infectAgentsAgent lparm (e n) (nrm n) a, ?_, ?_, ?_⟩
  · simp [infectAgents, infectAgentsFrom_getElem?, ha]
  · unfold infectAgentsAgent
    dsimp only
    rw [if_pos hs, if_pos hU]
  · unfold infectAgentsAgent
    dsimp only
    rw [if_pos hs, if_pos hU]
    rfl

/-- C11 (amended), at the store `[agentExposed]` with a sampler that returns `3`, and at
the store `[agentInfected, agentNoPeriods]` for `interactAgents`. -/
theorem infected_periods_as_sampled_witness :
    (∃ a', (infectAgents lparmUnit (fun _ => engineHalf) (fun _ _ _ _ => 3) [agentExposed])[0]? =
        some a' ∧ a'.status = Status.infected ∧ periodsOf a' = (3, 3, 3)) ∧
      ∃ ag', interactAgents (fun _ => engineZero) binsOneCell [agentInfected, agentNoPeriods] =
          some ag' ∧
        ag'.map periodsOf = [agentInfected, agentNoPeriods].map periodsOf := by
  have h := infected_periods_as_sampled lparmUnit (fun _ => engineHalf) (fun _ _ _ _ => 3)
    (fun _ => engineZero) binsOneCell [agentExposed]
  have h' := infected_periods_as_sampled lparmUnit (fun _ => engineHalf) (fun _ _ _ _ => 3)
    (fun _ => engineZero) binsOneCell [agentInfected, agentNoPeriods]
  refine ⟨h.1 0 agentExposed rfl (Or.inl rfl)
    (by norm_num [engineHalf, agentExposed, agentZero]), ?_⟩
  obtain ⟨ag', hag'⟩ := h'.2.2
    ⟨by simp [binsOneCell], by simp [binsOneCell],
      by simp [agentInfected, agentNoPeriods, agentZero]⟩
  exact ⟨ag', hag', h'.2.1 ag' hag'⟩

/-! ## Theorems: movement -/

theorem floor_half_cell (h : Int) (dx : ℚ) (hdx : 0 < dx) :
    ⌊(((h : ℚ) + 1/2) * dx) / dx⌋ = h := by
  rw [mul_div_assoc, div_self (ne_of_gt hdx), mul_one, Int.floor_eq_iff]
  constructor <;> linarith

/-- C23: after `moveAgentsToHome` the owning cell of the position of every agent, for cell
sizes `dx > 0` and the origin `0`, is `(home_i, home_j)`; after `moveAgentsToWork` it is
`(work_i, work_j)`. -/
theorem moveAgents_cell (dx : ℚ × ℚ) (ag : List Agent) (hx : 0 < dx.1) (hy : 0 < dx.2) :
    (∀ a ∈ moveAgentsToHome dx ag, cellOf dx a = (a.home_i, a.home_j)) ∧
      (∀ a ∈ moveAgentsToWork dx ag, cellOf dx a = (a.work_i, a.work_j)) := by
  constructor
  · intro a ha
    obtain ⟨p, _, rfl⟩ := List.mem_map.mp ha
    simp only [cellOf, moveAgentsToHomeAgent, floor_half_cell _ _ hx, floor_half_cell _ _ hy]
  · intro a ha
    obtain ⟨p, _, rfl⟩ := List.mem_map.mp ha
    simp only [cellOf, moveAgentsToWorkAgent, floor_half_cell _ _ hx, floor_half_cell _ _ hy]

/-- C23, at the store `[agentCommuter]` with the cell sizes `(2, 3)`. -/
theorem moveAgents_cell_witness :
    (∀ a ∈ moveAgentsToHome (2, 3) [agentCommuter], cellOf (2, 3) a = (a.home_i, a.home_j)) ∧
      (∀ a ∈ moveAgentsToWork (2, 3) [agentCommuter],
        cellOf (2, 3) a = (a.work_i, a.work_j)) :=
  moveAgents_cell (2, 3) [agentCommuter] (by norm_num) (by norm_num)

/-- C24: `moveAgentsToHome` after `moveAgentsToWork` gives the store that `moveAgentsToHome`
alone gives, `moveAgentsToHome` twice gives the store that it gives once, and the two
primitives change the position of an agent only. -/
theorem moveAgents_round_trip (dx : ℚ × ℚ) (ag : List Agent) :
    moveAgentsToHome dx (moveAgentsToWork dx ag) = moveAgentsToHome dx ag ∧
      moveAgentsToHome dx (moveAgentsToHome dx ag) = moveAgentsToHome dx ag ∧
      List.Forall₂ sameButPos ag (moveAgentsToHome dx ag) ∧
      List.Forall₂ sameButPos ag (moveAgentsToWork dx ag) := by
  refine ⟨?_, ?_, ?_, ?_⟩
  · simp only [moveAgentsToHome, moveAgentsToWork, List.map_map]
    rfl
  · simp only [moveAgentsToHome, List.map_map]
    rfl
  · unfold moveAgentsToHome
    induction ag with
    | nil => exact List.Forall₂.nil
    | cons a rest ih => exact List.Forall₂.cons rfl ih
  · unfold moveAgentsToWork
    induction ag with
    | nil => exact List.Forall₂.nil
    | cons a rest ih => exact List.Forall₂.cons rfl ih

theorem moveRandomTravelFrom_getElem? (engine : Nat → Nat → ℚ) (ag : List Agent) (i n : Nat) :
    (moveRandomTravelFrom engine i ag)[n]? =
      (ag[n]?).map (moveRandomTravelAgent (engine (i + n))) := by
  induction ag generalizing i n with
  | nil => simp [moveRandomTravelFrom]
  | cons a rest ih =>
    cases n with
    | zero => simp [moveRandomTravelFrom]
    | succ m =>
      simp only [moveRandomTravelFrom, List.getElem?_cons_succ]
      rw [ih (i + 1) m]
      have : i + 1 + m = i + (m + 1) := by omega
      rw [this]

theorem moveRandomTravelFrom_length (engine : Nat → Nat → ℚ) (ag : List Agent) (i : Nat) :
    (moveRandomTravelFrom engine i ag).length = ag.length := by
  induction ag generalizing i with
  | nil => rfl
  | cons a rest ih => simp [moveRandomTravelFrom, ih]

/-- C25, the claim as stated fails: on a domain of side `10` the agent that travels with
the draws `0, 1/2, 1/2` is moved to `(1500, 1500)`, outside the domain. -/
theorem moveRandomTravel_leaves_domain :
    moveRandomTravel (fun _ k => if k = 0 then 0 else 1/2) [agentZero] =
        [{ agentZero with pos_x := 1500, pos_y := 1500 }] ∧
      ¬ ((1500 : ℚ) < 10) := by
  constructor
  · simp only [moveRandomTravel, moveRandomTravelFrom, moveRandomTravelAgent]
    norm_num
  · norm_num

/-- C25, amended: the store keeps its length, and the agent of loop index `n` draws
`U1 = engine n 0`; if `U1 < 0.0001` its position becomes `(3000 * U2, 3000 * U3)` for the
next two draws of its stream, which for draws in `[0, 1)` lies in `[0, 3000) x [0, 3000)`
whatever the domain is; otherwise the agent is unchanged. No other attribute changes. -/
theorem moveRandomTravel_jump (engine : Nat → Nat → ℚ) (ag : List Agent) (n : Nat) (a : Agent)
    (hU : ∀ i k, 0 ≤ engine i k ∧ engine i k < 1) (ha : ag[n]? = some a) :
    (moveRandomTravel engine ag).length = ag.length ∧
      ∃ a', (moveRandomTravel engine ag)[n]? = some a' ∧ sameButPos a a' ∧
        (engine n 0 < 1/10000 →
          a'.pos_x = 3000 * engine n 1 ∧ a'.pos_y = 3000 * engine n 2 ∧
            0 ≤ a'.pos_x ∧ a'.pos_x < 3000 ∧ 0 ≤ a'.pos_y ∧ a'.pos_y < 3000) ∧
        (¬ engine n 0 < 1/10000 → a' = a) := by
  refine ⟨moveRandomTravelFrom_length engine ag 0, moveRandomTravelAgent (engine n) a, ?_, ?_, ?_, ?_⟩
  · unfold moveRandomTravel
    rw [moveRandomTravelFrom_getElem?, ha]
    simp
  · unfold moveRandomTravelAgent sameButPos
    split_ifs <;> rfl
  · intro h
    have h1 := hU n 1
    have h2 := hU n 2
    simp only [moveRandomTravelAgent, if_pos h]
    refine ⟨trivial, trivial, ?_, ?_, ?_, ?_⟩ <;> linarith [h1.1, h1.2, h2.1, h2.2]
  · intro h
    simp only [moveRandomTravelAgent, if_neg h]

/-- C25, amended, at the store `[agentZero]` with all draws `0`. -/
theorem moveRandomTravel_jump_witness :
    (moveRandomTravel (fun _ _ => 0) [agentZero]).length = [agentZero].length ∧
      ∃ a', (moveRandomTravel (fun _ _ => 0) [agentZero])[0]? = some a' ∧
        sameButPos agentZero a' ∧
        (((fun _ _ => 0) : Nat → Nat → ℚ) 0 0 < 1/10000 →
          a'.pos_x = 3000 * 0 ∧ a'.pos_y = 3000 * 0 ∧
            0 ≤ a'.pos_x ∧ a'.pos_x < 3000 ∧ 0 ≤ a'.pos_y ∧ a'.pos_y < 3000) ∧
        (¬ ((fun _ _ => 0) : Nat → Nat → ℚ) 0 0 < 1/10000 → a' = agentZero) :=
  moveRandomTravel_jump (fun _ _ => 0) [agentZero] 0 agentZero
    (fun _ _ => ⟨le_refl _, by norm_num⟩) rfl

/-! ## Theorems: `printTotals` -/

theorem printTotalsAgent_isSome (a : Agent) (h : statusValid a) :
    ∃ t, printTotalsAgent a = some t := by
  unfold printTotalsAgent
  rw [if_neg (not_not.mpr h.1), if_neg (not_not.mpr h.2)]
  exact ⟨_, rfl⟩

theorem printTotalsAgent_valid (a : Agent) (t : Totals) (h : printTotalsAgent a = some t) :
    statusValid a := by
  unfold printTotalsAgent at h
  by_cases h0 : a.status ≥ 0
  · by_cases h4 : a.status ≤ 4
    · exact ⟨h0, h4⟩
    · rw [if_neg (not_not.mpr h0), if_pos h4] at h
      cases h
  · rw [if_pos h0] at h
    cases h

theorem printTotalsAgent_eq (a : Agent) (h : statusValid a) :
    printTotalsAgent a = some
      { never := if a.status = 0 then 1 else 0, infected := if a.status = 1 then 1 else 0,
        immune := if a.status = 2 then 1 else 0, susceptible := if a.status = 3 then 1 else 0,
        dead := if a.status = 4 then 1 else 0 } := by
  unfold printTotalsAgent
  rw [if_neg (not_not.mpr h.1), if_neg (not_not.mpr h.2)]

theorem countStatus_cons (s : Int) (a : Agent) (rest : List Agent) :
    countStatus s (a :: rest) = (if a.status = s then 1 else 0) + countStatus s rest := by
  unfold countStatus
  rw [List.countP_cons]
  by_cases h : a.status = s
  · simp [h]
    ring
  · simp [h]

theorem printTotals_counts (ag : List Agent) (c : Totals) (h : printTotals ag = some c) :
    (∀ a ∈ ag, statusValid a) ∧ c.never = countStatus 0 ag ∧ c.infected = countStatus 1 ag ∧
      c.immune = countStatus 2 ag ∧ c.susceptible = countStatus 3 ag ∧
      c.dead = countStatus 4 ag := by
  induction ag generalizing c with
  | nil =>
    simp only [printTotals, Option.some.injEq] at h
    subst h
    simp [countStatus]
  | cons a rest ih =>
    simp only [printTotals, Option.bind_eq_bind, Option.pure_def] at h
    cases ha : printTotalsAgent a with
    | none => rw [ha] at h; cases h
    | some t =>
      rw [ha] at h
      cases hr : printTotals rest with
      | none => rw [hr] at h; cases h
      | some r =>
        rw [hr] at h
        simp only [Option.some_bind, Option.some.injEq] at h
        subst h
        have hv := printTotalsAgent_valid a t ha
        rw [printTotalsAgent_eq a hv] at ha
        simp only [Option.some.injEq] at ha
        subst ha
        obtain ⟨h0, h1, h2, h3, h4, h5⟩ := ih r hr
        refine ⟨?_, ?_, ?_, ?_, ?_, ?_⟩
        · intro b hb
          rcases List.mem_cons.mp hb with rfl | hb
          · exact hv
          · exact h0 b hb
        all_goals simp only [Totals.add, countStatus_cons, h1, h2, h3, h4, h5]

theorem printTotals_isSome (ag : List Agent) (h : ∀ a ∈ ag, statusValid a) :
    ∃ c, printTotals ag = some c := by
  induction ag with
  | nil => exact ⟨_, rfl⟩
  | cons a rest ih =>
    obtain ⟨t, ht⟩ := printTotalsAgent_isSome a (h a (List.mem_cons_self _ _))
    obtain ⟨r, hr⟩ := ih (fun b hb => h b (List.mem_cons_of_mem _ hb))
    exact ⟨t.add r, by simp [printTotals, ht, hr]⟩

theorem countStatus_sum (ag : List Agent) (h : ∀ a ∈ ag, statusValid a) :
    countStatus 0 ag + countStatus 1 ag + countStatus 2 ag + countStatus 3 ag +
      countStatus 4 ag = (ag.length : Int) := by
  induction ag with
  | nil => simp [countStatus]
  | cons a rest ih =>
    have hr := ih (fun b hb => h b (List.mem_cons_of_mem _ hb))
    have hv := h a (List.mem_cons_self _ _)
    simp only [countStatus_cons, List.length_cons, Nat.cast_succ]
    have hs : (if a.status = 0 then (1 : Int) else 0) + (if a.status = 1 then 1 else 0) +
        (if a.status = 2 then 1 else 0) + (if a.status = 3 then 1 else 0) +
        (if a.status = 4 then 1 else 0) = 1 := by
      obtain ⟨h0, h4⟩ := hv
      have : a.status = 0 ∨ a.status = 1 ∨ a.status = 2 ∨ a.status = 3 ∨ a.status = 4 := by
        omega
      rcases this with e | e | e | e | e <;> rw [e] <;> norm_num
    linarith

theorem updateStatusAgent_status_cases (e : Nat → ℚ) (ds : Stats) (a : Agent) :
    (updateStatusAgent e ds a).1.status = a.status ∨
      (updateStatusAgent e ds a).1.status = Status.immune ∨
      (updateStatusAgent e ds a).1.status = Status.dead := by
  by_cases hs : a.status = Status.infected
  · by_cases hinc : a.disease_counter + 1 < a.incubation_period
    · left
      unfold updateStatusAgent
      simp only [hs, if_pos hinc]
      norm_num
    · by_cases hon : a.disease_counter + 1 = (⌈a.incubation_period⌉ : ℚ)
      · left
        rw [updateStatusAgent_onset e ds a hs hinc hon]
        exact onsetBlock_status e _
      · by_cases ht : 0 < a.treatment_timer
        · rw [updateStatusAgent_hospital e ds a hs hinc hon ht]
          dsimp only
          rcases ventilatorBlock_status e (icuBlock e (wardBlock e
            { a := { a with prob := 1, disease_counter := a.disease_counter + 1,
                            treatment_timer := a.treatment_timer - 1 }, ds := ds, k := 0 }))
            with hv | ⟨_, hv⟩
          · rw [hv]
            rcases icuBlock_status e (wardBlock e
              { a := { a with prob := 1, disease_counter := a.disease_counter + 1,
                              treatment_timer := a.treatment_timer - 1 }, ds := ds, k := 0 })
              with hi | ⟨_, hi⟩
            · rw [hi]
              rcases wardBlock_status e
                { a := { a with prob := 1, disease_counter := a.disease_counter + 1,
                                treatment_timer := a.treatment_timer - 1 }, ds := ds, k := 0 }
                with hw | ⟨_, hw⟩
              · left
                rw [hw]
              · right
                exact hw
            · right
              exact hi
          · right
            exact hv
        · unfold updateStatusAgent
          simp only [hs, if_neg hinc, if_neg hon]
          norm_num [ht]
          split_ifs
          · right; left; rfl
          · left; rfl
  · left
    rw [updateStatusAgent_not_infected e ds a hs]

theorem updateStatusAgent_statusValid (e : Nat → ℚ) (ds : Stats) (a : Agent)
    (h : statusValid a) : statusValid (updateStatusAgent e ds a).1 := by
  unfold statusValid at h ⊢
  rcases updateStatusAgent_status_cases e ds a with h1 | h1 | h1 <;> rw [h1]
  · exact h
  · decide
  · decide

theorem infectAgentsAgent_statusValid (lparm : DiseaseParm) (e : Nat → ℚ)
    (nrm : ℚ → ℚ → Nat → ℚ) (a : Agent) (h : statusValid a) :
    statusValid (infectAgentsAgent lparm e nrm a) := by
  unfold statusValid at h ⊢
  unfold infectAgentsAgent
  dsimp only
  split_ifs
  · exact ⟨by show (0 : Int) ≤ 1; decide, by show (1 : Int) ≤ 4; decide⟩
  · exact h
  · exact h

theorem sameAgentCount_of_forall₂ (ag ag' : List Agent)
    (h : List.Forall₂ (fun a a' => statusValid a → statusValid a') ag ag') :
    sameAgentCount ag ag' := by
  refine ⟨h.length_eq.symm, ?_⟩
  intro hv b hb
  obtain ⟨a, ha, hab⟩ := forall₂_mem_right h b hb
  exact hab (hv a ha)

theorem infectAgentsFrom_forall₂ (P : Agent → Agent → Prop) (lparm : DiseaseParm)
    (e : Nat → Nat → ℚ) (nrm : Nat → ℚ → ℚ → Nat → ℚ)
    (hP : ∀ i a, P a (infectAgentsAgent lparm (e i) (nrm i) a)) :
    ∀ (ag : List Agent) (i : Nat), List.Forall₂ P ag (infectAgentsFrom lparm e nrm i ag)
  | [], _ => by simp [infectAgentsFrom]
  | a :: rest, i => by
    simp only [infectAgentsFrom]
    exact List.Forall₂.cons (hP i a) (infectAgentsFrom_forall₂ P lparm e nrm hP rest (i + 1))

theorem moveAgentsRandomWalkFrom_forall₂ (P : Agent → Agent → Prop) (dx : ℚ × ℚ)
    (e : Nat → Nat → ℚ) (hP : ∀ i a, P a (moveAgentsRandomWalkAgent dx (e i) a)) :
    ∀ (ag : List Agent) (i : Nat), List.Forall₂ P ag (moveAgentsRandomWalkFrom dx e i ag)
  | [], _ => by simp [moveAgentsRandomWalkFrom]
  | a :: rest, i => by
    simp only [moveAgentsRandomWalkFrom]
    exact List.Forall₂.cons (hP i a) (moveAgentsRandomWalkFrom_forall₂ P dx e hP rest (i + 1))

theorem moveRandomTravelFrom_forall₂ (P : Agent → Agent → Prop)
    (e : Nat → Nat → ℚ) (hP : ∀ i a, P a (moveRandomTravelAgent (e i) a)) :
    ∀ (ag : List Agent) (i : Nat), List.Forall₂ P ag (moveRandomTravelFrom e i ag)
  | [], _ => by simp [moveRandomTravelFrom]
  | a :: rest, i => by
    simp only [moveRandomTravelFrom]
    exact List.Forall₂.cons (hP i a) (moveRandomTravelFrom_forall₂ P e hP rest (i + 1))

theorem map_forall₂ (P : Agent → Agent → Prop) (f : Agent → Agent) (hP : ∀ a, P a (f a)) :
    ∀ (ag : List Agent), List.Forall₂ P ag (ag.map f)
  | [] => List.Forall₂.nil
  | a :: rest => List.Forall₂.cons (hP a) (map_forall₂ P f hP rest)

/-- Invariant rule of `interactAgents`: a property of the store that holds on entry and is
kept by every iteration of the second pass holds on exit. -/
theorem interactAgents_invariant (engine : Nat → Nat → ℚ) (bins : Bins) (Q : List Agent → Prop)
    (hstep : ∀ (e : Nat → ℚ) (num : Nat × Nat) (s s' : List Agent × Nat) (i : Nat),
      Q s.1 → infectStep e bins.inds num s i = some s' → Q s'.1)
    (ag ag' : List Agent) (hQ : Q ag) (h : interactAgents engine bins ag = some ag') : Q ag' := by
  unfold interactAgents at h
  refine foldlM_option_invariant _ Q _ ?_ ag ag' hQ h
  intro b i_cell b' _ hb hcell
  unfold interactAgentsCell at hcell
  cases hcs : bins.offsets[i_cell]? with
  | none => rw [hcs] at hcell; cases hcell
  | some cs =>
    cases hce : bins.offsets[i_cell + 1]? with
    | none => rw [hcs, hce] at hcell; cases hcell
    | some ce =>
      rw [hcs, hce] at hcell
      simp only [Option.bind_eq_bind, Option.some_bind] at hcell
      cases hn : (List.range' cs (ce - cs)).foldlM (countInfectedStep bins.inds b) (0, 0) with
      | none => rw [hn] at hcell; cases hcell
      | some num =>
        rw [hn] at hcell
        simp only [Option.some_bind] at hcell
        cases hs : (List.range' cs (ce - cs)).foldlM (infectStep (engine i_cell) bins.inds num)
            (b, 0) with
        | none => rw [hs] at hcell; cases hcell
        | some s =>
          rw [hs] at hcell
          simp only [Option.some_bind, Option.pure_def, Option.some.injEq] at hcell
          rw [← hcell]
          exact foldlM_option_invariant (infectStep (engine i_cell) bins.inds num)
            (fun s => Q s.1) _
            (fun s x s' _ hQs hst => hstep (engine i_cell) num s s' x hQs hst)
            (b, 0) s hb hs

/-- One iteration of the second pass of `interactAgents` leaves the store as it is or
replaces one agent that is neither infected nor immune by an infected copy. -/
theorem infectStep_cases (e : Nat → ℚ) (inds : List Nat) (num : Nat × Nat)
    (s s' : List Agent × Nat) (i : Nat) (h : infectStep e inds num s i = some s') :
    s'.1 = s.1 ∨ ∃ pindex a strain, s.1[pindex]? = some a ∧ a.status ≠ Status.infected ∧
      a.status ≠ Status.immune ∧
      s'.1 = s.1.set pindex
        { a with strain := strain, status := Status.infected, disease_counter := 0 } := by
  unfold infectStep at h
  cases hp : inds[i]? with
  | none => rw [hp] at h; cases h
  | some pindex =>
    rw [hp] at h
    simp only [Option.bind_eq_bind, Option.some_bind] at h
    cases ha : s.1[pindex]? with
    | none => rw [ha] at h; cases h
    | some a =>
      rw [ha] at h
      simp only [Option.some_bind, Option.pure_def] at h
      split_ifs at h with h1 h2 h3 <;> simp only [Option.some.injEq] at h <;> subst h
      · exact Or.inr ⟨pindex, a, 0, ha, h1.1, h1.2, rfl⟩
      · exact Or.inr ⟨pindex, a, 1, ha, h1.1, h1.2, rfl⟩
      · exact Or.inl rfl
      · exact Or.inl rfl

theorem sameAgentCount_refl (ag : List Agent) : sameAgentCount ag ag := ⟨rfl, fun h => h⟩

theorem sameAgentCount_set (ag b : List Agent) (n : Nat) (a : Agent) (h : sameAgentCount ag b)
    (ha : statusValid a) : sameAgentCount ag (b.set n a) := by
  refine ⟨by rw [List.length_set]; exact h.1, ?_⟩
  intro hv c hc
  rcases List.mem_or_eq_of_mem_set hc with hc | rfl
  · exact h.2 hv c hc
  · exact ha

theorem interactAgents_sameAgentCount (engine : Nat → Nat → ℚ) (bins : Bins)
    (ag ag' : List Agent) (h : interactAgents engine bins ag = some ag') :
    sameAgentCount ag ag' := by
  refine interactAgents_invariant engine bins (sameAgentCount ag) ?_ ag ag'
    (sameAgentCount_refl ag) h
  intro e num s s' i hQ hst
  rcases infectStep_cases e bins.inds num s s' i hst with h1 | ⟨pindex, a, strain, _, _, _, h1⟩
  · rw [h1]; exact hQ
  · rw [h1]
    exact sameAgentCount_set ag s.1 pindex _ hQ
      ⟨by show (0 : Int) ≤ 1; decide, by show (1 : Int) ≤ 4; decide⟩

theorem interactAgentsHomeWorkKernel_sameAgentCount (lparm : DiseaseParm) (home : Bool)
    (binner : ℚ → ℚ → Nat) (bins : Bins) (ag ag' : List Agent)
    (h : interactAgentsHomeWorkKernel lparm home binner bins ag = some ag') :
    sameAgentCount ag ag' := by
  apply sameAgentCount_of_forall₂
  refine (interactAgentsHomeWorkKernel_sameButProb lparm home binner bins ag ag' h).imp ?_
  intro a a' hab hv
  unfold sameButProb at hab
  rw [hab]
  exact hv

/-- C22: `printTotals` returns, for a store of agents with statuses in `0..4`, five counts
of which the `s`-th is the number of agents of status `s`; whenever it returns, the counts
are these and their sum is the number of agents. Each kernel returns a store of as many
agents, with statuses in `0..4` when they were so on entry, so that the sum of the counts
is the same after it. -/
theorem printTotals_partition (ag : List Agent) :
    ((∀ a ∈ ag, statusValid a) → ∃ c, printTotals ag = some c) ∧
      (∀ c, printTotals ag = some c →
        c.never = countStatus Status.never ag ∧ c.infected = countStatus Status.infected ag ∧
          c.immune = countStatus Status.immune ag ∧
          c.susceptible = countStatus Status.susceptible ag ∧
          c.dead = countStatus Status.dead ag ∧
          c.never + c.infected + c.immune + c.susceptible + c.dead = (ag.length : Int)) ∧
      (∀ e ds, sameAgentCount ag (updateStatus e ds ag).1) ∧
      (∀ lparm e nrm, sameAgentCount ag (infectAgents lparm e nrm ag)) ∧
      (∀ e bins ag', interactAgents e bins ag = some ag' → sameAgentCount ag ag') ∧
      (∀ lparm home binner bins ag',
        interactAgentsHomeWorkKernel lparm home binner bins ag = some ag' →
          sameAgentCount ag ag') ∧
      (∀ dx, sameAgentCount ag (moveAgentsToHome dx ag)) ∧
      (∀ dx, sameAgentCount ag (moveAgentsToWork dx ag)) ∧
      (∀ dx e, sameAgentCount ag (moveAgentsRandomWalk dx e ag)) ∧
      (∀ e, sameAgentCount ag (moveRandomTravel e ag)) := by
  refine ⟨printTotals_isSome ag, ?_, ?_, ?_, ?_, ?_, ?_, ?_, ?_, ?_⟩
  · intro c hc
    obtain ⟨hv, h0, h1, h2, h3, h4⟩ := printTotals_counts ag c hc
    refine ⟨h0, h1, h2, h3, h4, ?_⟩
    rw [h0, h1, h2, h3, h4]
    exact countStatus_sum ag hv
  · intro e ds
    exact sameAgentCount_of_forall₂ _ _
      (updateStatusFrom_forall₂ _ e (fun i ds a => updateStatusAgent_statusValid (e i) ds a)
        ag 0 ds)
  · intro lparm e nrm
    exact sameAgentCount_of_forall₂ _ _
      (infectAgentsFrom_forall₂ _ lparm e nrm
        (fun i a => infectAgentsAgent_statusValid lparm (e i) (nrm i) a) ag 0)
  · intro e bins ag' h
    exact interactAgents_sameAgentCount e bins ag ag' h
  · intro lparm home binner bins ag' h
    exact interactAgentsHomeWorkKernel_sameAgentCount lparm home binner bins ag ag' h
  · intro dx
    exact sameAgentCount_of_forall₂ _ _ (map_forall₂ _ _ (fun a h => h) ag)
  · intro dx
    exact sameAgentCount_of_forall₂ _ _ (map_forall₂ _ _ (fun a h => h) ag)
  · intro dx e
    exact sameAgentCount_of_forall₂ _ _
      (moveAgentsRandomWalkFrom_forall₂ _ dx e (fun i a h => h) ag 0)
  · intro e
    refine sameAgentCount_of_forall₂ _ _ (moveRandomTravelFrom_forall₂ _ e ?_ ag 0)
    intro i a h
    unfold moveRandomTravelAgent
    split_ifs
    · exact h
    · exact h

/-- C22, at the store `[agentInfected, agentZero, agentDead]`: the counts are
`1, 1, 0, 0, 1`, and they sum to `3`. -/
theorem printTotals_partition_witness :
    printTotals [agentInfected, agentZero, agentDead] =
        some { never := 1, infected := 1, immune := 0, susceptible := 0, dead := 1 } ∧
      ∀ c, printTotals [agentInfected, agentZero, agentDead] = some c →
        c.never + c.infected + c.immune + c.susceptible + c.dead = 3 := by
  refine ⟨by decide, fun c hc => ?_⟩
  have h := ((printTotals_partition [agentInfected, agentZero, agentDead]).2.1 c hc).2.2.2.2.2
  simpa using h

/-! ## Theorems: the simple cell mode (`interactAgents`) -/

theorem countInfectedStep_eq (inds : List Nat) (ag : List Agent) (n n' : Nat × Nat) (i : Nat)
    (h : countInfectedStep inds ag n i = some n') :
    n' = (n.1 + (if infectedAt inds ag 0 i then 1 else 0),
          n.2 + (if infectedAt inds ag 1 i then 1 else 0)) := by
  unfold countInfectedStep at h
  cases hp : inds[i]? with
  | none => rw [hp] at h; cases h
  | some pindex =>
    rw [hp] at h
    simp only [Option.bind_eq_bind, Option.some_bind] at h
    cases ha : ag[pindex]? with
    | none => rw [ha] at h; cases h
    | some a =>
      rw [ha] at h
      simp only [Option.some_bind, Option.pure_def] at h
      have key : ∀ st : Int, infectedAt inds ag st i = decide (a.status = 1 ∧ a.strain = st) := by
        intro st
        simp only [infectedAt, hp, ha]
      rw [key 0, key 1]
      by_cases h1 : a.status = 1
      · by_cases h2 : a.strain = 0
        · rw [if_pos h1, if_pos h2] at h
          simp only [Option.some.injEq] at h
          subst h
          simp [h1, h2]
        · by_cases h3 : a.strain = 1
          · rw [if_pos h1, if_neg h2, if_pos h3] at h
            simp only [Option.some.injEq] at h
            subst h
            simp [h1, h3]
          · rw [if_pos h1, if_neg h2, if_neg h3] at h
            cases h
      · rw [if_neg h1] at h
        simp only [Option.some.injEq] at h
        subst h
        simp [h1]

theorem countInfected_fold (inds : List Nat) (ag : List Agent) :
    ∀ (l : List Nat) (n n' : Nat × Nat), l.foldlM (countInfectedStep inds ag) n = some n' →
      n' = (n.1 + numInfected inds ag 0 l, n.2 + numInfected inds ag 1 l)
  | [], n, n', h => by
    simp only [List.foldlM_nil, Option.pure_def, Option.some.injEq] at h
    subst h
    simp [numInfected]
  | i :: l, n, n', h => by
    rw [List.foldlM_cons] at h
    cases hx : countInfectedStep inds ag n i with
    | none => rw [hx] at h; cases h
    | some n1 =>
      rw [hx] at h
      simp only [Option.bind_eq_bind, Option.some_bind] at h
      have h1 := countInfectedStep_eq inds ag n n1 i hx
      have h2 := countInfected_fold inds ag l n1 n' h
      rw [h2, h1]
      simp only [numInfected, List.countP_cons]
      ext <;> simp only <;> omega

/-- One iteration of the second pass of `interactAgents` in closed form. -/
theorem infectStep_eq (e : Nat → ℚ) (inds : List Nat) (num : Nat × Nat)
    (s : List Agent × Nat) (i pindex : Nat) (a : Agent) (hp : inds[i]? = some pindex)
    (ha : s.1[pindex]? = some a) :
    infectStep e inds num s i = some
      (if a.status ≠ Status.infected ∧ a.status ≠ Status.immune then
        if e s.2 < (1/10000 : ℚ) * (num.1 : ℚ) then
          (s.1.set pindex
            { a with strain := 0, status := Status.infected, disease_counter := 0 }, s.2 + 1)
        else if e (s.2 + 1) < (2/10000 : ℚ) * (num.2 : ℚ) then
          (s.1.set pindex
            { a with strain := 1, status := Status.infected, disease_counter := 0 }, s.2 + 2)
        else (s.1, s.2 + 2)
      else s) := by
  unfold infectStep
  rw [hp]
  simp only [Option.bind_eq_bind, Option.some_bind]
  rw [ha]
  simp only [Option.some_bind, Option.pure_def]
  split_ifs <;> rfl

/-- With no infected agent counted and draws that are not negative, one iteration of the
second pass leaves the store as it is. -/
theorem infectStep_none_infected (e : Nat → ℚ) (inds : List Nat) (s s' : List Agent × Nat)
    (i : Nat) (he : ∀ k, 0 ≤ e k) (h : infectStep e inds (0, 0) s i = some s') :
    s'.1 = s.1 := by
  unfold infectStep at h
  cases hp : inds[i]? with
  | none => rw [hp] at h; cases h
  | some pindex =>
    rw [hp] at h
    simp only [Option.bind_eq_bind, Option.some_bind] at h
    cases ha : s.1[pindex]? with
    | none => rw [ha] at h; cases h
    | some a =>
      rw [ha] at h
      simp only [Option.some_bind, Option.pure_def, Nat.cast_zero, mul_zero] at h
      have h1 : ¬ e s.2 < 0 := not_lt.mpr (he _)
      have h2 : ¬ e (s.2 + 1) < 0 := not_lt.mpr (he _)
      rw [if_neg h1, if_neg h2] at h
      split_ifs at h <;> simp only [Option.some.injEq] at h <;> subst h <;> rfl

/-- The body of `interactAgents` for one cell is the second pass run with the numbers of
infected agents of the two strains in the cell on entry. -/
theorem interactAgentsCell_eq (e : Nat → ℚ) (bins : Bins) (ag ag' : List Agent) (i_cell : Nat)
    (h : interactAgentsCell e bins ag i_cell = some ag') :
    ∃ cs ce k, bins.offsets[i_cell]? = some cs ∧ bins.offsets[i_cell + 1]? = some ce ∧
      (List.range' cs (ce - cs)).foldlM
        (infectStep e bins.inds
          (numInfected bins.inds ag 0 (List.range' cs (ce - cs)),
           numInfected bins.inds ag 1 (List.range' cs (ce - cs)))) (ag, 0) = some (ag', k) := by
  unfold interactAgentsCell at h
  cases hcs : bins.offsets[i_cell]? with
  | none => rw [hcs] at h; cases h
  | some cs =>
    cases hce : bins.offsets[i_cell + 1]? with
    | none => rw [hcs, hce] at h; cases h
    | some ce =>
      rw [hcs, hce] at h
      simp only [Option.bind_eq_bind, Option.some_bind] at h
      cases hn : (List.range' cs (ce - cs)).foldlM (countInfectedStep bins.inds ag) (0, 0) with
      | none => rw [hn] at h; cases h
      | some num =>
        rw [hn] at h
        simp only [Option.some_bind] at h
        have hnum := countInfected_fold bins.inds ag _ (0, 0) num hn
        simp only [Nat.zero_add] at hnum
        cases hs : (List.range' cs (ce - cs)).foldlM (infectStep e bins.inds num) (ag, 0) with
        | none => rw [hs] at h; cases h
        | some s =>
          rw [hs] at h
          simp only [Option.some_bind, Option.pure_def, Option.some.injEq] at h
          refine ⟨cs, ce, s.2, rfl, rfl, ?_⟩
          rw [← hnum, hs, ← h]

/-- C21: in `interactAgents` the first pass over a cell counts the infected agents of
strain 0 and of strain 1 of the cell on entry, `n0` and `n1`; the second pass visits the
agents of the cell with these counts, and a visited agent whose status is neither infected
nor immune becomes infected with strain 0 and `disease_counter` 0 iff its first draw is
below `n0 / 10000`, otherwise infected with strain 1 and `disease_counter` 0 iff its second
draw is below `2 * n1 / 10000`, otherwise it is unchanged, and an infected or immune agent
is unchanged. A cell with no infected agent is left as it is for draws in `[0, 1)`,
infected or immune agents of the store on entry are the same on exit, and the kernel
returns a store when the bins fit the store. -/
theorem interactAgents_rule (engine : Nat → Nat → ℚ) (bins : Bins) (ag : List Agent) :
    (∀ i_cell ag', interactAgentsCell (engine i_cell) bins ag i_cell = some ag' →
      ∃ cs ce k, bins.offsets[i_cell]? = some cs ∧ bins.offsets[i_cell + 1]? = some ce ∧
        (List.range' cs (ce - cs)).foldlM
          (infectStep (engine i_cell) bins.inds
            (numInfected bins.inds ag 0 (List.range' cs (ce - cs)),
             numInfected bins.inds ag 1 (List.range' cs (ce - cs)))) (ag, 0) = some (ag', k)) ∧
      (∀ (e : Nat → ℚ) (num : Nat × Nat) (s : List Agent × Nat) (i pindex : Nat) (a : Agent),
        bins.inds[i]? = some pindex → s.1[pindex]? = some a →
          infectStep e bins.inds num s i = some
            (if a.status ≠ Status.infected ∧ a.status ≠ Status.immune then
              if e s.2 < (1/10000 : ℚ) * (num.1 : ℚ) then
                (s.1.set pindex
                  { a with strain := 0, status := Status.infected, disease_counter := 0 },
                 s.2 + 1)
              else if e (s.2 + 1) < (2/10000 : ℚ) * (num.2 : ℚ) then
                (s.1.set pindex
                  { a with strain := 1, status := Status.infected, disease_counter := 0 },
                 s.2 + 2)
              else (s.1, s.2 + 2)
            else s)) ∧
      (∀ i_cell cs ce ag', bins.offsets[i_cell]? = some cs →
        bins.offsets[i_cell + 1]? = some ce →
        numInfected bins.inds ag 0 (List.range' cs (ce - cs)) = 0 →
        numInfected bins.inds ag 1 (List.range' cs (ce - cs)) = 0 →
        (∀ k, 0 ≤ engine i_cell k ∧ engine i_cell k < 1) →
        interactAgentsCell (engine i_cell) bins ag i_cell = some ag' → ag' = ag) ∧
      (∀ ag', interactAgents engine bins ag = some ag' →
        ∀ (n : Nat) (a : Agent), ag[n]? = some a →
          a.status = Status.infected ∨ a.status = Status.immune → ag'[n]? = some a) ∧
      (CellBinsFit bins ag → ∃ ag', interactAgents engine bins ag = some ag') := by
  refine ⟨fun i_cell ag' h => interactAgentsCell_eq (engine i_cell) bins ag ag' i_cell h,
    fun e num s i pindex a hp ha => infectStep_eq e bins.inds num s i pindex a hp ha,
    ?_, ?_, interactAgents_total engine bins ag⟩
  · intro i_cell cs ce ag' hcs hce h0 h1 he h
    obtain ⟨cs', ce', k, hcs', hce', hf⟩ := interactAgentsCell_eq (engine i_cell) bins ag ag'
      i_cell h
    rw [hcs] at hcs'
    rw [hce] at hce'
    simp only [Option.some.injEq] at hcs' hce'
    subst hcs' hce'
    rw [h0, h1] at hf
    exact foldlM_option_invariant (infectStep (engine i_cell) bins.inds (0, 0))
      (fun s => s.1 = ag) _
      (fun s x s' _ hQ hst =>
        (infectStep_none_infected (engine i_cell) bins.inds s s' x (fun k => (he k).1) hst).trans
          hQ)
      (ag, 0) (ag', k) rfl hf
  · intro ag' h
    refine interactAgents_invariant engine bins
      (fun b => ∀ (n : Nat) (a : Agent), ag[n]? = some a →
        a.status = Status.infected ∨ a.status = Status.immune → b[n]? = some a)
      ?_ ag ag' (fun n a ha _ => ha) h
    intro e num s s' i hQ hst n a ha hs
    rcases infectStep_cases e bins.inds num s s' i hst with h1 | ⟨pindex, a0, strain, hp, hn1, hn2, h1⟩
    · rw [h1]; exact hQ n a ha hs
    · rw [h1]
      have hsn := hQ n a ha hs
      by_cases hpn : pindex = n
      · subst hpn
        rw [hsn] at hp
        simp only [Option.some.injEq] at hp
        subst hp
        rcases hs with hs | hs
        · exact absurd hs hn1
        · exact absurd hs hn2
      · rw [List.getElem?_set_ne hpn]
        exact hsn

/-- C21, at the cell `[agentInfected, agentZero]` with every draw equal to `0`: the agent
that was never infected becomes infected with strain `0`, and the infected agent is
unchanged. -/
theorem interactAgents_rule_witness :
    interactAgents (fun _ => engineZero) binsOneCell [agentInfected, agentZero] =
        some [agentInfected,
          { agentZero with strain := 0, status := Status.infected, disease_counter := 0 }] ∧
      ∀ ag', interactAgents (fun _ => engineZero) binsOneCell [agentInfected, agentZero] =
        some ag' → ag'[0]? = some agentInfected := by
  constructor
  · simp [interactAgents, interactAgentsCell, infectStep, countInfectedStep, binsOneCell,
      agentInfected, agentZero, engineZero, Bins.numBins, List.range_succ,
      List.range', List.foldlM]
  · intro ag' h
    exact (interactAgents_rule (fun _ => engineZero) binsOneCell
      [agentInfected, agentZero]).2.2.2.1 ag' h 0 agentInfected rfl (Or.inl rfl)

/-! ## Theorems: `initAgentsCensus` -/

/-- C26 (the code at the failing input): with the default table
`{330, 670, 800, 900, 970, 990, 1000}` the draws `0`, `329`, `500` and `670` all give the
family size `1`, the draw `671` gives `2`, and the draws `990` and `999` give `5` and `6`;
the loop starts at index `1` of the table, so the entry `330` is never read and the size
`7` is never chosen. -/
theorem familySize_default_table :
    householdTable 0 0 0 0 0 0 0 = [330, 670, 800, 900, 970, 990, 1000] ∧
      familySize (householdTable 0 0 0 0 0 0 0) 0 = some 1 ∧
      familySize (householdTable 0 0 0 0 0 0 0) 329 = some 1 ∧
      familySize (householdTable 0 0 0 0 0 0 0) 500 = some 1 ∧
      familySize (householdTable 0 0 0 0 0 0 0) 670 = some 1 ∧
      familySize (householdTable 0 0 0 0 0 0 0) 671 = some 2 ∧
      familySize (householdTable 0 0 0 0 0 0 0) 990 = some 5 ∧
      familySize (householdTable 0 0 0 0 0 0 0) 999 = some 6 := by
  decide

/-- C27 (the code at the failing input): on a box of one cell whose community has size
`0`, with the household draw `700` and every draw of the second kernel `50`, one family
of size `2` is counted and two agents are created, the total `nr_arr(.., 5)` is `2`, and
the age counts `nr_arr(.., 0..4)` are `0, 0, 0, 4, 0`, of sum `4`: each of the two
iterations of the loop over the agents of the family adds the two adults of the family. -/
theorem initAgentsCensus_age_counts_exceed_total :
    (initAgentsCensus demoSmall (fun _ _ => 700) (fun _ _ _ => 50) (1, 1) agentZero
        [(0, 0, 0)]).map
        (fun r => (r.1.length, r.2.map (fun c => (c.nf, c.ageCounts, c.nr 5)))) =
      some (2, [([0, 1, 0, 0, 0, 0, 0], [0, 0, 0, 4, 0], 2)]) := by
  decide

/-- C28 (the code at the failing input): on a box of one cell, with the household draw
`850` and every draw of the second kernel `50`, one family of size `3` is counted and
three agents are created; each of them is stored with the age group `0` of the last child
drawn in its iteration and with a family id of its own, so no stored agent has an adult
age group, while the age counts record two adults of group `3` in each iteration. -/
theorem initAgentsCensus_large_household_no_adult :
    (initAgentsCensus demoSmall (fun _ _ => 850) (fun _ _ _ => 50) (1, 1) agentZero
        [(0, 0, 0)]).map
        (fun r => (r.1.map (fun a => (a.age_group, a.family)),
          r.2.map (fun c => (c.nf, c.ageCounts)))) =
      some ([(0, 0), (0, 1), (0, 2)], [([0, 0, 1, 0, 0, 0, 0], [3, 0, 0, 6, 0])]) := by
  decide

/-- C30 (the code at the failing input): in a unit of population `3500` whose first
community is number `0`, the community number `1` is given the size `2000`, although only
`1500` residents of the unit remain after the first community; and with a remainder of
`900` (population `2900`) the size is `0`, with a remainder of exactly `1000` it is
`2000`. -/
theorem communitySize_last_community :
    communitySize 3500 0 0 = 2000 ∧ communitySize 3500 0 1 = 2000 ∧
      communitySize 3500 0 2 = 0 ∧ communitySize 2900 0 1 = 0 ∧
      communitySize 3000 0 1 = 2000 := by
  decide

theorem censusAgent_thread (engine : Nat → Int) (i j : Int) (dx : ℚ × ℚ)
    (family_size p_schoolage : Int) (agent : Agent) (t : CensusThread) :
    (censusAgent engine i j dx family_size p_schoolage agent t).2 =
      censusStep engine family_size p_schoolage t := by
  unfold censusStep censusAgent
  dsimp only
  split_ifs <;> rfl

/-- The loop over `ip` writes the slots `ip .. ip + m - 1` only, each with the result of
its iteration on the state of the thread after the iterations before it. -/
theorem censusBlockLoop_spec (engine : Nat → Int) (i j : Int) (dx : ℚ × ℚ)
    (family_size p_schoolage : Int) :
    ∀ (m ip : Nat) (agents : List Agent) (t : CensusThread) (r : List Agent × CensusThread),
      censusBlockLoop engine i j dx family_size p_schoolage m ip (agents, t) = some r →
      r.1.length = agents.length ∧
        r.2 = censusThreadAfter engine family_size p_schoolage m t ∧
        (∀ x : Nat, x < ip ∨ ip + m ≤ x → r.1[x]? = agents[x]?) ∧
        ∀ q : Nat, q < m → r.1[ip + q]? = (agents[ip + q]?).map (fun slot =>
          (censusAgent engine i j dx family_size p_schoolage slot
            (censusThreadAfter engine family_size p_schoolage q t)).1)
  | 0, ip, agents, t, r, h => by
    simp only [censusBlockLoop, Option.some.injEq] at h
    subst h
    exact ⟨rfl, rfl, fun _ _ => rfl, fun q hq => absurd hq (Nat.not_lt_zero q)⟩
  | m + 1, ip, agents, t, r, h => by
    simp only [censusBlockLoop, Option.bind_eq_bind] at h
    cases ha : agents[ip]? with
    | none => rw [ha] at h; cases h
    | some slot =>
      rw [ha] at h
      simp only [Option.some_bind] at h
      obtain ⟨hlen, hthr, hout, hin⟩ := censusBlockLoop_spec engine i j dx family_size
        p_schoolage m (ip + 1) _ _ r h
      have hlt : ip < agents.length := by
        rcases Nat.lt_or_ge ip agents.length with h1 | h1
        · exact h1
        · rw [List.getElem?_eq_none h1] at ha; cases ha
      refine ⟨?_, ?_, ?_, ?_⟩
      · rw [hlen, List.length_set]
      · rw [hthr, censusAgent_thread]
        rfl
      · intro x hx
        rw [hout x (by omega), List.getElem?_set_ne (by omega)]
      · intro q hq
        cases q with
        | zero =>
          rw [Nat.add_zero, hout ip (Or.inl (Nat.lt_succ_self ip)),
            List.getElem?_set_self hlt, ha]
          rfl
        | succ q =>
          have hq' : q < m := by omega
          have := hin q hq'
          rw [show ip + (q + 1) = ip + 1 + q by omega, this,
            List.getElem?_set_ne (by omega), censusAgent_thread]
          rfl

/-- The loop over `ip` returns when the slots `ip .. ip + m - 1` exist. -/
theorem censusBlockLoop_total (engine : Nat → Int) (i j : Int) (dx : ℚ × ℚ)
    (family_size p_schoolage : Int) :
    ∀ (m ip : Nat) (agents : List Agent) (t : CensusThread), ip + m ≤ agents.length →
      ∃ r, censusBlockLoop engine i j dx family_size p_schoolage m ip (agents, t) = some r
  | 0, _, agents, t, _ => ⟨(agents, t), rfl⟩
  | m + 1, ip, agents, t, h => by
    have hlt : ip < agents.length := by omega
    simp only [censusBlockLoop, Option.bind_eq_bind, List.getElem?_eq_getElem hlt,
      Option.some_bind]
    exact censusBlockLoop_total engine i j dx family_size p_schoolage m (ip + 1) _ _
      (by rw [List.length_set]; omega)

theorem censusAgent_single (engine : Nat → Int) (i j : Int) (dx : ℚ × ℚ) (p_schoolage : Int)
    (agent : Agent) (t : CensusThread) :
    (censusAgent engine i j dx 1 p_schoolage agent t).1.age_group = singleAge (engine t.k) ∧
      (censusAgent engine i j dx 1 p_schoolage agent t).2.k = t.k + 2 := by
  have h2 : singleAge (engine t.k) = 2 ∨ singleAge (engine t.k) = 3 ∨
      singleAge (engine t.k) = 4 := by
    unfold singleAge
    split_ifs <;> simp
  have hage : (censusAges engine 1 p_schoolage t.nr t.k).2.1 = singleAge (engine t.k) := by
    simp [censusAges, singleAge]
  have hk : (censusAges engine 1 p_schoolage t.nr t.k).2.2.2 = t.k + 2 := by
    simp [censusAges]
  unfold censusAgent
  dsimp only
  rw [hage, hk]
  rcases h2 with h | h | h <;> rw [h] <;> simp

theorem censusThreadAfter_single_k (engine : Nat → Int) (p_schoolage : Int) :
    ∀ (q : Nat) (t : CensusThread), (censusThreadAfter engine 1 p_schoolage q t).k = t.k + 2 * q
  | 0, t => rfl
  | q + 1, t => by
    simp only [censusThreadAfter]
    rw [censusThreadAfter_single_k engine p_schoolage q, censusStep,
      (censusAgent_single engine 0 0 (0, 0) p_schoolage agentZero t).2]
    ring

theorem singleAge_adult (il2 : Int) : singleAge il2 = 2 ∨ singleAge il2 = 3 ∨ singleAge il2 = 4 := by
  unfold singleAge
  split_ifs <;> simp

/-- C29: the block of the households of size `1` of a cell (component `0`, `nf` families
from the slot `start` on, the slots being allocated) returns, and the agent it creates in
the slot `start + m` has the age group `4` when its draw `il2`, the value `2 * m` of the
engine of the block, is below `28`, `3` when `28 <= il2 < 68`, and `2` otherwise; so its
age group is in `{2, 3, 4}`. -/
theorem censusBlock_single_household (engine : Nat → Int) (i j : Int) (dx : ℚ × ℚ)
    (nf community_size n5 n17 family_id start : Int) (agents : List Agent) (nr : Int → Int)
    (hnf : 0 ≤ nf) (hstart : 0 ≤ start) (hslots : start + nf ≤ (agents.length : Int)) :
    ∃ r, censusBlock engine i j dx 0 nf community_size n5 n17 family_id start agents nr =
        some r ∧
      ∀ m : Nat, (m : Int) < nf → ∃ a, r.1[start.toNat + m]? = some a ∧
        a.age_group =
          (if engine (2 * m) < 28 then 4 else if engine (2 * m) < 68 then 3 else 2) ∧
        (a.age_group = 2 ∨ a.age_group = 3 ∨ a.age_group = 4) := by
  have hfs : ((0 : Nat) : Int) + 1 = 1 := by norm_num
  have hle : start.toNat + nf.toNat ≤ agents.length := by omega
  obtain ⟨r, hr⟩ := censusBlockLoop_total engine i j dx 1
    (schoolAge community_size n5 n17) nf.toNat start.toNat agents
    { nr := nr, family_id := family_id, k := 0 } hle
  refine ⟨(r.1, r.2.nr), ?_, ?_⟩
  · unfold censusBlock
    simp only [hfs, one_mul, Option.bind_eq_bind, hr, Option.some_bind, Option.pure_def]
  · intro m hm
    obtain ⟨hlen, _, _, hin⟩ := censusBlockLoop_spec engine i j dx 1
      (schoolAge community_size n5 n17) nf.toNat start.toNat agents _ r hr
    have hm' : m < nf.toNat := by omega
    have hlt : start.toNat + m < agents.length := by omega
    have h1 := hin m hm'
    rw [List.getElem?_eq_getElem hlt] at h1
    simp only [Option.map_some'] at h1
    refine ⟨_, h1, ?_, ?_⟩
    · rw [(censusAgent_single engine i j dx _ _ _).1, censusThreadAfter_single_k]
      simp only [Nat.zero_add]
      rfl
    · rw [(censusAgent_single engine i j dx _ _ _).1]
      exact singleAge_adult _

/-- C29, at a block of two households of size `1` with the draws `10, 0, 70, 0` on two
allocated slots: the block returns, and the two agents have the age groups `4` and `2`. -/
theorem censusBlock_single_household_witness :
    ∃ r, censusBlock (fun k => if k = 0 then 10 else if k = 2 then 70 else 0) 0 0 (1, 1) 0 2
        2000 0 0 0 0 [agentZero, agentZero] (fun _ => 0) = some r ∧
      ∀ m : Nat, (m : Int) < 2 → ∃ a, r.1[(0 : Int).toNat + m]? = some a ∧
        a.age_group =
          (if (fun k => if k = 0 then (10 : Int) else if k = 2 then 70 else 0) (2 * m) < 28
            then 4
           else if (fun k => if k = 0 then (10 : Int) else if k = 2 then 70 else 0) (2 * m) < 68
            then 3 else 2) ∧
        (a.age_group = 2 ∨ a.age_group = 3 ∨ a.age_group = 4) :=
  censusBlock_single_household (fun k => if k = 0 then 10 else if k = 2 then 70 else 0)
    0 0 (1, 1) 2 2000 0 0 0 0 [agentZero, agentZero] (fun _ => 0) (by decide) (by decide)
    (by decide)

/-- In a block of households of size `3` or more, every iteration of the loop over `ip`
stores the age group of the last child drawn, `0` or `1`. -/
theorem censusAgent_large_family_age (engine : Nat → Int) (i j : Int) (dx : ℚ × ℚ)
    (family_size p_schoolage : Int) (agent : Agent) (t : CensusThread) (h : 2 < family_size) :
    (censusAgent engine i j dx family_size p_schoolage agent t).1.age_group = 0 ∨
      (censusAgent engine i j dx family_size p_schoolage agent t).1.age_group = 1 := by
  have hchild : ∀ (m : Nat) (s : Int × (Int → Int) × Nat), 0 < m →
      (childLoop engine p_schoolage m s).1 = 0 ∨ (childLoop engine p_schoolage m s).1 = 1 := by
    intro m
    induction m with
    | zero => intro s h0; exact absurd h0 (Nat.lt_irrefl 0)
    | succ m ih =>
      intro s _
      obtain ⟨age, nr, k⟩ := s
      simp only [childLoop]
      cases m with
      | zero =>
        simp only [childLoop]
        split_ifs
        · exact Or.inr rfl
        · exact Or.inl rfl
      | succ m => exact ih _ (Nat.succ_pos m)
  have hm : 0 < (family_size - 2).toNat := by omega
  have hage : (censusAges engine family_size p_schoolage t.nr t.k).2.1 = 0 ∨
      (censusAges engine family_size p_schoolage t.nr t.k).2.1 = 1 := by
    unfold censusAges
    simp only [if_pos (show family_size > 2 from h)]
    exact hchild _ _ hm
  unfold censusAgent
  dsimp only
  rcases hage with h0 | h1
  · rw [h0]
    simp
  · rw [h1]
    simp

/-! ## Theorems: `assign_school`, unit lookup, rank partition -/

/-- C33: `assign_school(nborhood)` with the draw `r` returns `3 + nborhood / 2` if
`r < 36`, `2` if `36 <= r < 68`, `1` if `68 <= r < 93` and `0` otherwise; for `nborhood` in
`{0, 1, 2, 3}` the result is in `{0, .., 4}`, the elementary school being `3` for the
neighbourhoods `0` and `1` and `4` for the neighbourhoods `2` and `3`. -/
theorem assign_school_rule (nborhood r : Int) :
    (r < 36 → assign_school nborhood r = 3 + Int.tdiv nborhood 2) ∧
      (36 ≤ r → r < 68 → assign_school nborhood r = 2) ∧
      (68 ≤ r → r < 93 → assign_school nborhood r = 1) ∧
      (93 ≤ r → assign_school nborhood r = 0) ∧
      (0 ≤ nborhood → nborhood ≤ 3 →
        0 ≤ assign_school nborhood r ∧ assign_school nborhood r ≤ 4 ∧
          (r < 36 → (nborhood = 0 ∨ nborhood = 1 → assign_school nborhood r = 3) ∧
            (nborhood = 2 ∨ nborhood = 3 → assign_school nborhood r = 4))) := by
  refine ⟨?_, ?_, ?_, ?_, ?_⟩
  · intro h
    simp only [assign_school, if_pos h]
  · intro h1 h2
    simp only [assign_school, if_neg (not_lt.mpr h1), if_pos h2]
  · intro h1 h2
    have h3 : ¬ r < 36 := by omega
    have h4 : ¬ r < 68 := by omega
    simp only [assign_school, if_neg h3, if_neg h4, if_pos h2]
  · intro h1
    have h3 : ¬ r < 36 := by omega
    have h4 : ¬ r < 68 := by omega
    have h5 : ¬ r < 93 := by omega
    simp only [assign_school, if_neg h3, if_neg h4, if_neg h5]
  · intro h0 h3
    have hn : nborhood = 0 ∨ nborhood = 1 ∨ nborhood = 2 ∨ nborhood = 3 := by omega
    unfold assign_school
    rcases hn with h | h | h | h <;> subst h <;> split_ifs <;> simp_all <;> decide

/-- C33, at the neighbourhood `2` and the draw `10`: the elementary school `4`. -/
theorem assign_school_rule_witness : assign_school 2 10 = 4 :=
  (((assign_school_rule 2 10).2.2.2.2 (by decide) (by decide)).2.2 (by decide)).2
    (Or.inl rfl)

theorem sorted_getElem?_le (l : List Int) (h : l.Sorted (· ≤ ·)) (i j : Nat) (x y : Int)
    (hij : i ≤ j) (hx : l[i]? = some x) (hy : l[j]? = some y) : x ≤ y := by
  rcases Nat.eq_or_lt_of_le hij with e | hlt
  · subst e
    rw [hx] at hy
    exact le_of_eq (Option.some.inj hy)
  · obtain ⟨hi, rfl⟩ := List.getElem?_eq_some.mp hx
    obtain ⟨hj, rfl⟩ := List.getElem?_eq_some.mp hy
    exact List.pairwise_iff_getElem.mp h i j hi hj hlt

/-- The unit loop on the part `l` of `Start` from index `unit + 1` on: when some entry of
`l` is above the community number, the loop stops at the first such entry. -/
theorem unitFrom_spec (community : Int) :
    ∀ (l : List Int) (u : Nat), (∃ b ∈ l, community < b) →
      ∃ v, unitFrom community l u = some v ∧ u ≤ v ∧
        (∀ k x, k < v - u → l[k]? = some x → x ≤ community) ∧
        ∃ b, l[v - u]? = some b ∧ community < b
  | [], _, h => by
    obtain ⟨b, hb, _⟩ := h
    cases hb
  | s :: rest, u, h => by
    by_cases hs : community ≥ s
    · have hrest : ∃ b ∈ rest, community < b := by
        obtain ⟨b, hb, hlt⟩ := h
        rcases List.mem_cons.mp hb with rfl | hb
        · omega
        · exact ⟨b, hb, hlt⟩
      obtain ⟨v, hv, hle, hbelow, b, hb, hlt⟩ := unitFrom_spec community rest (u + 1) hrest
      refine ⟨v, ?_, by omega, ?_, b, ?_, hlt⟩
      · simp only [unitFrom, if_pos hs, hv]
      · intro k x hk hx
        cases k with
        | zero =>
          simp only [List.getElem?_cons_zero, Option.some.injEq] at hx
          omega
        | succ k =>
          simp only [List.getElem?_cons_succ] at hx
          exact hbelow k x (by omega) hx
      · have : v - u = (v - (u + 1)) + 1 := by omega
        rw [this, List.getElem?_cons_succ]
        exact hb
    · refine ⟨u, ?_, le_refl u, ?_, s, ?_, by omega⟩
      · simp only [unitFrom, if_neg hs]
      · intro k x hk
        omega
      · simp

/-- C35: for a table `Start` of `N + 1` entries, non-decreasing, with
`Start[0] <= community < Start[N]`, the unit loop returns, without a read past `Start[N]`,
a unit `u < N` with `Start[u] <= community < Start[u + 1]`, and `u` is the only unit with
this property. -/
theorem unitOf_spec (Start : List Int) (N : Nat) (community s0 sN : Int)
    (hlen : Start.length = N + 1) (hmono : Start.Sorted (· ≤ ·))
    (h0 : Start[0]? = some s0) (hN : Start[N]? = some sN)
    (hlo : s0 ≤ community) (hhi : community < sN) :
    ∃ u a b, unitOf Start community = some u ∧ u < N ∧ Start[u]? = some a ∧
      Start[u + 1]? = some b ∧ a ≤ community ∧ community < b ∧
      ∀ v a' b', Start[v]? = some a' → Start[v + 1]? = some b' → a' ≤ community →
        community < b' → v = u := by
  cases Start with
  | nil => simp at hlen
  | cons s rest =>
    simp only [List.getElem?_cons_zero, Option.some.injEq] at h0
    subst h0
    have hrlen : rest.length = N := by simpa using hlen
    have hNpos : 0 < N := by
      rcases Nat.eq_zero_or_pos N with h | h
      · subst h
        simp only [List.getElem?_cons_zero, Option.some.injEq] at hN
        omega
      · exact h
    have hex : ∃ b ∈ rest, community < b := by
      have hN' : rest[N - 1]? = some sN := by
        have : N = (N - 1) + 1 := by omega
        rw [this, List.getElem?_cons_succ] at hN
        exact hN
      exact ⟨sN, List.mem_iff_getElem?.mpr ⟨_, hN'⟩, hhi⟩
    obtain ⟨u, hu, _, hbelow, b, hb, hlt⟩ := unitFrom_spec community rest 0 hex
    simp only [Nat.sub_zero] at hbelow hb
    have huN : u < N := by
      rcases Nat.lt_or_ge u rest.length with h | h
      · omega
      · rw [List.getElem?_eq_none h] at hb; cases hb
    have hua : ∃ a, (s :: rest)[u]? = some a ∧ a ≤ community := by
      cases u with
      | zero => exact ⟨s, List.getElem?_cons_zero, hlo⟩
      | succ u =>
        have hlt' : u < rest.length := by omega
        refine ⟨rest[u], by simp [List.getElem?_eq_getElem hlt'], ?_⟩
        exact hbelow u _ (Nat.lt_succ_self u) (List.getElem?_eq_getElem hlt')
    obtain ⟨a, ha, hale⟩ := hua
    refine ⟨u, a, b, ?_, huN, ha, ?_, hale, hlt, ?_⟩
    · simp only [unitOf, List.drop_succ_cons, List.drop_zero, hu]
    · simp only [List.getElem?_cons_succ, hb]
    · intro v a' b' hva hvb hale' hltb'
      have hvb1 : (s :: rest)[u + 1]? = some b := by
        simp only [List.getElem?_cons_succ, hb]
      rcases Nat.lt_trichotomy v u with h | h | h
      · exfalso
        have hle := sorted_getElem?_le (s :: rest) hmono (v + 1) u b' a (by omega) hvb ha
        omega
      · exact h
      · exfalso
        have hle := sorted_getElem?_le (s :: rest) hmono (u + 1) v b a' (by omega) hvb1 hva
        omega

/-- C35, at the table `Start = {0, 3, 5}` and the community `4`: the unit is `1`. -/
theorem unitOf_spec_witness :
    ∃ u a b, unitOf [0, 3, 5] 4 = some u ∧ u < 2 ∧ [(0 : Int), 3, 5][u]? = some a ∧
      [(0 : Int), 3, 5][u + 1]? = some b ∧ a ≤ 4 ∧ 4 < b ∧
      ∀ v a' b', [(0 : Int), 3, 5][v]? = some a' → [(0 : Int), 3, 5][v + 1]? = some b' →
        a' ≤ 4 → 4 < b' → v = u :=
  unitOf_spec [0, 3, 5] 2 4 0 5 rfl (by decide) rfl rfl (by decide) (by decide)

theorem rankRange_eq (ncell nprocs p : Int) :
    rankRange ncell nprocs p =
      (p * Int.tdiv (ncell * ncell) nprocs +
          min p (ncell * ncell - Int.tdiv (ncell * ncell) nprocs * nprocs),
       (p + 1) * Int.tdiv (ncell * ncell) nprocs +
          min (p + 1) (ncell * ncell - Int.tdiv (ncell * ncell) nprocs * nprocs)) := by
  unfold rankRange
  dsimp only
  split_ifs with h
  · rw [min_eq_left (le_of_lt h), min_eq_left (by omega)]
    ext <;> simp only <;> ring
  · rw [min_eq_right (not_lt.mp h), min_eq_right (by omega)]
    ext <;> simp only <;> ring

/-- A point of `[b 0, b n)` lies in exactly one of the ranges `[b p, b (p + 1))`, `p < n`,
of a non-decreasing sequence `b`. -/
theorem existsUnique_range_of_monotone (b : Nat → Int) (hb : ∀ p, b p ≤ b (p + 1)) (c : Int) :
    ∀ n : Nat, b 0 ≤ c → c < b n → ∃! p : Nat, p < n ∧ b p ≤ c ∧ c < b (p + 1) := by
  have hmono : ∀ p q : Nat, p ≤ q → b p ≤ b q := by
    intro p q hpq
    induction q with
    | zero =>
      have : p = 0 := by omega
      subst this
      exact le_refl _
    | succ q ih =>
      rcases Nat.eq_or_lt_of_le hpq with e | hlt
      · subst e
        exact le_refl _
      · exact le_trans (ih (by omega)) (hb q)
  have huniq : ∀ p q : Nat, b p ≤ c → c < b (p + 1) → b q ≤ c → c < b (q + 1) → p = q := by
    intro p q hp1 hp2 hq1 hq2
    rcases Nat.lt_trichotomy p q with h | h | h
    · have := hmono (p + 1) q (by omega)
      omega
    · exact h
    · have := hmono (q + 1) p (by omega)
      omega
  intro n
  induction n with
  | zero =>
    intro h0 hc
    omega
  | succ n ih =>
    intro h0 hc
    by_cases hn : c < b n
    · obtain ⟨p, ⟨hp, hp1, hp2⟩, _⟩ := ih h0 hn
      exact ⟨p, ⟨by omega, hp1, hp2⟩, fun q hq => huniq q p hq.2.1 hq.2.2 hp1 hp2⟩
    · exact ⟨n, ⟨Nat.lt_succ_self n, by omega, hc⟩,
        fun q hq => huniq q n hq.2.1 hq.2.2 (by omega) hc⟩

/-- C40: for `nprocs >= 1` ranks and `M = ncell * ncell` cells, the ranges
`[ibegin(p), iend(p))` of the ranks start at `0`, are contiguous, end at `M`, each has
`floor(M / nprocs)` or `floor(M / nprocs) + 1` cells, and every cell of `[0, M)` lies in
the range of exactly one rank. -/
theorem rankRange_partition (ncell nprocs : Int) (hn : 1 ≤ nprocs) :
    (rankRange ncell nprocs 0).1 = 0 ∧
      (∀ p : Int, (rankRange ncell nprocs p).2 = (rankRange ncell nprocs (p + 1)).1) ∧
      (rankRange ncell nprocs (nprocs - 1)).2 = ncell * ncell ∧
      (∀ p : Int, 0 ≤ p → p < nprocs →
        (rankRange ncell nprocs p).2 - (rankRange ncell nprocs p).1 = ncell * ncell / nprocs ∨
        (rankRange ncell nprocs p).2 - (rankRange ncell nprocs p).1 =
          ncell * ncell / nprocs + 1) ∧
      ∀ c : Int, 0 ≤ c → c < ncell * ncell →
        ∃! p : Nat, (p : Int) < nprocs ∧ (rankRange ncell nprocs p).1 ≤ c ∧
          c < (rankRange ncell nprocs p).2 := by
  have hM : 0 ≤ ncell * ncell := mul_self_nonneg ncell
  have hdiv : Int.tdiv (ncell * ncell) nprocs = ncell * ncell / nprocs :=
    Int.tdiv_eq_ediv hM (by omega)
  have hmod := Int.emod_add_ediv (ncell * ncell) nprocs
  have hmod0 := Int.emod_nonneg (ncell * ncell) (show nprocs ≠ 0 by omega)
  have hmodlt := Int.emod_lt_of_pos (ncell * ncell) (show 0 < nprocs by omega)
  have hq0 : 0 ≤ ncell * ncell / nprocs := Int.ediv_nonneg hM (by omega)
  have hleft : ncell * ncell - ncell * ncell / nprocs * nprocs = ncell * ncell % nprocs := by
    linarith [mul_comm nprocs (ncell * ncell / nprocs)]
  simp only [rankRange_eq, hdiv, hleft]
  refine ⟨?_, ?_, ?_, ?_, ?_⟩
  · rw [min_eq_left hmod0]
    ring
  · intro p
    trivial
  · rw [sub_add_cancel, min_eq_right (le_of_lt hmodlt)]
    linarith [mul_comm nprocs (ncell * ncell / nprocs)]
  · intro p _ _
    rcases le_or_lt (p + 1) (ncell * ncell % nprocs) with h | h
    · right
      rw [min_eq_left h, min_eq_left (by omega)]
      ring
    · left
      rw [min_eq_right (by omega), min_eq_right (by omega)]
      ring
  · intro c hc0 hcM
    have hb : ∀ p : Nat,
        (p : Int) * (ncell * ncell / nprocs) + min (p : Int) (ncell * ncell % nprocs) ≤
          ((p + 1 : Nat) : Int) * (ncell * ncell / nprocs) +
            min ((p + 1 : Nat) : Int) (ncell * ncell % nprocs) := by
      intro p
      have h1 : min (p : Int) (ncell * ncell % nprocs) ≤
          min ((p + 1 : Nat) : Int) (ncell * ncell % nprocs) :=
        min_le_min (by push_cast; omega) (le_refl _)
      have h2 : (p : Int) * (ncell * ncell / nprocs) ≤
          ((p + 1 : Nat) : Int) * (ncell * ncell / nprocs) := by
        push_cast
        nlinarith
      linarith
    have key := existsUnique_range_of_monotone
      (fun p : Nat => (p : Int) * (ncell * ncell / nprocs) +
        min (p : Int) (ncell * ncell % nprocs)) hb c nprocs.toNat
      (by simp only [Nat.cast_zero, zero_mul, zero_add]; rw [min_eq_left hmod0]; exact hc0)
      (by
        have hcast : ((nprocs.toNat : Nat) : Int) = nprocs := Int.toNat_of_nonneg (by omega)
        simp only [hcast]
        rw [min_eq_right (le_of_lt hmodlt)]
        linarith [mul_comm nprocs (ncell * ncell / nprocs)])
    obtain ⟨p, ⟨hp, hp1, hp2⟩, huniq⟩ := key
    refine ⟨p, ⟨by omega, hp1, by push_cast at hp2; exact hp2⟩, ?_⟩
    intro q ⟨hq, hq1, hq2⟩
    exact huniq q ⟨by omega, hq1, by push_cast; exact hq2⟩

/-- C40, at the grid of the source (`ncell = 3000`) on `7` ranks. -/
theorem rankRange_partition_witness :
    (rankRange 3000 7 0).1 = 0 ∧
      (∀ p : Int, (rankRange 3000 7 p).2 = (rankRange 3000 7 (p + 1)).1) ∧
      (rankRange 3000 7 (7 - 1)).2 = 3000 * 3000 ∧
      (∀ p : Int, 0 ≤ p → p < 7 →
        (rankRange 3000 7 p).2 - (rankRange 3000 7 p).1 = 3000 * 3000 / 7 ∨
        (rankRange 3000 7 p).2 - (rankRange 3000 7 p).1 = 3000 * 3000 / 7 + 1) ∧
      ∀ c : Int, 0 ≤ c → c < 3000 * 3000 →
        ∃! p : Nat, (p : Int) < 7 ∧ (rankRange 3000 7 p).1 ≤ c ∧ c < (rankRange 3000 7 p).2 :=
  rankRange_partition 3000 7 (by decide)

/-! ## Theorems: the household loop of `initAgentsCensus` -/

theorem householdTable_shape (h1 h2 h3 h4 h5 h6 h7 : Int) :
    ∃ a b c d e f, householdTable h1 h2 h3 h4 h5 h6 h7 = [a, b, c, d, e, f, 1000] := by
  unfold householdTable
  dsimp only
  split_ifs
  · exact ⟨_, _, _, _, _, _, rfl⟩
  · exact ⟨_, _, _, _, _, _, rfl⟩

/-- The size loop on a table of seven entries ending in `1000`, for a draw of at most
`1000`: it returns a size `s` in `1..6`, the first index from `1` on whose entry is not
below the draw. -/
theorem familySize_spec (a b c d e f il : Int) (hil : il ≤ 1000) :
    ∃ s, familySize [a, b, c, d, e, f, 1000] il = some s ∧ 1 ≤ s ∧ s ≤ 6 ∧
      (∃ p, [a, b, c, d, e, f, 1000][s]? = some p ∧ il ≤ p) ∧
      ∀ k p, 1 ≤ k → k < s → [a, b, c, d, e, f, 1000][k]? = some p → p < il := by
  simp only [familySize, List.drop_succ_cons, List.drop_zero, familySizeFrom]
  by_cases h1 : il > b
  · by_cases h2 : il > c
    · by_cases h3 : il > d
      · by_cases h4 : il > e
        · by_cases h5 : il > f
          · have h6 : ¬ il > 1000 := by omega
            refine ⟨6, by simp only [if_pos h1, if_pos h2, if_pos h3, if_pos h4, if_pos h5, if_neg h6],
              by omega, by omega, ⟨1000, rfl, hil⟩, ?_⟩
            intro k p hk1 hk2 hp
            have : k = 1 ∨ k = 2 ∨ k = 3 ∨ k = 4 ∨ k = 5 := by omega
            rcases this with e | e | e | e | e <;> subst e <;>
              simp only [List.getElem?_cons_succ, List.getElem?_cons_zero, Option.some.injEq] at hp <;>
              omega
          · refine ⟨5, by simp only [if_pos h1, if_pos h2, if_pos h3, if_pos h4, if_neg h5],
              by omega, by omega, ⟨f, rfl, by omega⟩, ?_⟩
            intro k p hk1 hk2 hp
            have : k = 1 ∨ k = 2 ∨ k = 3 ∨ k = 4 := by omega
            rcases this with e | e | e | e <;> subst e <;>
              simp only [List.getElem?_cons_succ, List.getElem?_cons_zero, Option.some.injEq] at hp <;>
              omega
        · refine ⟨4, by simp only [if_pos h1, if_pos h2, if_pos h3, if_neg h4],
            by omega, by omega, ⟨e, rfl, by omega⟩, ?_⟩
          intro k p hk1 hk2 hp
          have : k = 1 ∨ k = 2 ∨ k = 3 := by omega
          rcases this with e | e | e <;> subst e <;>
            simp only [List.getElem?_cons_succ, List.getElem?_cons_zero, Option.some.injEq] at hp <;>
            omega
      · refine ⟨3, by simp only [if_pos h1, if_pos h2, if_neg h3],
          by omega, by omega, ⟨d, rfl, by omega⟩, ?_⟩
        intro k p hk1 hk2 hp
        have : k = 1 ∨ k = 2 := by omega
        rcases this with e | e <;> subst e <;>
          simp only [List.getElem?_cons_succ, List.getElem?_cons_zero, Option.some.injEq] at hp <;>
          omega
    · refine ⟨2, by simp only [if_pos h1, if_neg h2],
        by omega, by omega, ⟨c, rfl, by omega⟩, ?_⟩
      intro k p hk1 hk2 hp
      have : k = 1 := by omega
      subst this
      simp only [List.getElem?_cons_succ, List.getElem?_cons_zero, Option.some.injEq] at hp
      omega
  · refine ⟨1, by simp only [if_neg h1], by omega, by omega, ⟨b, rfl, by omega⟩, ?_⟩
    intro k p hk1 hk2 hp
    omega

theorem familiesPeople_modify (nf : List Int) (s : Nat) (hlen : nf.length = 7) (h1 : 1 ≤ s)
    (h7 : s ≤ 7) :
    (nf.modify (· + 1) (s - 1)).length = 7 ∧
      familiesPeople (nf.modify (· + 1) (s - 1)) = familiesPeople nf + (s : Int) := by
  match nf, hlen with
  | [a, b, c, d, e, f, g], _ =>
    have : s = 1 ∨ s = 2 ∨ s = 3 ∨ s = 4 ∨ s = 5 ∨ s = 6 ∨ s = 7 := by omega
    rcases this with e | e | e | e | e | e | e <;> subst e <;>
      simp [familiesPeople, List.modify, List.modifyTailIdx, List.modifyHead] <;> ring

/-- The household loop on a table of seven entries ending in `1000`, for draws of at most
`1000` and enough iterations allowed: it returns, the family counts on exit account for
`npeople`, and `npeople` is above the community size. -/
theorem householdLoop_spec (engine : Nat → Int) (a b c d e f community_size : Int)
    (he : ∀ k, engine k ≤ 1000) :
    ∀ (fuel : Nat) (h : Households), h.nf.length = 7 → familiesPeople h.nf = h.npeople →
      community_size + 1 ≤ h.npeople + fuel →
      ∃ h', householdLoop engine [a, b, c, d, e, f, 1000] community_size fuel h = some h' ∧
        h'.nf.length = 7 ∧ familiesPeople h'.nf = h'.npeople ∧
        community_size + 1 ≤ h'.npeople ∧
        (h.npeople ≤ community_size + 6 → h'.npeople ≤ community_size + 6) ∧
        h.npeople ≤ h'.npeople
  | 0, h, hlen, hsum, hfuel => by
    have hc : ¬ h.npeople < community_size + 1 := by
      simp only [Nat.cast_zero, add_zero] at hfuel
      omega
    exact ⟨h, by simp only [householdLoop, if_neg hc], hlen, hsum, by omega, fun x => x,
      le_refl _⟩
  | fuel + 1, h, hlen, hsum, hfuel => by
    by_cases hc : h.npeople < community_size + 1
    · obtain ⟨s, hs, hs1, hs6, _, _⟩ := familySize_spec a b c d e f (engine h.k) (he h.k)
      obtain ⟨hlen1, hsum1⟩ := familiesPeople_modify h.nf s hlen hs1 (by omega)
      obtain ⟨h', hh', hl', hs', hex', hup', hmono'⟩ := householdLoop_spec engine a b c d e f
        community_size he fuel
        { nf := h.nf.modify (· + 1) (s - 1), npeople := h.npeople + (s : Int), k := h.k + 1 }
        hlen1 (by rw [hsum1, hsum]) (by push_cast at hfuel ⊢; omega)
      refine ⟨h', ?_, hl', hs', hex', ?_, ?_⟩
      · simp only [householdLoop, if_pos hc, hs, Option.bind_eq_bind, Option.some_bind]
        exact hh'
      · intro _
        exact hup' (by simp only; omega)
      · simp only at hmono'
        omega
    · exact ⟨h, by simp only [householdLoop, if_neg hc], hlen, hsum, by omega, fun x => x,
        le_refl _⟩

/-- C37: for every household table, default or computed from the counts of a unit, and
draws in `[0, 1000)`, the size loop returns without a read outside the table a size `s`
with `0 < s <= 7`, in fact `s <= 6`; and the household loop of a cell returns with
`npeople` equal to the sum over the sizes of `size * num_families[size]`. -/
theorem householdLoop_safe (h1 h2 h3 h4 h5 h6 h7 : Int) (engine : Nat → Int)
    (community_size : Int) (he : ∀ k, 0 ≤ engine k ∧ engine k < 1000) :
    (∀ il : Int, 0 ≤ il → il < 1000 →
      ∃ s, familySize (householdTable h1 h2 h3 h4 h5 h6 h7) il = some s ∧ 0 < s ∧ s ≤ 7 ∧
        s ≤ 6) ∧
      ∃ h', householdLoop engine (householdTable h1 h2 h3 h4 h5 h6 h7) community_size
          (community_size + 1).toNat { nf := List.replicate 7 0, npeople := 0, k := 0 } =
            some h' ∧
        h'.npeople = familiesPeople h'.nf ∧ ¬ h'.npeople < community_size + 1 := by
  obtain ⟨a, b, c, d, e, f, htab⟩ := householdTable_shape h1 h2 h3 h4 h5 h6 h7
  rw [htab]
  constructor
  · intro il _ hil
    obtain ⟨s, hs, hs1, hs6, _⟩ := familySize_spec a b c d e f il (le_of_lt hil)
    exact ⟨s, hs, by omega, by omega, hs6⟩
  · obtain ⟨h', hh', _, hsum, hex, _⟩ := householdLoop_spec engine a b c d e f community_size
      (fun k => le_of_lt (he k).2) (community_size + 1).toNat
      { nf := List.replicate 7 0, npeople := 0, k := 0 } rfl rfl
      (by simp only [zero_add]; omega)
    exact ⟨h', hh', hsum.symm, by omega⟩

/-- C37, at the default table, a community of size `0` and every draw `700`. -/
theorem householdLoop_safe_witness :
    (∀ il : Int, 0 ≤ il → il < 1000 →
      ∃ s, familySize (householdTable 0 0 0 0 0 0 0) il = some s ∧ 0 < s ∧ s ≤ 7 ∧ s ≤ 6) ∧
      ∃ h', householdLoop (fun _ => 700) (householdTable 0 0 0 0 0 0 0) 0
          ((0 : Int) + 1).toNat { nf := List.replicate 7 0, npeople := 0, k := 0 } = some h' ∧
        h'.npeople = familiesPeople h'.nf ∧ ¬ h'.npeople < 0 + 1 :=
  householdLoop_safe 0 0 0 0 0 0 0 (fun _ => 700) 0 (fun _ => ⟨by norm_num, by norm_num⟩)

/-- C36 (the code at the failing input): in a community of size `0` (population `0`) the
household loop tests `npeople < community_size + 1`, so it runs once: with the draw `700`
one family of size `2` is counted and the total resident count is `2`; with the draw `0`
one family of size `1` and the total `1`. -/
theorem censusHouseholds_workgroup_only :
    communitySize 0 0 0 = 0 ∧
      (censusHouseholds demoSmall (fun _ => 700) 0 0 0).map (fun c => (c.nf, c.nr 5)) =
        some ([0, 1, 0, 0, 0, 0, 0], 2) ∧
      (censusHouseholds demoSmall (fun _ => 0) 0 0 0).map (fun c => (c.nf, c.nr 5)) =
        some ([1, 0, 0, 0, 0, 0, 0], 1) := by
  decide

/-! ## Theorems: the allocation of `initAgentsCensus` -/

/-- The exclusive scan: the output has the length of the input, its entry `i` is the
running sum before `i`, and the returned total is the sum of the input. -/
theorem exclusiveScanFrom_spec :
    ∀ (w : List Int) (acc : Int),
      (exclusiveScanFrom acc w).1.length = w.length ∧
        (exclusiveScanFrom acc w).2 = acc + w.sum ∧
        ∀ i : Nat, i < w.length → (exclusiveScanFrom acc w).1[i]? = some (acc + (w.take i).sum)
  | [], acc => by simp [exclusiveScanFrom]
  | x :: xs, acc => by
    obtain ⟨hlen, hsum, hget⟩ := exclusiveScanFrom_spec xs (acc + x)
    refine ⟨?_, ?_, ?_⟩
    · simp only [exclusiveScanFrom, List.length_cons, hlen]
    · simp only [exclusiveScanFrom, hsum, List.sum_cons]
      ring
    · intro i hi
      cases i with
      | zero => simp [exclusiveScanFrom]
      | succ i =>
        simp only [exclusiveScanFrom, List.getElem?_cons_succ, List.take_succ_cons, List.sum_cons]
        rw [hget i (by simpa using hi)]
        congr 1
        ring

theorem sum_take_le (w : List Int) (hw : ∀ v ∈ w, 0 ≤ v) :
    ∀ i j : Nat, i ≤ j → (w.take i).sum ≤ (w.take j).sum := by
  induction w with
  | nil => intro i j _; simp
  | cons x xs ih =>
    intro i j hij
    have hx : 0 ≤ x := hw x (List.mem_cons_self _ _)
    have hxs : ∀ v ∈ xs, 0 ≤ v := fun v hv => hw v (List.mem_cons_of_mem _ hv)
    cases i with
    | zero =>
      simp only [List.take_zero, List.sum_nil]
      cases j with
      | zero => simp
      | succ j =>
        simp only [List.take_succ_cons, List.sum_cons]
        have := ih hxs 0 j (Nat.zero_le j)
        simp only [List.take_zero, List.sum_nil] at this
        omega
    | succ i =>
      cases j with
      | zero => omega
      | succ j =>
        simp only [List.take_succ_cons, List.sum_cons]
        have := ih hxs i j (by omega)
        omega

theorem sum_take_succ (w : List Int) (i : Nat) (hi : i < w.length) :
    (w.take (i + 1)).sum = (w.take i).sum + w[i] := by
  induction w generalizing i with
  | nil => simp at hi
  | cons x xs ih =>
    cases i with
    | zero => simp
    | succ i =>
      simp only [List.take_succ_cons, List.sum_cons, List.getElem_cons_succ]
      rw [ih i (by simpa using hi)]
      ring

/-- The blocks `[out[i], out[i] + w[i])` of the exclusive scan of non-negative weights
are pairwise disjoint and cover `[0, total)`: every slot lies in exactly one block. -/
theorem exclusiveScan_blocks (w : List Int) (hw : ∀ v ∈ w, 0 ≤ v) (x : Int) (hx0 : 0 ≤ x)
    (hx : x < (exclusiveScanFrom 0 w).2) :
    ∃! i : Nat, i < w.length ∧ ∃ o v, (exclusiveScanFrom 0 w).1[i]? = some o ∧
      w[i]? = some v ∧ o ≤ x ∧ x < o + v := by
  obtain ⟨_, hsum, hget⟩ := exclusiveScanFrom_spec w 0
  have hb : ∀ p : Nat, (w.take p).sum ≤ (w.take (p + 1)).sum :=
    fun p => sum_take_le w hw p (p + 1) (Nat.le_succ p)
  have key := existsUnique_range_of_monotone (fun p => (w.take p).sum) hb x w.length
    (by simpa using hx0) (by simp only [List.take_length]; rw [hsum] at hx; omega)
  obtain ⟨p, ⟨hp, hp1, hp2⟩, huniq⟩ := key
  simp only at hp1 hp2
  refine ⟨p, ⟨hp, (w.take p).sum, w[p], ?_, List.getElem?_eq_getElem hp, hp1, ?_⟩, ?_⟩
  · rw [hget p hp, zero_add]
  · rw [← sum_take_succ w p hp]
    exact hp2
  · intro q ⟨hq, o, v, ho, hv, hle, hlt⟩
    rw [hget q hq, zero_add] at ho
    rw [List.getElem?_eq_getElem hq] at hv
    simp only [Option.some.injEq] at ho hv
    subst ho hv
    refine huniq q ⟨hq, hle, ?_⟩
    simp only
    rw [sum_take_succ w q hq]
    exact hlt

theorem sum_flatMap_eq {α : Type} (f : α → List Int) :
    ∀ l : List α, (l.flatMap f).sum = (l.map (fun a => (f a).sum)).sum
  | [] => rfl
  | a :: l => by
    simp only [List.flatMap_cons, List.sum_append, List.map_cons, List.sum_cons,
      sum_flatMap_eq f l]

/-- The array of a fab of `k` components of `m` cells each: the entry of the component `n`
and the cell `ci` is at the index `n * m + ci`. -/
theorem flatMap_range_getElem? {α : Type} (f : Nat → List α) (m : Nat)
    (hlen : ∀ n, (f n).length = m) :
    ∀ k : Nat, ((List.range k).flatMap f).length = k * m ∧
      ∀ n ci : Nat, n < k → ci < m → ((List.range k).flatMap f)[n * m + ci]? = (f n)[ci]?
  | 0 => by simp
  | k + 1 => by
    obtain ⟨hl, hg⟩ := flatMap_range_getElem? f m hlen k
    have happ : (List.range (k + 1)).flatMap f = (List.range k).flatMap f ++ f k := by
      rw [List.range_succ, List.flatMap_append]
      simp
    rw [happ]
    refine ⟨?_, ?_⟩
    · rw [List.length_append, hl, hlen]
      ring
    · intro n ci hn hci
      rcases Nat.lt_or_ge n k with h | h
      · have hlt : n * m + ci < ((List.range k).flatMap f).length := by
          rw [hl]
          calc n * m + ci < n * m + m := by omega
            _ = (n + 1) * m := by ring
            _ ≤ k * m := Nat.mul_le_mul_right m h
        rw [List.getElem?_append_left hlt]
        exact hg n ci h hci
      · have hnk : n = k := by omega
        subst hnk
        rw [List.getElem?_append_right (by rw [hl]; omega), hl]
        congr 1
        omega

/-- The block of a cell and a component writes the slots `start .. start + num_to_add - 1`
only, each with the result of its iteration of the loop over `ip`. -/
theorem censusBlock_spec (engine : Nat → Int) (i j : Int) (dx : ℚ × ℚ) (n : Nat)
    (nf community_size n5 n17 family_id start : Int) (agents : List Agent) (nr : Int → Int)
    (r : List Agent × (Int → Int))
    (h : censusBlock engine i j dx n nf community_size n5 n17 family_id start agents nr =
      some r) :
    r.1.length = agents.length ∧
      (∀ x : Nat, x < start.toNat ∨ start.toNat + (((n : Int) + 1) * nf).toNat ≤ x →
        r.1[x]? = agents[x]?) ∧
      ∀ q : Nat, q < (((n : Int) + 1) * nf).toNat →
        r.1[start.toNat + q]? = (agents[start.toNat + q]?).map (fun slot =>
          (censusAgent engine i j dx ((n : Int) + 1) (schoolAge community_size n5 n17) slot
            (censusThreadAfter engine ((n : Int) + 1) (schoolAge community_size n5 n17) q
              { nr := nr, family_id := family_id, k := 0 })).1) := by
  unfold censusBlock at h
  simp only [Option.bind_eq_bind, Option.pure_def] at h
  cases hl : censusBlockLoop engine i j dx ((n : Int) + 1) (schoolAge community_size n5 n17)
      (((n : Int) + 1) * nf).toNat start.toNat
      (agents, { nr := nr, family_id := family_id, k := 0 }) with
  | none => rw [hl] at h; cases h
  | some r' =>
    rw [hl] at h
    simp only [Option.some_bind, Option.some.injEq] at h
    subst h
    obtain ⟨hlen, _, hout, hin⟩ := censusBlockLoop_spec engine i j dx _ _ _ _ _ _ r' hl
    exact ⟨hlen, hout, hin⟩

/-- The block of a cell and a component returns when its slots are allocated. -/
theorem censusBlock_total (engine : Nat → Int) (i j : Int) (dx : ℚ × ℚ) (n : Nat)
    (nf community_size n5 n17 family_id start : Int) (agents : List Agent) (nr : Int → Int)
    (hslots : start.toNat + (((n : Int) + 1) * nf).toNat ≤ agents.length) :
    ∃ r, censusBlock engine i j dx n nf community_size n5 n17 family_id start agents nr =
      some r := by
  obtain ⟨r, hr⟩ := censusBlockLoop_total engine i j dx ((n : Int) + 1)
    (schoolAge community_size n5 n17) (((n : Int) + 1) * nf).toNat start.toNat agents
    { nr := nr, family_id := family_id, k := 0 } hslots
  refine ⟨(r.1, r.2.nr), ?_⟩
  unfold censusBlock
  simp only [Option.bind_eq_bind, hr, Option.some_bind, Option.pure_def]

theorem censusAgent_family (engine : Nat → Int) (i j : Int) (dx : ℚ × ℚ)
    (family_size p_schoolage : Int) (agent : Agent) (t : CensusThread) :
    (censusAgent engine i j dx family_size p_schoolage agent t).1.family = t.family_id ∧
      (censusAgent engine i j dx family_size p_schoolage agent t).2.family_id =
        t.family_id + 1 := by
  unfold censusAgent
  dsimp only
  split_ifs <;> exact ⟨rfl, rfl⟩

theorem censusThreadAfter_family_id (engine : Nat → Int) (family_size p_schoolage : Int) :
    ∀ (q : Nat) (t : CensusThread),
      (censusThreadAfter engine family_size p_schoolage q t).family_id = t.family_id + q
  | 0, t => by simp [censusThreadAfter]
  | q + 1, t => by
    simp only [censusThreadAfter]
    rw [censusThreadAfter_family_id engine family_size p_schoolage q, censusStep,
      (censusAgent_family engine 0 0 (0, 0) family_size p_schoolage agentZero t).2]
    push_cast
    ring

/-- C31: for family counts that are not negative, the number `nagents` of allocated
agents is the sum over the sizes and the cells of `size * num_families(cell, size)`, and
every slot of `[0, nagents)` lies in the block
`[fam_offsets(cell, size), fam_offsets(cell, size) + size * num_families(cell, size))` of
exactly one cell and size; and the thread of a cell and a size, which reads its offset as
`start`, leaves every slot outside `[start, start + size * nf)` as it is. -/
theorem famOffsets_partition (cells : List CensusCell)
    (hnf : ∀ c ∈ cells, ∀ v ∈ c.nf, 0 ≤ v) :
    (famOffsets cells).2 =
        ((List.range 7).map (fun n : Nat =>
          (cells.map (fun c => ((n : Int) + 1) * c.nf.getD n 0)).sum)).sum ∧
      (famOffsets cells).1.length = 7 * cells.length ∧
      (∀ x : Int, 0 ≤ x → x < (famOffsets cells).2 →
        ∃! s : Nat × Nat, s.1 < 7 ∧ s.2 < cells.length ∧
          ∃ start c, (famOffsets cells).1[s.1 * cells.length + s.2]? = some start ∧
            cells[s.2]? = some c ∧ start ≤ x ∧
            x < start + ((s.1 : Int) + 1) * c.nf.getD s.1 0) ∧
      ∀ (engine : Nat → Int) (i j : Int) (dx : ℚ × ℚ) (n : Nat)
        (nf community_size n5 n17 family_id start : Int) (agents : List Agent)
        (nr : Int → Int) (r : List Agent × (Int → Int)),
        censusBlock engine i j dx n nf community_size n5 n17 family_id start agents nr =
          some r →
        ∀ x : Nat, x < start.toNat ∨ start.toNat + (((n : Int) + 1) * nf).toNat ≤ x →
          r.1[x]? = agents[x]? := by
  have hlenf : ∀ n : Nat,
      (cells.map (fun c => ((n : Int) + 1) * c.nf.getD n 0)).length = cells.length :=
    fun n => List.length_map _ _
  obtain ⟨hWlen, hWget⟩ := flatMap_range_getElem?
    (fun n : Nat => cells.map (fun c => ((n : Int) + 1) * c.nf.getD n 0)) cells.length hlenf 7
  have hW0 : ∀ v ∈ (List.range 7).flatMap
      (fun n : Nat => cells.map (fun c => ((n : Int) + 1) * c.nf.getD n 0)), 0 ≤ v := by
    intro v hv
    obtain ⟨n, _, hv⟩ := List.mem_flatMap.mp hv
    obtain ⟨c, hc, rfl⟩ := List.mem_map.mp hv
    have h1 : 0 ≤ c.nf.getD n 0 := by
      rw [List.getD_eq_getElem?_getD]
      cases hg : c.nf[n]? with
      | none => simp
      | some y =>
        simp only [Option.getD_some]
        exact hnf c hc y (List.mem_iff_getElem?.mpr ⟨n, hg⟩)
    have h2 : 0 ≤ (n : Int) + 1 := by omega
    exact mul_nonneg h2 h1
  obtain ⟨hslen, hssum, _⟩ := exclusiveScanFrom_spec
    ((List.range 7).flatMap
      (fun n : Nat => cells.map (fun c => ((n : Int) + 1) * c.nf.getD n 0))) 0
  refine ⟨?_, ?_, ?_, fun engine i j dx n nf community_size n5 n17 family_id start agents nr
    r h => (censusBlock_spec engine i j dx n nf community_size n5 n17 family_id start agents
      nr r h).2.1⟩
  · unfold famOffsets
    rw [hssum, zero_add, sum_flatMap_eq]
  · unfold famOffsets
    rw [hslen, hWlen]
  · intro x hx0 hx
    unfold famOffsets at hx ⊢
    obtain ⟨i, ⟨hi, o, v, ho, hv, hle, hlt⟩, huniq⟩ := exclusiveScan_blocks _ hW0 x hx0 hx
    rw [hWlen] at hi
    have hm : 0 < cells.length := by
      rcases Nat.eq_zero_or_pos cells.length with h | h
      · rw [h] at hi; omega
      · exact h
    have hdm : i / cells.length * cells.length + i % cells.length = i := by
      rw [Nat.mul_comm]
      exact Nat.div_add_mod i cells.length
    have hn7 : i / cells.length < 7 := Nat.div_lt_of_lt_mul (by rw [Nat.mul_comm]; exact hi)
    have hci : i % cells.length < cells.length := Nat.mod_lt i hm
    refine ⟨(i / cells.length, i % cells.length), ⟨hn7, hci, o, cells[i % cells.length], ?_,
      List.getElem?_eq_getElem hci, hle, ?_⟩, ?_⟩
    · simp only [hdm, ho]
    · have := hWget (i / cells.length) (i % cells.length) hn7 hci
      rw [hdm, hv, List.getElem?_map, List.getElem?_eq_getElem hci] at this
      simp only [Option.map_some', Option.some.injEq] at this
      rw [← this]
      exact hlt
    · intro s ⟨hs7, hsc, start, c, hst, hc, hle', hlt'⟩
      have hflat : s.1 * cells.length + s.2 = i := by
        apply huniq
        refine ⟨?_, start, ((s.1 : Int) + 1) * c.nf.getD s.1 0, hst, ?_, hle', hlt'⟩
        · rw [hWlen]
          calc s.1 * cells.length + s.2 < s.1 * cells.length + cells.length := by omega
            _ = (s.1 + 1) * cells.length := by ring
            _ ≤ 7 * cells.length := Nat.mul_le_mul_right _ hs7
        · rw [hWget s.1 s.2 hs7 hsc, List.getElem?_map, hc]
          rfl
      have h1 : s.1 = i / cells.length := by
        rw [← hflat, Nat.add_comm, Nat.add_mul_div_right _ _ hm, Nat.div_eq_of_lt hsc,
          Nat.zero_add]
      have h2 : s.2 = i % cells.length := by
        rw [← hflat, Nat.add_comm, Nat.add_mul_mod_self_right, Nat.mod_eq_of_lt hsc]
      exact Prod.ext h1 h2

/-- C31, at the box of the one cell `cellOneFamily`. -/
theorem famOffsets_partition_witness :
    (famOffsets [cellOneFamily]).2 =
        ((List.range 7).map (fun n : Nat =>
          ([cellOneFamily].map (fun c => ((n : Int) + 1) * c.nf.getD n 0)).sum)).sum ∧
      (famOffsets [cellOneFamily]).1.length = 7 * [cellOneFamily].length ∧
      (∀ x : Int, 0 ≤ x → x < (famOffsets [cellOneFamily]).2 →
        ∃! s : Nat × Nat, s.1 < 7 ∧ s.2 < [cellOneFamily].length ∧
          ∃ start c, (famOffsets [cellOneFamily]).1[s.1 * [cellOneFamily].length + s.2]? =
              some start ∧
            [cellOneFamily][s.2]? = some c ∧ start ≤ x ∧
            x < start + ((s.1 : Int) + 1) * c.nf.getD s.1 0) ∧
      ∀ (engine : Nat → Int) (i j : Int) (dx : ℚ × ℚ) (n : Nat)
        (nf community_size n5 n17 family_id start : Int) (agents : List Agent)
        (nr : Int → Int) (r : List Agent × (Int → Int)),
        censusBlock engine i j dx n nf community_size n5 n17 family_id start agents nr =
          some r →
        ∀ x : Nat, x < start.toNat ∨ start.toNat + (((n : Int) + 1) * nf).toNat ≤ x →
          r.1[x]? = agents[x]? :=
  famOffsets_partition [cellOneFamily] (by simp [cellOneFamily])

/-- C39: the block of a cell and a family size `s = n + 1` holding `nf` families, run on
allocated slots, returns, and the agent it creates in the slot `start + q`, `q < s * nf`,
has the family id `fam_id + q`; so two agents of the block with the same family id are in
the same slot. The value `fam_id` read by the block is the entry of the exclusive scan of
the family counts, the sum of the counts before it. -/
theorem censusBlock_family_ids (engine : Nat → Int) (i j : Int) (dx : ℚ × ℚ) (n : Nat)
    (nf community_size n5 n17 family_id start : Int) (agents : List Agent) (nr : Int → Int)
    (hslots : start.toNat + (((n : Int) + 1) * nf).toNat ≤ agents.length) :
    (∃ r, censusBlock engine i j dx n nf community_size n5 n17 family_id start agents nr =
        some r ∧
      (∀ q : Nat, q < (((n : Int) + 1) * nf).toNat →
        ∃ a, r.1[start.toNat + q]? = some a ∧ a.family = family_id + q) ∧
      ∀ (q q' : Nat) (a a' : Agent), q < (((n : Int) + 1) * nf).toNat →
        q' < (((n : Int) + 1) * nf).toNat → r.1[start.toNat + q]? = some a →
        r.1[start.toNat + q']? = some a' → a.family = a'.family → q = q') ∧
      ∀ (cells : List CensusCell) (idx : Nat), idx < (familyArray cells).length →
        (famId cells)[idx]? = some (((familyArray cells).take idx).sum) := by
  constructor
  · obtain ⟨r, hr⟩ := censusBlock_total engine i j dx n nf community_size n5 n17 family_id
      start agents nr hslots
    obtain ⟨_, _, hin⟩ := censusBlock_spec engine i j dx n nf community_size n5 n17 family_id
      start agents nr r hr
    have hfam : ∀ q : Nat, q < (((n : Int) + 1) * nf).toNat →
        ∃ a, r.1[start.toNat + q]? = some a ∧ a.family = family_id + q := by
      intro q hq
      have hlt : start.toNat + q < agents.length := by omega
      have h1 := hin q hq
      rw [List.getElem?_eq_getElem hlt] at h1
      simp only [Option.map_some'] at h1
      refine ⟨_, h1, ?_⟩
      rw [(censusAgent_family engine i j dx _ _ _ _).1, censusThreadAfter_family_id]
    refine ⟨r, hr, hfam, ?_⟩
    intro q q' a a' hq hq' ha ha' heq
    obtain ⟨b, hb, hbf⟩ := hfam q hq
    obtain ⟨b', hb', hbf'⟩ := hfam q' hq'
    rw [ha] at hb
    rw [ha'] at hb'
    simp only [Option.some.injEq] at hb hb'
    subst hb hb'
    rw [hbf, hbf'] at heq
    omega
  · intro cells idx hidx
    unfold famId
    rw [(exclusiveScanFrom_spec (familyArray cells) 0).2.2 idx hidx, zero_add]

/-- C39, at a block of one family of size `2` with every draw `50`: the two agents get the
family ids `7` and `8`. -/
theorem censusBlock_family_ids_witness :
    ∃ r, censusBlock (fun _ => 50) 0 0 (1, 1) 1 1 2000 0 0 7 0 [agentZero, agentZero]
        (fun _ => 0) = some r ∧
      (∀ q : Nat, q < ((((1 : Nat) : Int) + 1) * 1).toNat →
        ∃ a, r.1[(0 : Int).toNat + q]? = some a ∧ a.family = 7 + q) ∧
      ∀ (q q' : Nat) (a a' : Agent), q < ((((1 : Nat) : Int) + 1) * 1).toNat →
        q' < ((((1 : Nat) : Int) + 1) * 1).toNat → r.1[(0 : Int).toNat + q]? = some a →
        r.1[(0 : Int).toNat + q']? = some a' → a.family = a'.family → q = q' :=
  (censusBlock_family_ids (fun _ => 50) 0 0 (1, 1) 1 1 2000 0 0 7 0 [agentZero, agentZero]
    (fun _ => 0) (by decide)).1

/-- The attributes written by one iteration of the loop over `ip`, apart from the age
group and the family id. -/
theorem censusAgent_fields (engine : Nat → Int) (i j : Int) (dx : ℚ × ℚ)
    (family_size p_schoolage : Int) (agent : Agent) (t : CensusThread) :
    ∃ a, (censusAgent engine i j dx family_size p_schoolage agent t).1 = a ∧
      a.pos_x = ((i : ℚ) + 1/2) * dx.1 ∧ a.pos_y = ((j : ℚ) + 1/2) * dx.2 ∧
      a.home_i = i ∧ a.work_i = i ∧ a.home_j = j ∧ a.work_j = j ∧
      a.nborhood = engine (t.k + 1) ∧ a.work_nborhood = 5 * a.nborhood ∧ a.workgroup = 0 ∧
      a.status = Status.never ∧ a.disease_counter = 0 ∧
      (a.age_group = 0 → a.school = 5) ∧
      (a.age_group = 1 → ∃ k, a.school = assign_school a.nborhood (engine k)) ∧
      (a.age_group ≠ 0 → a.age_group ≠ 1 → a.school = -1) := by
  refine ⟨_, rfl, ?_⟩
  have hnb : (censusAges engine family_size p_schoolage t.nr t.k).1 = engine (t.k + 1) := rfl
  unfold censusAgent
  dsimp only
  rw [hnb]
  by_cases h0 : (censusAges engine family_size p_schoolage t.nr t.k).2.1 = 0
  · rw [if_pos h0]
    refine ⟨rfl, rfl, rfl, rfl, rfl, rfl, rfl, rfl, rfl, rfl, rfl, fun _ => rfl, ?_, ?_⟩
    · intro h1
      have h2 : (censusAges engine family_size p_schoolage t.nr t.k).2.1 = 1 := h1
      rw [h0] at h2
      exact absurd h2 (by decide)
    · intro h
      exact absurd h0 h
  · by_cases h1 : (censusAges engine family_size p_schoolage t.nr t.k).2.1 = 1
    · rw [if_neg h0, if_pos h1]
      exact ⟨rfl, rfl, rfl, rfl, rfl, rfl, rfl, rfl, rfl, rfl, rfl, fun h => absurd h h0,
        fun _ => ⟨_, rfl⟩, fun _ h => absurd h1 h⟩
    · rw [if_neg h0, if_neg h1]
      exact ⟨rfl, rfl, rfl, rfl, rfl, rfl, rfl, rfl, rfl, rfl, rfl, fun h => absurd h h0,
        fun h => absurd h h1, fun _ _ => rfl⟩

/-- C32: the block of the cell `(i, j)` and a component, run on allocated slots, returns,
and every agent it creates has the position `((i + 1/2) * dx, (j + 1/2) * dy)`,
`home_i = work_i = i`, `home_j = work_j = j`, as `nborhood` the second value drawn in its
iteration, which is in `{0, 1, 2, 3}` when that draw is in `[0, 4)`,
`work_nborhood = 5 * nborhood`, `workgroup = 0`, the status never, `disease_counter = 0`,
and the school `5` if its age group is `0`, a value of `assign_school(nborhood)` if its
age group is `1`, and `-1` otherwise. -/
theorem censusBlock_agent_fields (engine : Nat → Int) (i j : Int) (dx : ℚ × ℚ) (n : Nat)
    (nf community_size n5 n17 family_id start : Int) (agents : List Agent) (nr : Int → Int)
    (hslots : start.toNat + (((n : Int) + 1) * nf).toNat ≤ agents.length) :
    ∃ r, censusBlock engine i j dx n nf community_size n5 n17 family_id start agents nr =
        some r ∧
      ∀ q : Nat, q < (((n : Int) + 1) * nf).toNat →
        ∃ a, r.1[start.toNat + q]? = some a ∧
          a.pos_x = ((i : ℚ) + 1/2) * dx.1 ∧ a.pos_y = ((j : ℚ) + 1/2) * dx.2 ∧
          a.home_i = i ∧ a.work_i = i ∧ a.home_j = j ∧ a.work_j = j ∧
          a.nborhood = engine ((censusThreadAfter engine ((n : Int) + 1)
            (schoolAge community_size n5 n17) q
            { nr := nr, family_id := family_id, k := 0 }).k + 1) ∧
          (0 ≤ a.nborhood → a.nborhood < 4 →
            a.nborhood = 0 ∨ a.nborhood = 1 ∨ a.nborhood = 2 ∨ a.nborhood = 3) ∧
          a.work_nborhood = 5 * a.nborhood ∧ a.workgroup = 0 ∧
          a.status = Status.never ∧ a.disease_counter = 0 ∧
          (a.age_group = 0 → a.school = 5) ∧
          (a.age_group = 1 → ∃ k, a.school = assign_school a.nborhood (engine k)) ∧
          (a.age_group ≠ 0 → a.age_group ≠ 1 → a.school = -1) := by
  obtain ⟨r, hr⟩ := censusBlock_total engine i j dx n nf community_size n5 n17 family_id
    start agents nr hslots
  obtain ⟨_, _, hin⟩ := censusBlock_spec engine i j dx n nf community_size n5 n17 family_id
    start agents nr r hr
  refine ⟨r, hr, ?_⟩
  intro q hq
  have hlt : start.toNat + q < agents.length := by omega
  have h1 := hin q hq
  rw [List.getElem?_eq_getElem hlt] at h1
  simp only [Option.map_some'] at h1
  obtain ⟨a, ha, f1, f2, f3, f4, f5, f6, f7, f8, f9, f10, f11, f12, f13, f14⟩ :=
    censusAgent_fields engine i j dx ((n : Int) + 1) (schoolAge community_size n5 n17)
      agents[start.toNat + q]
      (censusThreadAfter engine ((n : Int) + 1) (schoolAge community_size n5 n17) q
        { nr := nr, family_id := family_id, k := 0 })
  rw [ha] at h1
  exact ⟨a, h1, f1, f2, f3, f4, f5, f6, f7, by intro h0 h4; omega, f8, f9, f10, f11, f12,
    f13, f14⟩

/-- C32, at a block of two households of size `1` of the cell `(3, 4)` with every draw
`2`, on two allocated slots and cells of size `(1, 1)`. -/
theorem censusBlock_agent_fields_witness :
    ∃ r, censusBlock (fun _ => 2) 3 4 (1, 1) 0 2 2000 0 0 0 0 [agentZero, agentZero]
        (fun _ => 0) = some r ∧
      ∀ q : Nat, q < ((((0 : Nat) : Int) + 1) * 2).toNat →
        ∃ a, r.1[(0 : Int).toNat + q]? = some a ∧
          a.pos_x = (((3 : Int) : ℚ) + 1/2) * ((1, 1) : ℚ × ℚ).1 ∧
          a.pos_y = (((4 : Int) : ℚ) + 1/2) * ((1, 1) : ℚ × ℚ).2 ∧
          a.home_i = 3 ∧ a.work_i = 3 ∧ a.home_j = 4 ∧ a.work_j = 4 ∧
          a.nborhood = (fun _ : Nat => (2 : Int)) ((censusThreadAfter (fun _ => 2)
            (((0 : Nat) : Int) + 1) (schoolAge 2000 0 0) q
            { nr := fun _ => 0, family_id := 0, k := 0 }).k + 1) ∧
          (0 ≤ a.nborhood → a.nborhood < 4 →
            a.nborhood = 0 ∨ a.nborhood = 1 ∨ a.nborhood = 2 ∨ a.nborhood = 3) ∧
          a.work_nborhood = 5 * a.nborhood ∧ a.workgroup = 0 ∧
          a.status = Status.never ∧ a.disease_counter = 0 ∧
          (a.age_group = 0 → a.school = 5) ∧
          (a.age_group = 1 → ∃ k, a.school = assign_school a.nborhood
            ((fun _ : Nat => (2 : Int)) k)) ∧
          (a.age_group ≠ 0 → a.age_group ≠ 1 → a.school = -1) :=
  censusBlock_agent_fields (fun _ => 2) 3 4 (1, 1) 0 2 2000 0 0 0 0 [agentZero, agentZero]
    (fun _ => 0) (by decide)

/-! ## Theorems: the cached bins of `interactAgentsHomeWork` -/

theorem ensureBins_phaseBins (build : List Agent → Bins) (home : Bool) (t : Tile) :
    (t.phaseBins home = none →
        (t.ensureBins build home).phaseBins home = some (build t.agents)) ∧
      (∀ b, t.phaseBins home = some b → t.ensureBins build home = t) ∧
      (t.ensureBins build home).phaseBins (!home) = t.phaseBins (!home) := by
  refine ⟨?_, ?_, ?_⟩
  · intro h
    unfold Tile.ensureBins
    rw [h]
    cases home <;> simp [Tile.phaseBins]
  · intro b h
    unfold Tile.ensureBins
    rw [h]
  · unfold Tile.ensureBins
    cases hb : t.phaseBins home with
    | some b => rfl
    | none => cases home <;> simp [Tile.phaseBins]

/-- C34, the claim as stated fails: the home bins of the tile `tileOne` are built by the
first call with the agent at `x = 0`; after `moveRandomTravel` has moved the agent to
`x = 1500`, the next call for the home phase keeps the bins of the first call, which are
not the bins of the current positions. -/
theorem interactAgentsHomeWork_bins_not_rebuilt :
    (moveRandomTravel (fun _ k => if k = 0 then 0 else 1/2) [agentZero]).map
        (fun a => a.pos_x) = [1500] ∧
      ({ (tileOne.ensureBins buildByColumn true) with
          agents := moveRandomTravel (fun _ k => if k = 0 then 0 else 1/2)
            [agentZero] }.ensureBins buildByColumn true).m_bins_home =
        some { inds := [0], offsets := [0, 1, 1] } ∧
      buildByColumn (moveRandomTravel (fun _ k => if k = 0 then 0 else 1/2) [agentZero]) =
        { inds := [0], offsets := [0, 0, 1] } := by
  refine ⟨?_, ?_, ?_⟩
  · simp only [moveRandomTravel, moveRandomTravelFrom, moveRandomTravelAgent]
    norm_num
  · simp [Tile.ensureBins, Tile.phaseBins, tileOne, buildByColumn, agentZero, List.range_succ]
  · simp only [moveRandomTravel, moveRandomTravelFrom, moveRandomTravelAgent]
    norm_num [buildByColumn, List.range_succ, agentZero]

/-- C34, amended: `interactAgentsHomeWork` builds the bins of its phase from the current
agents only if they never were built, and otherwise keeps the cached bins whatever the
positions are; it leaves the bins of the other phase as they are, and its pair loop runs
on these bins. The bins on entry to the pair loop are those of the current agents when
they never were built, or when `build` on the current agents gives what it gave on the
agents they were built from, as it does when `build` reads positions only and every agent
has the position it had then. -/
theorem interactAgentsHomeWork_bins_cached (lparm : DiseaseParm) (build : List Agent → Bins)
    (binner : ℚ → ℚ → Nat) (home : Bool) (t : Tile) :
    (t.phaseBins home = none →
        (t.ensureBins build home).phaseBins home = some (build t.agents)) ∧
      (∀ b, t.phaseBins home = some b → (t.ensureBins build home).phaseBins home = some b) ∧
      (∀ t', interactAgentsHomeWork lparm build binner home t = some t' →
        t'.phaseBins home = (t.ensureBins build home).phaseBins home ∧
          t'.phaseBins (!home) = t.phaseBins (!home) ∧
          ∃ bins, (t.ensureBins build home).phaseBins home = some bins ∧
            interactAgentsHomeWorkKernel lparm home binner bins t.agents = some t'.agents) ∧
      (∀ ag0 : List Agent,
        (∀ ag ag' : List Agent, ag.map (fun a => (a.pos_x, a.pos_y)) =
          ag'.map (fun a => (a.pos_x, a.pos_y)) → build ag = build ag') →
        t.phaseBins home = some (build ag0) →
        t.agents.map (fun a => (a.pos_x, a.pos_y)) = ag0.map (fun a => (a.pos_x, a.pos_y)) →
        (t.ensureBins build home).phaseBins home = some (build t.agents)) := by
  obtain ⟨h1, h2, h3⟩ := ensureBins_phaseBins build home t
  refine ⟨h1, ?_, ?_, ?_⟩
  · intro b hb
    rw [h2 b hb, hb]
  · intro t' h
    unfold interactAgentsHomeWork at h
    simp only [Option.bind_eq_bind, Option.pure_def] at h
    cases hb : (t.ensureBins build home).phaseBins home with
    | none => rw [hb] at h; cases h
    | some bins =>
      rw [hb] at h
      simp only [Option.some_bind] at h
      split_ifs at h with hlen
      cases hk : interactAgentsHomeWorkKernel lparm home binner bins
          (t.ensureBins build home).agents with
      | none => rw [hk] at h; cases h
      | some ag' =>
        rw [hk] at h
        simp only [Option.some_bind, Option.some.injEq] at h
        subst h
        rw [ensureBins_agents] at hk
        refine ⟨?_, ?_, bins, rfl, hk⟩
        · rw [← hb]
          cases home <;> rfl
        · rw [← h3]
          cases home <;> rfl
  · intro ag0 hbuild hb hpos
    rw [h2 _ hb, hb, hbuild _ _ hpos]

/-- C34, amended, at the tile `tileOne` in the home phase: the first call builds the bins
of the agent at `x = 0`. -/
theorem interactAgentsHomeWork_bins_cached_witness :
    (tileOne.ensureBins buildByColumn true).phaseBins true =
      some { inds := [0], offsets := [0, 1, 1] } := by
  rw [(interactAgentsHomeWork_bins_cached lparmUnit buildByColumn (fun _ _ => 0) true
    tileOne).1 rfl]
  simp [tileOne, buildByColumn, agentZero, List.range_succ]

/-! ## Theorems: the day of the onset -/

theorem wardBlock_frame (e : Nat → ℚ) (t : Thread) :
    (wardBlock e t).a = { t.a with status := (wardBlock e t).a.status } := by
  unfold wardBlock
  dsimp only
  split_ifs <;> rfl

theorem icuBlock_frame (e : Nat → ℚ) (t : Thread) :
    (icuBlock e t).a = { t.a with status := (icuBlock e t).a.status } := by
  unfold icuBlock
  dsimp only
  split_ifs <;> rfl

theorem ventilatorBlock_frame (e : Nat → ℚ) (t : Thread) :
    (ventilatorBlock e t).a = { t.a with status := (ventilatorBlock e t).a.status } := by
  unfold ventilatorBlock
  dsimp only
  split_ifs <;> rfl

theorem onsetBlock_frame (e : Nat → ℚ) (t : Thread) :
    (onsetBlock e t).a = { t.a with treatment_timer := (onsetBlock e t).a.treatment_timer } := by
  unfold onsetBlock
  dsimp only
  split_ifs <;> rfl

/-- The body of `updateStatus` on an infected agent adds `1` to the counter and keeps the
incubation period; on another agent it keeps both. -/
theorem updateStatusAgent_counter (e : Nat → ℚ) (ds : Stats) (a : Agent) :
    (updateStatusAgent e ds a).1.incubation_period = a.incubation_period ∧
      (a.status = Status.infected →
        (updateStatusAgent e ds a).1.disease_counter = a.disease_counter + 1) ∧
      (a.status ≠ Status.infected → (updateStatusAgent e ds a).1.status ≠ Status.infected) := by
  by_cases hs : a.status = Status.infected
  · refine ⟨?_, fun _ => ?_, fun h => absurd hs h⟩
    all_goals
      by_cases hinc : a.disease_counter + 1 < a.incubation_period
      · unfold updateStatusAgent
        simp only [hs, if_pos hinc]
        norm_num
      · by_cases hon : a.disease_counter + 1 = (⌈a.incubation_period⌉ : ℚ)
        · rw [updateStatusAgent_onset e ds a hs hinc hon]
          dsimp only
          rw [onsetBlock_frame]
        · by_cases ht : 0 < a.treatment_timer
          · rw [updateStatusAgent_hospital e ds a hs hinc hon ht]
            dsimp only
            rw [ventilatorBlock_frame, icuBlock_frame, wardBlock_frame]
          · unfold updateStatusAgent
            simp only [hs, if_neg hinc, if_neg hon]
            norm_num [ht]
            split_ifs <;> rfl
  · rw [updateStatusAgent_not_infected e ds a hs]
    exact ⟨rfl, fun h => absurd h hs, fun _ => hs⟩

theorem updateStatusAgent_incubating (e : Nat → ℚ) (ds : Stats) (a : Agent)
    (h : incubating a) :
    updateStatusAgent e ds a =
      ({ a with prob := 1, disease_counter := a.disease_counter + 1 }, ds) := by
  unfold updateStatusAgent
  simp only [h.1, if_pos h.2]
  norm_num

/-- Along the daily runs, the incubation period is kept and an agent that is still
infected after `d` days has the counter `d`. -/
theorem updateStatusDays_counter (e : Nat → Nat → ℚ) (ds : Stats) (a : Agent)
    (hc : a.disease_counter = 0) :
    ∀ d : Nat, (updateStatusDays e d (a, ds)).1.incubation_period = a.incubation_period ∧
      ((updateStatusDays e d (a, ds)).1.status = Status.infected →
        (updateStatusDays e d (a, ds)).1.disease_counter = (d : ℚ))
  | 0 => by simp [updateStatusDays, hc]
  | d + 1 => by
    obtain ⟨hinc, hcount⟩ := updateStatusDays_counter e ds a hc d
    obtain ⟨h1, h2, h3⟩ := updateStatusAgent_counter (e d) (updateStatusDays e d (a, ds)).2
      (updateStatusDays e d (a, ds)).1
    simp only [updateStatusDays]
    refine ⟨h1.trans hinc, ?_⟩
    intro hs
    have hs0 : (updateStatusDays e d (a, ds)).1.status = Status.infected := by
      by_contra hne
      exact h3 hne hs
    rw [h2 hs0, hcount hs0]
    push_cast
    ring

/-- During the incubation the daily runs keep the agent infected and the statistics as
they are. -/
theorem updateStatusDays_incubation (e : Nat → Nat → ℚ) (ds : Stats) (a : Agent)
    (hs : a.status = Status.infected) (hc : a.disease_counter = 0) :
    ∀ d : Nat, ((d : Int) + 1 ≤ ⌈a.incubation_period⌉) →
      (updateStatusDays e d (a, ds)).1.status = Status.infected ∧
        (updateStatusDays e d (a, ds)).2 = ds
  | 0, _ => ⟨hs, rfl⟩
  | d + 1, hd => by
    obtain ⟨hs', hds'⟩ := updateStatusDays_incubation e ds a hs hc d
      (by push_cast at hd; omega)
    obtain ⟨hinc, hcount⟩ := updateStatusDays_counter e ds a hc d
    have hlt : ((d : Int) + 1 : Int) < ⌈a.incubation_period⌉ := by
      push_cast at hd
      omega
    have hinc' : incubating (updateStatusDays e d (a, ds)).1 := by
      refine ⟨hs', ?_⟩
      rw [hcount hs', hinc]
      have := Int.lt_ceil.mp hlt
      push_cast at this
      exact this
    simp only [updateStatusDays]
    rw [updateStatusAgent_incubating _ _ _ hinc']
    exact ⟨hs', hds'⟩

/-- C38: for an agent infected with `disease_counter = 0` and an incubation period above
`0`, with `N` the ceiling of the incubation period, the daily runs of the body of
`updateStatus` take the incubation branch on the days before the day `N`, the onset
branch on the day `N` and on no other day, and the branches of the countdown and of the
recovery on no day up to the day `N`; the first day that is not in the incubation branch
is the day of the onset, and the run of the day `N` is the onset block. -/
theorem updateStatus_onset_once (e : Nat → Nat → ℚ) (ds : Stats) (a : Agent)
    (hs : a.status = Status.infected) (hc : a.disease_counter = 0)
    (hinc : 0 < a.incubation_period) :
    1 ≤ ⌈a.incubation_period⌉.toNat ∧
      (∀ d : Nat, d + 1 < ⌈a.incubation_period⌉.toNat →
        incubating (updateStatusDays e d (a, ds)).1) ∧
      onsetDay (updateStatusDays e (⌈a.incubation_period⌉.toNat - 1) (a, ds)).1 ∧
      (∀ d : Nat, d ≠ ⌈a.incubation_period⌉.toNat - 1 →
        ¬ onsetDay (updateStatusDays e d (a, ds)).1) ∧
      (∀ d : Nat, d + 1 ≤ ⌈a.incubation_period⌉.toNat →
        ¬ afterOnset (updateStatusDays e d (a, ds)).1) ∧
      (∀ d : Nat, ¬ incubating (updateStatusDays e d (a, ds)).1 →
        (∀ d' : Nat, d' < d → incubating (updateStatusDays e d' (a, ds)).1) →
        onsetDay (updateStatusDays e d (a, ds)).1) ∧
      updateStatusDays e (⌈a.incubation_period⌉.toNat - 1 + 1) (a, ds) =
        ((onsetBlock (e (⌈a.incubation_period⌉.toNat - 1))
            { a := { (updateStatusDays e (⌈a.incubation_period⌉.toNat - 1) (a, ds)).1 with
                      prob := 1
                      disease_counter :=
                        (updateStatusDays e (⌈a.incubation_period⌉.toNat - 1)
                          (a, ds)).1.disease_counter + 1 },
              ds := ds, k := 0 }).a,
         (onsetBlock (e (⌈a.incubation_period⌉.toNat - 1))
            { a := { (updateStatusDays e (⌈a.incubation_period⌉.toNat - 1) (a, ds)).1 with
                      prob := 1
                      disease_counter :=
                        (updateStatusDays e (⌈a.incubation_period⌉.toNat - 1)
                          (a, ds)).1.disease_counter + 1 },
              ds := ds, k := 0 }).ds) := by
  have hceil : 0 < ⌈a.incubation_period⌉ := Int.ceil_pos.mpr hinc
  have hN : ((⌈a.incubation_period⌉.toNat : Nat) : Int) = ⌈a.incubation_period⌉ :=
    Int.toNat_of_nonneg (le_of_lt hceil)
  have hN1 : 1 ≤ ⌈a.incubation_period⌉.toNat := by omega
  have hinf : ∀ d : Nat, d + 1 ≤ ⌈a.incubation_period⌉.toNat →
      (updateStatusDays e d (a, ds)).1.status = Status.infected ∧
        (updateStatusDays e d (a, ds)).2 = ds := by
    intro d hd
    exact updateStatusDays_incubation e ds a hs hc d (by omega)
  have hcnt := updateStatusDays_counter e ds a hc
  have hincub : ∀ d : Nat, d + 1 < ⌈a.incubation_period⌉.toNat →
      incubating (updateStatusDays e d (a, ds)).1 := by
    intro d hd
    obtain ⟨hsd, _⟩ := hinf d (by omega)
    refine ⟨hsd, ?_⟩
    rw [(hcnt d).2 hsd, (hcnt d).1]
    have hlt : ((d : Int) + 1 : Int) < ⌈a.incubation_period⌉ := by omega
    have := Int.lt_ceil.mp hlt
    push_cast at this
    exact this
  have honset : onsetDay (updateStatusDays e (⌈a.incubation_period⌉.toNat - 1) (a, ds)).1 := by
    obtain ⟨hsd, _⟩ := hinf (⌈a.incubation_period⌉.toNat - 1) (by omega)
    have hcast : ((⌈a.incubation_period⌉.toNat - 1 : Nat) : ℚ) + 1 =
        (⌈a.incubation_period⌉ : ℚ) := by
      have h1 : ((⌈a.incubation_period⌉.toNat - 1 : Nat) : Int) + 1 = ⌈a.incubation_period⌉ := by
        omega
      have h2 := congrArg (fun z : Int => (z : ℚ)) h1
      simp only [Int.cast_add, Int.cast_natCast, Int.cast_one] at h2
      exact h2
    refine ⟨hsd, ?_, ?_⟩
    · rw [(hcnt _).2 hsd, (hcnt _).1, hcast]
      exact not_lt.mpr (Int.le_ceil _)
    · rw [(hcnt _).2 hsd, (hcnt _).1, hcast]
  have hother : ∀ d : Nat, d ≠ ⌈a.incubation_period⌉.toNat - 1 →
      ¬ onsetDay (updateStatusDays e d (a, ds)).1 := by
    intro d hd ⟨hsd, hnlt, heq⟩
    rcases Nat.lt_or_ge (d + 1) ⌈a.incubation_period⌉.toNat with h | h
    · exact hnlt (hincub d h).2
    · rw [(hcnt d).2 hsd, (hcnt d).1] at heq
      have h1 : ((d : Int) + 1 : Int) = ⌈a.incubation_period⌉ := by
        have : (((d : Int) + 1 : Int) : ℚ) = ((⌈a.incubation_period⌉ : Int) : ℚ) := by
          push_cast
          exact heq
        exact Int.cast_injective this
      omega
  refine ⟨hN1, hincub, honset, hother, ?_, ?_, ?_⟩
  · intro d hd ⟨hsd, hnlt, hne⟩
    rcases Nat.lt_or_ge (d + 1) ⌈a.incubation_period⌉.toNat with h | h
    · exact hnlt (hincub d h).2
    · have hd' : d = ⌈a.incubation_period⌉.toNat - 1 := by omega
      subst hd'
      exact hne honset.2.2
  · intro d hnot hbefore
    rcases Nat.lt_trichotomy d (⌈a.incubation_period⌉.toNat - 1) with h | h | h
    · exact absurd (hincub d (by omega)) hnot
    · rw [h]
      exact honset
    · exact absurd (hbefore _ h).2 honset.2.1
  · simp only [updateStatusDays]
    rw [updateStatusAgent_onset _ _ _ honset.1 honset.2.1 honset.2.2,
      (hinf (⌈a.incubation_period⌉.toNat - 1) (by omega)).2]

/-- C38, at the agent `agentIncubating`, of incubation period `5/2`: the onset is on the
day `3`, after two days in the incubation branch. -/
theorem updateStatus_onset_once_witness :
    agentIncubating.status = Status.infected ∧ agentIncubating.disease_counter = 0 ∧
      (0 : ℚ) < agentIncubating.incubation_period ∧
      (∀ d : Nat, d + 1 < ⌈agentIncubating.incubation_period⌉.toNat →
        incubating (updateStatusDays (fun _ => engineHalf) d (agentIncubating, statsZero)).1) ∧
      onsetDay (updateStatusDays (fun _ => engineHalf)
        (⌈agentIncubating.incubation_period⌉.toNat - 1) (agentIncubating, statsZero)).1 :=
  ⟨rfl, rfl, by norm_num [agentIncubating, agentZero],
    (updateStatus_onset_once (fun _ => engineHalf) statsZero agentIncubating rfl rfl
      (by norm_num [agentIncubating, agentZero])).2.1,
    (updateStatus_onset_once (fun _ => engineHalf) statsZero agentIncubating rfl rfl
      (by norm_num [agentIncubating, agentZero])).2.2.1⟩

end ExaEpi
